import Mathlib

/-!
RLVM: the execution engine's variable memory, call stack, module registry and main loop.

A shallow embedding of `src/MachineBase/RLMachine.cpp` (the `RLMachine` class of
RLVM, a RealLive virtual machine clone) and theorems about it.

Conventions of the embedding

* A C++ `int` is a Lean `Int` in the range `-2^31 .. 2^31 - 1`; arithmetic that
  leaves the range wraps modulo `2^32`.  Bitwise operators act on the 32-bit
  two's complement pattern of their operands.
* A member function of `RLMachine` is a function from the machine state to a
  `Res`: it returns normally with a new state, throws `rlvm::Exception`
  (the state at the throw is kept), or runs into an operation without meaning
  (an access outside an array, a division by zero, `top()` of an empty stack).
* What `RLMachine.cpp` takes from headers that are not among the translated
  sources is a field of `Config`; the code it calls that is not among them (module
  handlers, long operations, the expression evaluator) is a field of `World`.
-/

namespace RLVM

/-! ## Results of running machine code -/

/-- The exceptions thrown: the `rlvm::Exception`s of `RLMachine.cpp` and
`SerializationLocal.cpp`, one constructor per message, and the standard exceptions of
`LazyArray.hpp` and of the archive library. -/
inductive Exn where
  /-- "Invalid scenario file" (constructors). -/
  | invalidScenarioFile
  /-- "Module identification clash: ..." (`attachModule`). -/
  | moduleClash
  /-- "Illegal index location (N) in RLMachine::getIntVlaue()" (`throwIllegalIndex`). -/
  | illegalIndex (location : Int)
  /-- "Illegal index location in RLMachine::getIntValue()". -/
  | illegalIndexLocation
  /-- "Illegal index in RLMachine::setIntValue()". -/
  | illegalIndexSet
  /-- "Invalid range access in RLMachine::setStringValue". -/
  | invalidRangeAccess
  /-- "Invalid range access on strK in RLMachine::setStringValue". -/
  | invalidRangeAccessStrK
  /-- "Invalid type in RLMachine::getStringValue". -/
  | invalidTypeGetString
  /-- "Invalid type in RLMachine::setStringValue". -/
  | invalidTypeSetString
  /-- "Undefined module<T:M>" (`executeCommand`). -/
  | undefinedModule (modtype module : Int)
  /-- "Invalid scenario number in jump" (`jump` and `farcall`). -/
  | invalidScenarioNumber
  /-- "Callstack type mismatch in returnFromFarcall()". -/
  | callstackMismatchFarcall
  /-- "Callstack type mismatch in returnFromGosub()". -/
  | callstackMismatchGosub
  /-- "Unknown SEEN #N in save file!" (`load` of a stack frame). -/
  | unknownSeen (sceneNumber : Int)
  /-- "K is an illegal bytecode offset for SEEN #N in save file!" (`load` of a stack frame). -/
  | illegalOffset (offset sceneNumber : Int)
  /-- The `boost::archive::archive_exception` of a read that does not find its item. -/
  | archiveException
  /-- The `std::out_of_range("LazyArray::operator[]")`. -/
  | out_of_range
  /-- The `std::runtime_error("Not enough space in target array in LazyArray::copyTo")`. -/
  | runtime_error
  /-- The `std::bad_alloc` of an array `new` with a negative size. -/
  | bad_alloc
  deriving DecidableEq, Repr

/-- Operations to which C++ gives no meaning. -/
inductive Undef where
  /-- Subscript outside the extent of an array. -/
  | outOfBounds
  /-- Division or remainder with divisor zero (or `INT_MIN / -1`). -/
  | divisionByZero
  /-- Use of `top()` or `pop()` on an empty stack, or of `begin()` of an empty map. -/
  | emptyContainer
  /-- Increment of an iterator that is not before `end()`. -/
  | pastTheEnd
  /-- Use of a null pointer. -/
  | nullDereference
  deriving DecidableEq, Repr

/-- Outcome of a member function run on a state of type `σ`. -/
inductive Res (σ α : Type) where
  /-- Normal return with value `a`, leaving state `s`. -/
  | ok (a : α) (s : σ)
  /-- An exception `e` left the function; `s` is the state at the throw. -/
  | thrown (e : Exn) (s : σ)
  /-- An operation without meaning was evaluated. -/
  | undefined (u : Undef)

/-- A computation over a state of type `σ`. -/
def Exec (σ α : Type) : Type := σ → Res σ α

/-- Sequencing: the second computation runs only after a normal return. -/
def Exec.bind {σ α β : Type} (x : Exec σ α) (f : α → Exec σ β) : Exec σ β :=
  fun s =>
    match x s with
    | .ok a s1 => f a s1
    | .thrown e s1 => .thrown e s1
    | .undefined u => .undefined u

instance {σ : Type} : Monad (Exec σ) where
  pure a := fun s => .ok a s
  bind := Exec.bind

/-- The C++ statement `throw rlvm::Exception(...)`. -/
def throwExn {σ α : Type} (e : Exn) : Exec σ α := fun s => .thrown e s

/-- An operation without meaning. -/
def undef {σ α : Type} (u : Undef) : Exec σ α := fun _ => .undefined u

/-- Read the state. -/
def getState {σ : Type} : Exec σ σ := fun s => .ok s s

/-- Replace the state. -/
def setState {σ : Type} (s : σ) : Exec σ Unit := fun _ => .ok () s

/-- The value of a normal return. -/
def Res.value? {σ α : Type} : Res σ α → Option α
  | .ok a _ => some a
  | _ => none

/-- The state left by a normal return or at a throw. -/
def Res.state? {σ α : Type} : Res σ α → Option σ
  | .ok _ s => some s
  | .thrown _ s => some s
  | .undefined _ => none

/-- The exception that left the function. -/
def Res.exn? {σ α : Type} : Res σ α → Option Exn
  | .thrown e _ => some e
  | _ => none

/-! ## 32-bit integer arithmetic -/

/-- The range of a C++ `int`. -/
def isInt32 (x : Int) : Prop := -2147483648 ≤ x ∧ x < 2147483648

instance (x : Int) : Decidable (isInt32 x) := by unfold isInt32; infer_instance

/-- Wrap an integer into the range of `int` (two's complement). -/
def toInt32 (x : Int) : Int := (x + 2147483648) % 4294967296 - 2147483648

/-- The 32-bit pattern of an `int`; also the conversion `uint(x)`. -/
def toBits (x : Int) : Nat := (x % 4294967296).toNat

/-- The `int` with a given 32-bit pattern. -/
def ofBits (n : Nat) : Int := toInt32 (n : Int)

/-- C++ `a & b` on `int`. -/
def cand (a b : Int) : Int := ofBits (toBits a &&& toBits b)

/-- C++ `a | b` on `int`. -/
def cor (a b : Int) : Int := ofBits (toBits a ||| toBits b)

/-- C++ `~a` on `int`: all 32 bits flipped. -/
def cnot (a : Int) : Int := ofBits (toBits a ^^^ 4294967295)

/-- C++ `a - b` on `int`. -/
def csub (a b : Int) : Int := toInt32 (a - b)

/-- C++ `a * b` on `int`. -/
def cmul (a b : Int) : Int := toInt32 (a * b)

/-- C++ `a >> n` on `int` for a count in `0..31`: the arithmetic shift. A count outside
`0..31` is given the result of `overshift`. -/
def cshr (overshift : Int → Int → Int) (a n : Int) : Int :=
  if 0 ≤ n ∧ n < 32 then a / 2 ^ n.toNat else toInt32 (overshift a n)

/-- C++ `a << n` on `int` for a count in `0..31`: the pattern moved left, the bits
moved out dropped. A count outside `0..31` is given the result of `overshift`. -/
def cshl (overshift : Int → Int → Int) (a n : Int) : Int :=
  if 0 ≤ n ∧ n < 32 then ofBits (toBits a <<< n.toNat) else toInt32 (overshift a n)

/-- C++ `a / b` on `int`: truncating division. -/
def cdiv {σ : Type} (a b : Int) : Exec σ Int :=
  if b = 0 ∨ (a = -2147483648 ∧ b = -1) then undef .divisionByZero
  else pure (Int.tdiv a b)

/-- C++ `a % b` on `int`: remainder of the truncating division. -/
def cmod {σ : Type} (a b : Int) : Exec σ Int :=
  if b = 0 ∨ (a = -2147483648 ∧ b = -1) then undef .divisionByZero
  else pure (Int.tmod a b)

/-! ## What the translated sources leave open -/

/-- Declarations used by `RLMachine.cpp` whose definitions are in `RLMachine.hpp`, which
is not among the translated sources, and the behaviour of the compilation target where
C++ leaves it open. -/
structure Config where
  /-- Index of the Z bank in bytecode type codes. -/
  INTZ_LOCATION_IN_BYTECODE : Int
  /-- Index of the L bank in bytecode type codes. -/
  INTL_LOCATION_IN_BYTECODE : Int
  /-- Row of `intVar` holding the Z bank. -/
  INTZ_LOCATION : Int
  /-- Row of `intVar` holding the L bank. -/
  INTL_LOCATION : Int
  /-- Number of named integer banks. -/
  NUMBER_OF_INT_LOCATIONS : Int
  /-- First extent of the array `int intVar[..][2000]`. -/
  intVarRows : Nat
  /-- Value of `a << n` when the count `n` is outside `0..31`. -/
  shlOver : Int → Int → Int
  /-- Value of `a >> n` when the count `n` is outside `0..31`. -/
  shrOver : Int → Int → Int

/-- Modelled from the spec: the second extent of `intVar` ("fixed-size integer banks",
declared in RLMachine.hpp); 2000 words, the bound of the plain view's range check and
`64000 / 32`. -/
def INT_BANK_SIZE : Int := 2000

/-- Modelled from the spec: the extent of the string bank `strK` ("three fixed-size string
banks", declared in RLMachine.hpp); the bound of its range check. -/
def STRK_SIZE : Int := 3

/-- Modelled from the spec: the extent of the string banks `strM` and `strS` (declared in
RLMachine.hpp); the bound of their range check. -/
def STR_BANK_SIZE : Int := 2000

/-! ## Data model -/

/-- `MetaElement::MetaElementType` (libreallive/elements/meta.h): source line, kidoku and
entrypoint markers. -/
inductive MetaElementType where
  | Line_
  | Kidoku_
  | Entrypoint_
  deriving DecidableEq, Repr

/-- `libreallive::CommandElement` (libreallive/elements/command.h): the eight header bytes
`unsigned char command[COMMAND_SIZE]` and the jump targets the element holds, as element
offsets in its scenario. -/
structure CommandElement where
  /-- The header `command[0..7]`. -/
  command : Fin 8 → Fin 256
  /-- `GetPointer(i)`, resolved at decode time. -/
  pointers : List Nat

/-- `CommandElement::modtype()`. -/
def CommandElement.modtype (f : CommandElement) : Int := ((f.command 1).val : Int)

/-- `CommandElement::module()`. -/
def CommandElement.module (f : CommandElement) : Int := ((f.command 2).val : Int)

/-- Modelled from the spec: an expression element; its parsed expression is evaluated by
`libReallive/expression.h`, which is not among the sources. -/
structure ExpressionElement where
  /-- The source text of the expression. -/
  repr : String
  deriving DecidableEq, Repr

/-- Modelled from the spec: a text-output element and its `text()`. -/
structure TextoutElement where
  /-- The text in the encoding of the scenario. -/
  text : String
  deriving DecidableEq, Repr

/-- Modelled from the spec: `libReallive::BytecodeElement`, "polymorphic over variants
{Meta, Textout, Expression, Command}". -/
inductive BytecodeElement where
  | Meta (type : MetaElementType) (value : Int)
  | Textout (e : TextoutElement)
  | Expression (e : ExpressionElement)
  | Command (f : CommandElement)

/-- Modelled from the spec: `libReallive::Scenario` (libReallive/scenario.h is not among
the sources): an immutable sequence of bytecode elements addressed by element offset,
with its scene number, its text encoding tag and an entrypoint lookup yielding a
position. -/
structure Scenario where
  /-- `sceneNumber()`. -/
  sceneNumber : Int
  /-- The elements from `begin()` to `end()`. -/
  elements : List BytecodeElement
  /-- `encoding()`. -/
  encoding : Int
  /-- `findEntrypoint(entrypoint)`, as an offset from `begin()`. -/
  findEntrypoint : Int → Nat

/-- Number of elements: `distance(begin(), end())`. -/
def Scenario.size (s : Scenario) : Nat := s.elements.length

/-- Modelled from the spec: `libReallive::Archive` (libReallive/archive.h is not among the
sources): a mapping from scenario number to scenario, listed in key order. -/
abbrev Archive : Type := List (Int × Scenario)

/-- Modelled from the spec: `archive.scenario(number) -> Scenario*|null`. -/
def Archive.scenario (a : Archive) (number : Int) : Option Scenario :=
  (a.find? (fun p => p.1 == number)).map Prod.snd

/-- `StackFrame::FrameType`: the function that pushed the frame. `TYPE_LONGOP` is the
tag used by `SerializationLocal.cpp`. -/
inductive FrameType where
  /-- Added by the Machine's constructor. -/
  | TYPE_ROOT
  /-- Added by a call by gosub. -/
  | TYPE_GOSUB
  /-- Added by a call by farcall. -/
  | TYPE_FARCALL
  /-- Added when a long operation is pushed. -/
  | TYPE_LONGOP
  deriving DecidableEq, Repr

/-- `RLMachine::StackFrame`. The scenario pointer is modelled by the (immutable) scenario
it points to, the instruction pointer by its offset from `scenario->begin()`. -/
structure StackFrame where
  /-- The scenario in the SEEN file for this stack frame. -/
  scenario : Scenario
  /-- The instruction pointer in the stack frame. -/
  ip : Nat
  /-- The function that pushed the current frame onto the stack. -/
  frameType : FrameType

/-- A line written to `stderr`. -/
inductive Diag where
  /-- "Error: invalid access to Var<T>[L]" (`setIntValue`). -/
  | invalidAccess (type location : Int)
  /-- "WARNING: Invalid #SEEN_START in Gameexe" (constructor). -/
  | invalidSeenStart
  deriving DecidableEq, Repr

/-- Modelled from the spec: `RLModule` (MachineBase/RLModule.hpp is not among the
sources): "identifies a (module-type, module-number) pair and holds opcode handlers".
What its handlers do is `World.dispatchFunction`. -/
structure RLModule where
  /-- `moduleType()`. -/
  moduleType : Int
  /-- `moduleNumber()`. -/
  moduleNumber : Int
  /-- The name of the module, which tells two modules of one pair apart. -/
  name : String
  deriving DecidableEq, Repr

/-- Modelled from the spec: `LongOperation` (MachineBase/LongOperation.hpp is not among the
sources): "a resumable, possibly multi-tick action". The object is identified by `id`;
what it does when invoked is `World.invoke`. -/
structure LongOperation where
  /-- Identity of the object. -/
  id : Nat
  deriving DecidableEq, Repr

/-- A line written to `cout` by `executeNextInstruction`:
"(SEEN<sceneNumber>)(Line <m_line>):  <what>". -/
structure Printed where
  /-- Scene number of the top frame. -/
  sceneNumber : Int
  /-- The value of `m_line`; `none` while it is not initialised. -/
  line : Option Int
  /-- The exception caught. -/
  what : Exn
  deriving DecidableEq, Repr

/-- The state of an `RLMachine`. `callStack` lists the frames from the bottom of the
stack to its top. -/
structure RLMachine where
  /-- States whether the machine is halted. -/
  m_halted : Bool
  /-- Whether an exception during execution halts the machine. -/
  m_haltOnException : Bool
  /-- The SEEN.TXT the machine runs. -/
  archive : Archive
  /-- The call stack, bottom frame first. -/
  callStack : List StackFrame
  /-- The integer banks `int intVar[..][2000]`. -/
  intVar : Int → Int → Int
  /-- String bank `strK[3]`. -/
  strK : Int → String
  /-- String bank `strM[2000]`. -/
  strM : Int → String
  /-- String bank `strS[2000]`. -/
  strS : Int → String
  /-- Lines written to `stderr`, oldest first. -/
  stderr : List Diag
  /-- The current source line; the constructors leave it uninitialised (`none`). -/
  m_line : Option Int
  /-- The registry `modules`: the module found under a packed key. -/
  modules : Nat → Option RLModule
  /-- The long-operation stack `m_longOperationStack`, `back()` last. -/
  m_longOperationStack : List LongOperation
  /-- Lines written to `cout`, oldest first. -/
  stdout : List Printed

/-- Code of the repository that `RLMachine.cpp` calls and that is not among the sources:
the handlers of the modules, the long operations, the expression evaluator and the text
subsystem. -/
structure World where
  /-- `RLModule::dispatchFunction(machine, f)`. -/
  dispatchFunction : RLModule → CommandElement → Exec RLMachine Unit
  /-- `LongOperation::operator()(machine)`: one invocation, reporting completion. -/
  invoke : LongOperation → Exec RLMachine Bool
  /-- `e.parsedExpression().integerValue(machine)`. -/
  integerValue : ExpressionElement → Exec RLMachine Int
  /-- `cp932toUTF8(text, encoding)`. -/
  cp932toUTF8 : String → Int → String
  /-- `new TextoutLongOperation(machine, utf8str)`. -/
  newTextoutLongOperation : String → LongOperation
  /-- `system().text().messageNoWait()`. -/
  messageNoWait : Bool
  /-- `TextoutLongOperation::setNoWait()`. -/
  setNoWait : LongOperation → LongOperation

/-! ## Array accesses -/

/-- Evaluate `intVar[index][location]`. -/
def readIntVar (K : Config) (index location : Int) : Exec RLMachine Int := fun m =>
  if 0 ≤ index ∧ index < K.intVarRows ∧ 0 ≤ location ∧ location < INT_BANK_SIZE then
    .ok (m.intVar index location) m
  else .undefined .outOfBounds

/-- Execute `intVar[index][location] = value`. -/
def writeIntVar (K : Config) (index location value : Int) : Exec RLMachine Unit := fun m =>
  if 0 ≤ index ∧ index < K.intVarRows ∧ 0 ≤ location ∧ location < INT_BANK_SIZE then
    .ok () { m with
      intVar := fun i j => if i = index ∧ j = location then value else m.intVar i j }
  else .undefined .outOfBounds

/-- Evaluate `bank[location]` for a string bank of the given extent. -/
def readStr (bank : RLMachine → Int → String) (extent location : Int) :
    Exec RLMachine String := fun m =>
  if 0 ≤ location ∧ location < extent then .ok (bank m location) m
  else .undefined .outOfBounds

/-- The bank `old` with `value` stored in slot `location`. -/
def storeStr (old : Int → String) (location : Int) (value : String) : Int → String :=
  fun i => if i = location then value else old i

/-- Execute `fprintf(stderr, ...)`. -/
def fprintfStderr (d : Diag) : Exec RLMachine Unit := fun m =>
  .ok () { m with stderr := m.stderr ++ [d] }

/-! ## Integer and string variable access -/

/-- `throwIllegalIndex(location)`: helper that throws errors for illegal memory access. -/
def throwIllegalIndex {α : Type} (location : Int) : Exec RLMachine α :=
  throwExn (.illegalIndex location)

/-- The class index computed at the head of `getIntValue` and `setIntValue`:
`type % 26`, then the remap of the Z and of the L bytecode index. -/
def classIndex (K : Config) (type : Int) : Int :=
  let index := Int.tmod type 26
  let index := if index = K.INTZ_LOCATION_IN_BYTECODE then K.INTZ_LOCATION else index
  if index = K.INTL_LOCATION_IN_BYTECODE then K.INTL_LOCATION else index

/-- `RLMachine::getIntValue(int type, int location)`. -/
def getIntValue (K : Config) (type location : Int) : Exec RLMachine Int := do
  let index := classIndex K type
  let type := Int.tdiv type 26
  if index > K.NUMBER_OF_INT_LOCATIONS then
    throwExn .illegalIndexLocation
  else if type = 0 then
    if toBits location ≥ 2000 then
      throwIllegalIndex location
    else
      readIntVar K index location
  else
    let factor := cshl K.shlOver 1 (csub type 1)
    let eltsize ← cdiv 32 factor
    let capacity ← cdiv 64000 factor
    if toBits location ≥ toBits capacity then
      throwIllegalIndex location
    else
      let word ← readIntVar K index (← cdiv location eltsize)
      let shift := cmul (← cmod location eltsize) factor
      pure (cand (cshr K.shrOver word shift) (csub (cshl K.shlOver 1 factor) 1))

/-- `RLMachine::setIntValue(int rawtype, int location, int value)`. -/
def setIntValue (K : Config) (rawtype location value : Int) : Exec RLMachine Unit := do
  let type := Int.tdiv rawtype 26
  let index := classIndex K rawtype
  if index < 0 ∨ index > K.NUMBER_OF_INT_LOCATIONS then
    fprintfStderr (.invalidAccess type location)
  if type = 0 then
    if toBits location ≥ 2000 then
      throwExn .illegalIndexSet
    else
      writeIntVar K index location value
  else
    let factor := cshl K.shlOver 1 (csub type 1)
    let eltsize ← cdiv 32 factor
    let eltmask := csub (cshl K.shlOver 1 factor) 1
    let shift := cmul (← cmod location eltsize) factor
    let capacity ← cdiv 64000 factor
    if toBits location ≥ toBits capacity then
      throwExn .illegalIndexSet
    else
      let word ← cdiv location eltsize
      let old ← readIntVar K index word
      writeIntVar K index word
        (cor (cand old (cnot (cshl K.shlOver eltmask shift)))
          (cshl K.shlOver (cand value eltmask) shift))

/-- `RLMachine::getStringValue(int type, int location)`. -/
def getStringValue (type location : Int) : Exec RLMachine String :=
  if location > 1999 then
    throwExn .invalidRangeAccess
  else if type = 0x0A then
    if location > 2 then
      throwExn .invalidRangeAccessStrK
    else
      readStr RLMachine.strK STRK_SIZE location
  else if type = 0x0C then
    readStr RLMachine.strM STR_BANK_SIZE location
  else if type = 0x12 then
    readStr RLMachine.strS STR_BANK_SIZE location
  else
    throwExn .invalidTypeGetString

/-- `RLMachine::setStringValue(int type, int number, const std::string& value)`. -/
def setStringValue (type number : Int) (value : String) : Exec RLMachine Unit := fun m =>
  if number > 1999 then
    .thrown .invalidRangeAccess m
  else if type = 0x0A then
    if number > 2 then
      .thrown .invalidRangeAccessStrK m
    else if 0 ≤ number ∧ number < STRK_SIZE then
      .ok () { m with strK := storeStr m.strK number value }
    else .undefined .outOfBounds
  else if type = 0x0C then
    if 0 ≤ number ∧ number < STR_BANK_SIZE then
      .ok () { m with strM := storeStr m.strM number value }
    else .undefined .outOfBounds
  else if type = 0x12 then
    if 0 ≤ number ∧ number < STR_BANK_SIZE then
      .ok () { m with strS := storeStr m.strS number value }
    else .undefined .outOfBounds
  else
    .thrown .invalidTypeSetString m

/-! ## Construction -/

/-- The state set up by both constructors once the start scenario is known: not halted,
halting on exceptions, the root frame at `scenario->begin()`, `intVar` zeroed by `memset`
and the string banks default-constructed. -/
def freshMachine (inArchive : Archive) (scenario : Scenario) (log : List Diag) : RLMachine where
  m_halted := false
  m_haltOnException := true
  archive := inArchive
  callStack := [{ scenario := scenario, ip := 0, frameType := .TYPE_ROOT }]
  intVar := fun _ _ => 0
  strK := fun _ => ""
  strM := fun _ => ""
  strS := fun _ => ""
  stderr := log
  m_line := none
  modules := fun _ => none
  m_longOperationStack := []
  stdout := []

/-- The constructor `RLMachine::RLMachine(Archive& inArchive)`: the scenario is the first
one in the archive. -/
def RLMachine.create (inArchive : Archive) : Exec Unit RLMachine := fun _ =>
  match inArchive.head? with
  | none => .undefined .emptyContainer
  | some first =>
    match inArchive.scenario first.1 with
    | none => .thrown .invalidScenarioFile ()
    | some scenario => .ok (freshMachine inArchive scenario []) ()

/-- The constructor `RLMachine::RLMachine(System& inSystem, Archive& inArchive)`;
`seenStart` is the value
of `#SEEN_START` in the Gameexe when the key exists. -/
def RLMachine.createWithSystem (seenStart : Option Int) (inArchive : Archive) :
    Exec Unit RLMachine := fun _ =>
  let found : Option Scenario := seenStart.bind inArchive.scenario
  let log : List Diag :=
    if seenStart.isSome ∧ found.isNone then [Diag.invalidSeenStart] else []
  match found with
  | some scenario => .ok (freshMachine inArchive scenario log) ()
  | none =>
    match inArchive.head? with
    | none => .undefined .emptyContainer
    | some first =>
      match inArchive.scenario first.1 with
      | none => .thrown .invalidScenarioFile ()
      | some scenario => .ok (freshMachine inArchive scenario log) ()

/-! ## The call stack -/

/-- Evaluate `callStack.top()`. -/
def top : Exec RLMachine StackFrame := fun m =>
  match m.callStack.getLast? with
  | some f => .ok f m
  | none => .undefined .emptyContainer

/-- Assign through the reference `callStack.top()`: the top frame becomes `g` of it. -/
def modifyTop (g : StackFrame → StackFrame) : Exec RLMachine Unit := fun m =>
  match m.callStack.getLast? with
  | some f => .ok () { m with callStack := m.callStack.dropLast ++ [g f] }
  | none => .undefined .emptyContainer

/-- Execute `callStack.push(frame)`. -/
def push (frame : StackFrame) : Exec RLMachine Unit := fun m =>
  .ok () { m with callStack := m.callStack ++ [frame] }

/-- Execute `callStack.pop()`. -/
def pop : Exec RLMachine Unit := fun m =>
  match m.callStack with
  | [] => .undefined .emptyContainer
  | _ :: _ => .ok () { m with callStack := m.callStack.dropLast }

/-- `RLMachine::advanceInstructionPointer()`. Incrementing an iterator that is not
before `end()` has no meaning. -/
def advanceInstructionPointer : Exec RLMachine Unit := do
  let f ← top
  if f.ip < f.scenario.size then
    modifyTop (fun f => { f with ip := f.ip + 1 })
  else
    undef .pastTheEnd
  let f ← top
  if f.ip = f.scenario.size then
    fun m => .ok () { m with m_halted := true }

/-- `RLMachine::jump(int scenarioNum, int entrypoint)`. -/
def jump (scenarioNum entrypoint : Int) : Exec RLMachine Unit := do
  let m ← getState
  match m.archive.scenario scenarioNum with
  | none => throwExn .invalidScenarioNumber
  | some scenario =>
    modifyTop (fun f => { f with scenario := scenario })
    modifyTop (fun f => { f with ip := scenario.findEntrypoint entrypoint })

/-- `RLMachine::farcall(int scenarioNum, int entrypoint)`. -/
def farcall (scenarioNum entrypoint : Int) : Exec RLMachine Unit := do
  let m ← getState
  match m.archive.scenario scenarioNum with
  | none => throwExn .invalidScenarioNumber
  | some scenario =>
    let it := scenario.findEntrypoint entrypoint
    push { scenario := scenario, ip := it, frameType := .TYPE_FARCALL }

/-- `RLMachine::returnFromFarcall()`. -/
def returnFromFarcall : Exec RLMachine Unit := do
  let f ← top
  if f.frameType ≠ .TYPE_FARCALL then
    throwExn .callstackMismatchFarcall
  else
    pop

/-- `RLMachine::gotoLocation(BytecodeList::iterator newLocation)`. -/
def gotoLocation (newLocation : Nat) : Exec RLMachine Unit :=
  modifyTop (fun f => { f with ip := newLocation })

/-- `RLMachine::gosub(BytecodeList::iterator newLocation)`. -/
def gosub (newLocation : Nat) : Exec RLMachine Unit := do
  let f ← top
  push { scenario := f.scenario, ip := newLocation, frameType := .TYPE_GOSUB }

/-- `RLMachine::returnFromGosub()`. -/
def returnFromGosub : Exec RLMachine Unit := do
  let f ← top
  if f.frameType ≠ .TYPE_GOSUB then
    throwExn .callstackMismatchGosub
  else
    pop

/-- A call of one of the control-flow member functions. -/
inductive Call where
  | jump (scenarioNum entrypoint : Int)
  | farcall (scenarioNum entrypoint : Int)
  | gosub (newLocation : Nat)
  | gotoLocation (newLocation : Nat)
  | advanceInstructionPointer
  | returnFromGosub
  | returnFromFarcall

/-- The member function a call runs. -/
def Call.run : Call → Exec RLMachine Unit
  | .jump s e => RLVM.jump s e
  | .farcall s e => RLVM.farcall s e
  | .gosub p => RLVM.gosub p
  | .gotoLocation p => RLVM.gotoLocation p
  | .advanceInstructionPointer => RLVM.advanceInstructionPointer
  | .returnFromGosub => RLVM.returnFromGosub
  | .returnFromFarcall => RLVM.returnFromFarcall

/-- The state after a sequence of calls, each made in the state left by the one before,
whether that one returned or threw; `none` when a call has no meaning. -/
def runCalls : List Call → RLMachine → Option RLMachine
  | [], m => some m
  | c :: rest, m =>
    match (c.run m).state? with
    | some m1 => runCalls rest m1
    | none => none

/-! ## Modules, elements and the main loop -/

/-- `RLMachine::packModuleNumber(int modtype, int module)`, an `unsigned int`. -/
def packModuleNumber (K : Config) (modtype module : Int) : Nat :=
  toBits (cor (cshl K.shlOver modtype 8) module)

/-- Evaluate `modules.insert(key, module)`: a key already present keeps its module. -/
def insertModule (key : Nat) (module : RLModule) : Exec RLMachine Unit := fun m =>
  .ok () { m with
    modules := fun k => if k = key ∧ (m.modules key).isNone then some module else m.modules k }

/-- `RLMachine::attachModule(RLModule* module)`. -/
def attachModule (K : Config) (module : RLModule) : Exec RLMachine Unit := do
  let moduleType := module.moduleType
  let moduleNumber := module.moduleNumber
  let packedModule := packModuleNumber K moduleType moduleNumber
  let m ← getState
  match m.modules packedModule with
  | some _ => throwExn .moduleClash
  | none => insertModule packedModule module

/-- `RLMachine::executeCommand(const CommandElement& f)`. -/
def executeCommand (K : Config) (W : World) (f : CommandElement) : Exec RLMachine Unit := do
  let m ← getState
  match m.modules (packModuleNumber K f.modtype f.module) with
  | some it => W.dispatchFunction it f
  | none => throwExn (.undefinedModule f.modtype f.module)

/-- `RLMachine::pushLongOperation(LongOperation* longOperation)`. -/
def pushLongOperation (longOperation : LongOperation) : Exec RLMachine Unit := fun m =>
  .ok () { m with m_longOperationStack := m.m_longOperationStack ++ [longOperation] }

/-- Evaluate `m_longOperationStack.back()`. -/
def backLongOperation : Exec RLMachine LongOperation := fun m =>
  match m.m_longOperationStack.getLast? with
  | some op => .ok op m
  | none => .undefined .emptyContainer

/-- Execute `m_longOperationStack.pop_back()`. -/
def popLongOperation : Exec RLMachine Unit := fun m =>
  match m.m_longOperationStack with
  | [] => .undefined .emptyContainer
  | _ :: _ => .ok () { m with m_longOperationStack := m.m_longOperationStack.dropLast }

/-- Modelled from the spec: `RLMachine::setLineNumber(int i)` (RLMachine.hpp is not among
the sources): sets the "current source line counter". -/
def setLineNumber (i : Int) : Exec RLMachine Unit := fun m =>
  .ok () { m with m_line := some i }

/-- `RLMachine::executeExpression(const ExpressionElement& e)`. -/
def executeExpression (W : World) (e : ExpressionElement) : Exec RLMachine Unit := do
  let _value ← W.integerValue e
  advanceInstructionPointer

/-- `RLMachine::getTextEncoding()`. -/
def getTextEncoding : Exec RLMachine Int := do
  let f ← top
  pure f.scenario.encoding

/-- `RLMachine::performTextout(const TextoutElement& e)`. -/
def performTextout (W : World) (e : TextoutElement) : Exec RLMachine Unit := do
  let utf8str := W.cp932toUTF8 e.text (← getTextEncoding)
  let ptr := W.newTextoutLongOperation utf8str
  let ptr := if W.messageNoWait then W.setNoWait ptr else ptr
  pushLongOperation ptr
  advanceInstructionPointer

/-- Modelled from the spec: `BytecodeElement::runOnMachine(machine)` and its overrides
(libReallive/bytecode.cpp is not among the sources). A meta marker records its line in
the "current source line counter" when it is a line marker and advances the instruction
pointer; a text-output element is handed to `performTextout`, an expression element to
`executeExpression` and a command element to `executeCommand`. -/
def runOnMachine (K : Config) (W : World) : BytecodeElement → Exec RLMachine Unit
  | .Meta type value => do
    if type = .Line_ then
      setLineNumber value
    advanceInstructionPointer
  | .Textout e => performTextout W e
  | .Expression e => executeExpression W e
  | .Command f => executeCommand K W f

/-- `RLMachine::halted()`. -/
def halted (m : RLMachine) : Bool := m.m_halted

/-- `RLMachine::halt()`. -/
def halt : Exec RLMachine Unit := fun m => .ok () { m with m_halted := true }

/-- `RLMachine::setHaltOnException(bool haltOnException)`. -/
def setHaltOnException (haltOnException : Bool) : Exec RLMachine Unit := fun m =>
  .ok () { m with m_haltOnException := haltOnException }

/-- Evaluate `callStack.top().ip->runOnMachine(*this)`; an iterator at `end()` cannot be
dereferenced. -/
def runCurrentElement (K : Config) (W : World) : Exec RLMachine Unit := do
  let f ← top
  match f.scenario.elements[f.ip]? with
  | some element => runOnMachine K W element
  | none => undef .pastTheEnd

/-- The handler `catch(std::exception& e)` of `executeNextInstruction`. -/
def catchException (e : Exn) : Exec RLMachine Unit := do
  let m ← getState
  if m.m_haltOnException then
    fun m => .ok () { m with m_halted := true }
  else
    advanceInstructionPointer
  let f ← top
  fun m => .ok () { m with
    stdout := m.stdout ++ [{ sceneNumber := f.scenario.sceneNumber, line := m.m_line, what := e }] }

/-- `RLMachine::executeNextInstruction()`. -/
def executeNextInstruction (K : Config) (W : World) : Exec RLMachine Unit := fun m =>
  if halted m = true then
    .ok () m
  else if m.m_longOperationStack.length ≠ 0 then
    (do
      let retVal ← (← backLongOperation) |> W.invoke
      if retVal then
        popLongOperation) m
  else
    match runCurrentElement K W m with
    | .thrown e m1 => catchException e m1
    | r => r

/-- `RLMachine::executeUntilHalted()`: the loop `while(!halted()) executeNextInstruction()`
run for at most `fuel` iterations; `none` when the machine is not halted after them. -/
def executeUntilHalted (K : Config) (W : World) : Nat → RLMachine → Option (Res RLMachine Unit)
  | 0, m => if halted m = true then some (.ok () m) else none
  | fuel + 1, m =>
    if halted m = true then some (.ok () m)
    else
      match executeNextInstruction K W m with
      | .ok _ m1 => executeUntilHalted K W fuel m1
      | .thrown e m1 => some (.thrown e m1)
      | .undefined u => some (.undefined u)

/-- The calls `executeNextInstruction()` made `n` times in a row. -/
def executeTicks (K : Config) (W : World) : Nat → Exec RLMachine Unit
  | 0 => pure ()
  | n + 1 => do
    executeNextInstruction K W
    executeTicks K W n

/-- The invariant of the call stack: it is not empty, its bottom frame is of type Root
and no frame above the bottom is of type Root. -/
def RootedStack (s : List StackFrame) : Prop :=
  ∃ root rest, s = root :: rest ∧ root.frameType = .TYPE_ROOT ∧
    ∀ f ∈ rest, f.frameType ≠ .TYPE_ROOT

/-! ## Sample values -/

/-- A sample configuration: a target on which a shift count is taken modulo 32 (x86);
nine named banks, A..G in rows 0..6, Z (bytecode index 25) in row 7 and L (bytecode
index 11) in row 8, and an `intVar` of nine rows. -/
def sampleConfig : Config where
  INTZ_LOCATION_IN_BYTECODE := 25
  INTL_LOCATION_IN_BYTECODE := 11
  INTZ_LOCATION := 7
  INTL_LOCATION := 8
  NUMBER_OF_INT_LOCATIONS := 9
  intVarRows := 9
  shlOver := fun a n => ofBits (toBits a <<< (n % 32).toNat)
  shrOver := fun a n => a / 2 ^ (n % 32).toNat

/-- A jump command of module 0:1 (header bytes `#`, 0, 1, 0, ...) whose target is the
element at offset 2. -/
def sampleGoto : CommandElement where
  command := fun i => if i = 0 then 35 else if i = 2 then 1 else 0
  pointers := [2]

/-- A scenario of three elements, an entrypoint marker, a jump command whose target is
the element immediately after itself and a line marker, with every entrypoint at its
start. -/
def sampleScenario : Scenario where
  sceneNumber := 1
  elements := [.Meta .Entrypoint_ 0, .Command sampleGoto, .Meta .Line_ 7]
  encoding := 0
  findEntrypoint := fun _ => 0

/-- A module registered for the jump commands of module 0:1. -/
def sampleModule : RLModule where
  moduleType := 0
  moduleNumber := 1
  name := "Jmp"

/-- A second module of the same pair. -/
def sampleModuleTwin : RLModule where
  moduleType := 0
  moduleNumber := 1
  name := "Jmp2"

/-- Sample external code: every module handler goes to the first target of the command;
the long operation 0 pushes the long operation 1 and reports completion, every other long
operation reports completion at once; expressions evaluate to 0. -/
def sampleWorld : World where
  dispatchFunction := fun _ f => gotoLocation (f.pointers.headD 0)
  invoke := fun op =>
    if op.id = 0 then do
      pushLongOperation { id := 1 }
      pure true
    else pure true
  integerValue := fun _ => pure 0
  cp932toUTF8 := fun text _ => text
  newTextoutLongOperation := fun _ => { id := 2 }
  messageNoWait := false
  setNoWait := fun op => op

/-- Sample external code like `sampleWorld` whose module handlers call `halt()` and then
read a string variable of the bank tag 0, which throws. -/
def sampleWorldHaltThenThrow : World :=
  { sampleWorld with
    dispatchFunction := fun _ _ => do
      halt
      let _ ← getStringValue 0 0
      pure () }

/-- An archive holding the sample scenario under number 1. -/
def sampleArchive : Archive := [(1, sampleScenario)]

/-- The machine constructed on the sample archive: all banks zeroed and only the root
frame on its stack. -/
def sampleMachine : RLMachine := freshMachine sampleArchive sampleScenario []

/-- The sample machine at its jump command, with the module of the pair 0:1 registered
under the key 1 and `haltOnException` cleared. -/
def sampleMachineAtJump : RLMachine :=
  { sampleMachine with
    m_haltOnException := false
    callStack := [{ scenario := sampleScenario, ip := 1, frameType := .TYPE_ROOT }]
    modules := fun key => if key = 1 then some sampleModule else none }

/-! ## LazyArray -/

/-- `LazyArray<T>` (LazyArray.hpp): the size and the array of pointers; a slot is `none`
while its pointer is `NULL` and holds the object it points to otherwise. -/
structure LazyArray (T : Type) where
  /-- `int m_size`. -/
  m_size : Int
  /-- `boost::scoped_array<T*> m_array`. -/
  m_array : List (Option T)

/-- Whether slot `i` of the array holds an object (its pointer is not `NULL`). -/
def LazyArray.allocated {T : Type} (a : LazyArray T) (i : Nat) : Bool :=
  match a.m_array[i]? with
  | some (some _) => true
  | _ => false

/-- The invariant of the class: the size is not negative and not larger than the array
that was allocated (`copyTo` may make it smaller). -/
def LazyArray.Valid {T : Type} (a : LazyArray T) : Prop :=
  0 ≤ a.m_size ∧ a.m_size ≤ a.m_array.length

/-- The constructor `LazyArray<T>::LazyArray(int size)`: `new T*[size]`, every slot set to
`NULL`. With a negative size the `new` throws (`std::bad_alloc` or a class derived from
it). -/
def LazyArray.create {T : Type} (size : Int) : Exec Unit (LazyArray T) := fun _ =>
  if size < 0 then .thrown .bad_alloc ()
  else .ok { m_size := size, m_array := List.replicate size.toNat none } ()

/-- `LazyArray<T>::size()`. -/
def LazyArray.size {T : Type} (a : LazyArray T) : Int := a.m_size

/-- Whether `m_array[pos] == NULL`. A position outside the array that was allocated is
read all the same; what is found there is not determined by the program: `pastEnd pos`
tells whether it compares equal to `NULL`. -/
def LazyArray.isNull {T : Type} (pastEnd : Int → Bool) (a : LazyArray T) (pos : Int) : Bool :=
  if 0 ≤ pos ∧ pos < a.m_array.length then
    match a.m_array[pos.toNat]? with
    | some (some _) => false
    | _ => true
  else pastEnd pos

/-- `LazyArray<T>::operator[](int pos)`; `dflt` is the value of `T()`. The result is the
object the returned reference denotes. -/
def LazyArray.index {T : Type} (dflt : T) (pos : Int) : Exec (LazyArray T) T := fun a =>
  if pos < 0 ∨ pos ≥ a.m_size then
    .thrown .out_of_range a
  else
    match a.m_array[pos.toNat]? with
    | none => .undefined .outOfBounds
    | some none => .ok dflt { a with m_array := a.m_array.set pos.toNat (some dflt) }
    | some (some v) => .ok v a

/-- The assignment `array[pos] = v` through the reference returned by `operator[]`. -/
def LazyArray.assign {T : Type} (dflt : T) (pos : Int) (v : T) : Exec (LazyArray T) Unit := do
  let _ ← LazyArray.index dflt pos
  fun a => .ok () { a with m_array := a.m_array.set pos.toNat (some v) }

/-- `LazyArray<T>::clear()`. -/
def LazyArray.clear {T : Type} : Exec (LazyArray T) Unit := fun a =>
  if a.m_size ≤ a.m_array.length then
    .ok () { a with
      m_array := List.replicate a.m_size.toNat none ++ a.m_array.drop a.m_size.toNat }
  else .undefined .outOfBounds

/-- `AllocatedLazyArrayIterator<T>`: its position; the array it points to is the one it
was made from. -/
structure AllocatedLazyArrayIterator where
  /-- `int m_currentPosition`. -/
  m_currentPosition : Int
  deriving DecidableEq, Repr

/-- `AllocatedLazyArrayIterator::equal(other)` for two iterators of one array. -/
def AllocatedLazyArrayIterator.equal (it other : AllocatedLazyArrayIterator) : Bool :=
  it.m_currentPosition == other.m_currentPosition

/-- The loop `while(m_array[firstEntry] == NULL && firstEntry < m_size) firstEntry++`,
run for at most `fuel` iterations from `firstEntry`; the result is `firstEntry` at the
exit, `none` when the loop has not ended. -/
def LazyArray.firstEntryLoop {T : Type} (pastEnd : Int → Bool) (a : LazyArray T) :
    Nat → Int → Option Int
  | 0, _ => none
  | fuel + 1, firstEntry =>
    if a.isNull pastEnd firstEntry && decide (firstEntry < a.m_size) then
      LazyArray.firstEntryLoop pastEnd a fuel (firstEntry + 1)
    else some firstEntry

/-- `LazyArray<T>::allocated_begin()`, its loop run for at most `fuel` iterations. -/
def LazyArray.allocated_begin {T : Type} (pastEnd : Int → Bool) (a : LazyArray T)
    (fuel : Nat) : Option AllocatedLazyArrayIterator :=
  (LazyArray.firstEntryLoop pastEnd a fuel 0).map fun firstEntry =>
    { m_currentPosition := firstEntry }

/-- `LazyArray<T>::allocated_end()`. -/
def LazyArray.allocated_end {T : Type} (a : LazyArray T) : AllocatedLazyArrayIterator :=
  { m_currentPosition := a.m_size }

/-- The loop of `AllocatedLazyArrayIterator::increment()`,
`while(pos < size() && rawDeref(pos) == NULL) pos++`, run for at most `fuel` iterations. -/
def LazyArray.skipLoop {T : Type} (pastEnd : Int → Bool) (a : LazyArray T) :
    Nat → Int → Option Int
  | 0, _ => none
  | fuel + 1, pos =>
    if decide (pos < a.size) && a.isNull pastEnd pos then
      LazyArray.skipLoop pastEnd a fuel (pos + 1)
    else some pos

/-- `AllocatedLazyArrayIterator::increment()` on an iterator of the array `a`. -/
def AllocatedLazyArrayIterator.increment {T : Type} (pastEnd : Int → Bool) (a : LazyArray T)
    (fuel : Nat) (it : AllocatedLazyArrayIterator) : Option AllocatedLazyArrayIterator :=
  (LazyArray.skipLoop pastEnd a fuel (it.m_currentPosition + 1)).map fun pos =>
    { m_currentPosition := pos }

/-- The positions visited by `for (it = first; it != allocated_end(); ++it)`, the loop
run for at most `fuel` iterations, each `increment` with fuel `fuel`; `none` when a loop
has not ended. -/
def LazyArray.visitFrom {T : Type} (pastEnd : Int → Bool) (a : LazyArray T) (fuel : Nat) :
    Nat → AllocatedLazyArrayIterator → Option (List Int)
  | 0, _ => none
  | n + 1, it =>
    if it.equal a.allocated_end then some []
    else
      match it.increment pastEnd a fuel with
      | none => none
      | some next => (LazyArray.visitFrom pastEnd a fuel n next).map (it.m_currentPosition :: ·)

/-- The positions visited by an iteration from `allocated_begin()` to `allocated_end()`. -/
def LazyArray.allocatedPositions {T : Type} (pastEnd : Int → Bool) (a : LazyArray T)
    (fuel : Nat) : Option (List Int) :=
  match a.allocated_begin pastEnd fuel with
  | none => none
  | some first => LazyArray.visitFrom pastEnd a fuel fuel first

/-- An access to an element of an array: a read of `array[pos]` or the assignment
`array[pos] = v`. -/
inductive Access (T : Type) where
  | read (pos : Int)
  | write (pos : Int) (v : T)

/-- The position an access is made at. -/
def Access.pos {T : Type} : Access T → Int
  | .read pos => pos
  | .write pos _ => pos

/-- The values observed by a sequence of accesses made on a `LazyArray`, one per read;
`none` when an access does not return normally. -/
def LazyArray.observe {T : Type} (dflt : T) : List (Access T) → LazyArray T → Option (List T)
  | [], _ => some []
  | .read pos :: rest, a =>
    match LazyArray.index dflt pos a with
    | .ok v a1 => (LazyArray.observe dflt rest a1).map (v :: ·)
    | _ => none
  | .write pos v :: rest, a =>
    match LazyArray.assign dflt pos v a with
    | .ok _ a1 => LazyArray.observe dflt rest a1
    | _ => none

/-- The array the spec compares with: "a fixed-size slot array" of `n` eagerly
default-constructed values, read by `l[pos]` and written by `l[pos] := v`. The values
observed by a sequence of in-range accesses, one per read. -/
def eagerObserve {T : Type} : List (Access T) → List T → Option (List T)
  | [], _ => some []
  | .read pos :: rest, l =>
    match l[pos.toNat]? with
    | some v => if 0 ≤ pos then (eagerObserve rest l).map (v :: ·) else none
    | none => none
  | .write pos v :: rest, l =>
    if 0 ≤ pos ∧ pos < l.length then eagerObserve rest (l.set pos.toNat v) else none

/-- A sample array of four slots of which slots 1 and 3 are allocated. -/
def sampleLazyArray : LazyArray Nat where
  m_size := 4
  m_array := [none, some 10, none, some 30]

/-! ## Saved games -/

/-- `LocalMemory` (MachineBase/Memory.hpp is not among the sources): the banks that are
stored with a saved game, each an array of a fixed extent. -/
structure LocalMemory where
  /-- `int intA[]`. -/
  intA : List Int
  /-- `int intB[]`. -/
  intB : List Int
  /-- `int intC[]`. -/
  intC : List Int
  /-- `int intD[]`. -/
  intD : List Int
  /-- `int intE[]`. -/
  intE : List Int
  /-- `int intF[]`. -/
  intF : List Int
  /-- `std::string strS[]`. -/
  strS : List String
  /-- `int intL[]`. -/
  intL : List Int
  /-- `std::string strK[]`. -/
  strK : List String
  deriving DecidableEq, Repr

/-- Two memories whose arrays have the same extents, as all objects of the type have. -/
def LocalMemory.SameExtents (a b : LocalMemory) : Prop :=
  a.intA.length = b.intA.length ∧ a.intB.length = b.intB.length ∧
  a.intC.length = b.intC.length ∧ a.intD.length = b.intD.length ∧
  a.intE.length = b.intE.length ∧ a.intF.length = b.intF.length ∧
  a.strS.length = b.strS.length ∧ a.intL.length = b.intL.length ∧
  a.strK.length = b.strK.length

/-- The state of `System` and of its subsystems (Systems/Base/System.hpp is not among the
sources). -/
structure System where
  /-- `graphics().windowSubtitle()`. -/
  windowSubtitle : String
  /-- The rest of the state. -/
  state : List Int
  deriving DecidableEq, Repr

/-- What `SerializationLocal.cpp` calls and reads that is not among the sources. The calls
into `System` are taken to return and to act on the state of `System` only. -/
structure Host where
  /-- `System::reset()`. -/
  reset : System → System
  /-- `GraphicsSystem::replayGraphicsStack(machine)`. -/
  replayGraphicsStack : RLMachine → System → System
  /-- `GraphicsSystem::markScreenForRefresh()`. -/
  markScreenForRefresh : System → System
  /-- The time the constructor `SaveGameHeader(title)` stores as `saveTime`. -/
  now : Int
  /-- The value `lineNumber()` returns while `m_line` has not been given one. -/
  indeterminateLine : Int

/-- A value of `RLMachine*`: `NULL` or the address of the machine of the process. -/
inductive MachinePtr where
  | NULL
  | addressOfMachine
  deriving DecidableEq, Repr

/-- The state `SerializationLocal.cpp` works on: the machine with its memory and its
`System`, and the global of the file. -/
structure Process where
  /-- The `RLMachine`. -/
  machine : RLMachine
  /-- `machine.memory().local()`. -/
  localMemory : LocalMemory
  /-- `machine.system()`. -/
  system : System
  /-- `RLMachine* g_currentMachine`. -/
  g_currentMachine : MachinePtr

/-- An item of a text archive: what one `<<` of a primitive value writes and one `>>`
reads. The bookkeeping of the archive library between the items is left out. -/
inductive Item where
  /-- The signature an archive starts with. -/
  | signature
  /-- An `int`. -/
  | int (v : Int)
  /-- A `std::string`. -/
  | str (s : String)
  /-- A `boost::posix_time::ptime`. -/
  | time (t : Int)
  /-- The number of elements of an array or of a `vector`. -/
  | count (n : Nat)
  /-- A `StackFrame::FrameType`. -/
  | frameType (t : FrameType)
  deriving DecidableEq, Repr

/-- `SaveGameHeader` (MachineBase/SaveGameHeader.hpp is not among the sources). -/
structure SaveGameHeader where
  /-- `std::string title`. -/
  title : String
  /-- `boost::posix_time::ptime saveTime`. -/
  saveTime : Int
  deriving DecidableEq, Repr

/-- `ar << a` for an array of `int`. -/
def saveIntArray (a : List Int) : List Item := .count a.length :: a.map .int

/-- `ar << a` for an array of `std::string`. -/
def saveStringArray (a : List String) : List Item := .count a.length :: a.map .str

/-- `serialize(ar, header, version)` on an output archive. -/
def saveHeader (header : SaveGameHeader) : List Item :=
  [.str header.title, .time header.saveTime]

/-- `serialize(ar, memory, version)` for `LocalMemory` on an output archive. -/
def saveLocalMemory (memory : LocalMemory) : List Item :=
  saveIntArray memory.intA ++ saveIntArray memory.intB ++ saveIntArray memory.intC ++
  saveIntArray memory.intD ++ saveIntArray memory.intE ++ saveIntArray memory.intF ++
  saveStringArray memory.strS ++ saveIntArray memory.intL ++ saveStringArray memory.strK

/-- `serialize(ar, sys, version)` for `System` on an output archive: "For now, does
nothing". -/
def saveSystem (_sys : System) : List Item := []

/-- `save(ar, frame, version)` for a `StackFrame`; the line it writes to `cerr` is left
out. -/
def saveStackFrame (frame : StackFrame) : List Item :=
  let sceneNumber := frame.scenario.sceneNumber
  let position : Int := frame.ip
  [.int sceneNumber, .int position, .frameType frame.frameType]

/-- Modelled from the spec: `copy_until` of algoplus.hpp, which is not in the copy of the
file among the sources: "copy stack frames from bottom up to (but not including) the
first LongOperation-type frame", for any predicate. -/
def copy_until {α : Type} (pred : α → Bool) : List α → List α
  | [] => []
  | x :: rest => if pred x then [] else x :: copy_until pred rest

/-- Modelled from the spec: `StackFrame::setSaveGameAsIP()` (MachineBase/StackFrame.hpp is
not among the sources). "Each preserved frame is serialized as (scenario number, element
offset computed as the distance from the scenario's start to the frame's current
position, frame type)": the call leaves the three as they are. -/
def StackFrame.setSaveGameAsIP (frame : StackFrame) : StackFrame := frame

/-- `RLMachine::lineNumber()`. -/
def lineNumber (H : Host) (machine : RLMachine) : Int :=
  machine.m_line.getD H.indeterminateLine

/-- The local `prunedStack` of `save(ar, machine, version)` when it is written. -/
def prunedStack (machine : RLMachine) : List StackFrame :=
  (copy_until (fun f => f.frameType == .TYPE_LONGOP) machine.callStack).map
    StackFrame.setSaveGameAsIP

/-- `save(ar, machine, version)` for the `RLMachine`. -/
def saveMachine (H : Host) (machine : RLMachine) : List Item :=
  let lineNum := lineNumber H machine
  [.int lineNum] ++
    (.count (prunedStack machine).length :: (prunedStack machine).flatMap saveStackFrame)

/-- `Serialization::saveGameTo(oss, machine)`; the result is the content of `oss` at the
return. -/
def saveGameTo (H : Host) (oss : List Item) : Exec Process (List Item) := do
  let p ← getState
  let header : SaveGameHeader := { title := p.system.windowSubtitle, saveTime := H.now }
  setState { p with g_currentMachine := .addressOfMachine }
  let p ← getState
  let written := oss ++ [.signature] ++ saveHeader header ++ saveLocalMemory p.localMemory ++
    saveMachine H p.machine ++ saveSystem p.system
  setState { p with g_currentMachine := .NULL }
  pure written

/-- A `text_iarchive` on an input stream, with the process the loading code works on. -/
structure Loading where
  /-- What is left of the stream. -/
  iss : List Item
  /-- The process. -/
  process : Process

/-- The constructor `text_iarchive ia(iss)`. -/
def openArchive : Exec Loading Unit := fun s =>
  match s.iss with
  | .signature :: rest => .ok () { s with iss := rest }
  | _ => .thrown .archiveException s

/-- `ar >> v` for an `int`. -/
def loadInt : Exec Loading Int := fun s =>
  match s.iss with
  | .int v :: rest => .ok v { s with iss := rest }
  | _ => .thrown .archiveException s

/-- `ar >> v` for a `std::string`. -/
def loadString : Exec Loading String := fun s =>
  match s.iss with
  | .str v :: rest => .ok v { s with iss := rest }
  | _ => .thrown .archiveException s

/-- `ar >> v` for a `ptime`. -/
def loadTime : Exec Loading Int := fun s =>
  match s.iss with
  | .time v :: rest => .ok v { s with iss := rest }
  | _ => .thrown .archiveException s

/-- `ar >> count` for the number of elements of a collection. -/
def loadCount : Exec Loading Nat := fun s =>
  match s.iss with
  | .count v :: rest => .ok v { s with iss := rest }
  | _ => .thrown .archiveException s

/-- `ar >> v` for a `StackFrame::FrameType`. -/
def loadFrameType : Exec Loading FrameType := fun s =>
  match s.iss with
  | .frameType v :: rest => .ok v { s with iss := rest }
  | _ => .thrown .archiveException s

/-- Apply `f` to the local memory of the process. -/
def modifyLocalMemory (f : LocalMemory → LocalMemory) : Exec Loading Unit := fun s =>
  .ok () { s with process := { s.process with localMemory := f s.process.localMemory } }

/-- Apply `f` to the machine of the process. -/
def modifyMachine (f : RLMachine → RLMachine) : Exec Loading Unit := fun s =>
  .ok () { s with process := { s.process with machine := f s.process.machine } }

/-- The elements of an array read one after the other into `a[i]`, `a[i + 1]`, ...;
`get` and `set` select the array in the local memory. -/
def loadElements {α : Type} (item : Exec Loading α) (get : LocalMemory → List α)
    (set : LocalMemory → List α → LocalMemory) : Nat → Nat → Exec Loading Unit
  | 0, _ => pure ()
  | n + 1, i => do
    let v ← item
    modifyLocalMemory fun memory => set memory ((get memory).set i v)
    loadElements item get set n (i + 1)

/-- `ar >> a` for an array: the stored count must not exceed the extent of the array. -/
def loadArray {α : Type} (item : Exec Loading α) (get : LocalMemory → List α)
    (set : LocalMemory → List α → LocalMemory) : Exec Loading Unit := do
  let count ← loadCount
  let s ← getState
  if count > (get s.process.localMemory).length then throwExn .archiveException
  else loadElements item get set count 0

/-- `serialize(ar, header, version)` on an input archive. -/
def loadHeader : Exec Loading SaveGameHeader := do
  let title ← loadString
  let saveTime ← loadTime
  pure { title := title, saveTime := saveTime }

/-- `serialize(ar, memory, version)` for `LocalMemory` on an input archive. -/
def loadLocalMemory : Exec Loading Unit := do
  loadArray loadInt (·.intA) (fun memory a => { memory with intA := a })
  loadArray loadInt (·.intB) (fun memory a => { memory with intB := a })
  loadArray loadInt (·.intC) (fun memory a => { memory with intC := a })
  loadArray loadInt (·.intD) (fun memory a => { memory with intD := a })
  loadArray loadInt (·.intE) (fun memory a => { memory with intE := a })
  loadArray loadInt (·.intF) (fun memory a => { memory with intF := a })
  loadArray loadString (·.strS) (fun memory a => { memory with strS := a })
  loadArray loadInt (·.intL) (fun memory a => { memory with intL := a })
  loadArray loadString (·.strK) (fun memory a => { memory with strK := a })

/-- `serialize(ar, sys, version)` for `System` on an input archive: "For now, does
nothing". -/
def loadSystem : Exec Loading Unit := pure ()

/-- `load(ar, frame, version)` for a `StackFrame`; the result is the value assigned to
`frame`. -/
def loadStackFrame : Exec Loading StackFrame := do
  let sceneNumber ← loadInt
  let offset ← loadInt
  let type ← loadFrameType
  let s ← getState
  match s.process.g_currentMachine with
  | .NULL => undef .nullDereference
  | .addressOfMachine =>
    match s.process.machine.archive.scenario sceneNumber with
    | none => throwExn (.unknownSeen sceneNumber)
    | some scenario =>
      if offset > scenario.size ∨ offset < 0 then
        throwExn (.illegalOffset offset sceneNumber)
      else
        pure { scenario := scenario, ip := offset.toNat, frameType := type }

/-- The loop of `ar >> machine.callStack` for a `vector`: each stored frame is loaded and
appended. -/
def loadFrames : Nat → Exec Loading Unit
  | 0 => pure ()
  | n + 1 => do
    let frame ← loadStackFrame
    modifyMachine fun machine => { machine with callStack := machine.callStack ++ [frame] }
    loadFrames n

/-- `ar >> machine.callStack` for the `vector` of frames: the stored count, the vector
emptied, then the loop. -/
def loadCallStack : Exec Loading Unit := do
  let count ← loadCount
  modifyMachine fun machine => { machine with callStack := [] }
  loadFrames count

/-- `load(ar, machine, version)` for the `RLMachine`; the line it writes to `cerr` is left
out. -/
def loadMachine : Exec Loading Unit := do
  let line ← loadInt
  modifyMachine fun machine => { machine with m_line := some line }
  modifyMachine fun machine => { machine with callStack := [] }
  loadCallStack

/-- The block of `loadGameFrom` between the two assignments to `g_currentMachine`. -/
def loadGameBlock (H : Host) : Exec Loading Unit := do
  fun s => .ok () { s with process := { s.process with system := H.reset s.process.system } }
  openArchive
  let _header ← loadHeader
  loadLocalMemory
  loadMachine
  loadSystem
  fun s => .ok () { s with process := { s.process with
    system := H.replayGraphicsStack s.process.machine s.process.system } }
  fun s => .ok () { s with process := { s.process with
    system := H.markScreenForRefresh s.process.system } }

/-- `Serialization::loadGameFrom(iss, machine)`. An exception leaves the function from
where it is thrown. -/
def loadGameFrom (H : Host) (iss : List Item) : Exec Process Unit := fun p =>
  match loadGameBlock H
      { iss := iss, process := { p with g_currentMachine := .addressOfMachine } } with
  | .ok _ s => .ok () { s.process with g_currentMachine := .NULL }
  | .thrown e s => .thrown e s.process
  | .undefined u => .undefined u

/-- A `System` with a subtitle and some state. -/
def sampleSystem : System := { windowSubtitle := "chapter 1", state := [4, 2] }

/-- A host whose `reset` empties the state of `System`. -/
def sampleHost : Host where
  reset := fun sys => { sys with state := [] }
  replayGraphicsStack := fun _ sys => sys
  markScreenForRefresh := fun sys => { sys with state := 1 :: sys.state }
  now := 1193875200
  indeterminateLine := 0

/-- A local memory with two slots in each bank. -/
def sampleLocalMemory : LocalMemory where
  intA := [1, 2]
  intB := [0, 0]
  intC := [0, -3]
  intD := [0, 0]
  intE := [0, 0]
  intF := [5, 0]
  strS := ["a", ""]
  intL := [7, 8]
  strK := ["k", ""]

/-- The call stack `[Root, Gosub, LongOperation]`, bottom first. -/
def sampleStack : List StackFrame :=
  [{ scenario := sampleScenario, ip := 0, frameType := .TYPE_ROOT },
   { scenario := sampleScenario, ip := 2, frameType := .TYPE_GOSUB },
   { scenario := sampleScenario, ip := 1, frameType := .TYPE_LONGOP }]

/-- The call stack `[Root, LongOperation, Gosub]`, bottom first. -/
def sampleStackLongOperationBelow : List StackFrame :=
  [{ scenario := sampleScenario, ip := 0, frameType := .TYPE_ROOT },
   { scenario := sampleScenario, ip := 1, frameType := .TYPE_LONGOP },
   { scenario := sampleScenario, ip := 2, frameType := .TYPE_GOSUB }]

/-- A process whose machine is at line 7 with the call stack `sampleStack`. -/
def sampleProcess : Process where
  machine := { sampleMachine with m_line := some 7, callStack := sampleStack }
  localMemory := sampleLocalMemory
  system := sampleSystem
  g_currentMachine := .NULL

/-- The sample process while a load is under way. -/
def sampleProcessInLoad : Process :=
  { sampleProcess with g_currentMachine := .addressOfMachine }

/-- A saved game whose second stored frame names scenario 99. -/
def sampleCorruptSave : List Item :=
  [.signature, .str "chapter 1", .time 1193875200] ++
  saveLocalMemory { sampleLocalMemory with intA := [9, 9] } ++
  [.int 12, .count 2, .int 1, .int 1, .frameType .TYPE_ROOT,
    .int 99, .int 0, .frameType .TYPE_GOSUB]

/-- A frame that lies within its scenario, which is the one the archive holds under the
number of the scenario. -/
def StackFrame.Within (archive : Archive) (frame : StackFrame) : Prop :=
  archive.scenario frame.scenario.sceneNumber = some frame.scenario ∧
  frame.ip ≤ frame.scenario.size

/-- The three parts of a frame a saved game stores. -/
def StackFrame.stored (frame : StackFrame) : Int × Nat × FrameType :=
  (frame.scenario.sceneNumber, frame.ip, frame.frameType)

/-! ## algoplus -/

/-- `for_each_if(first, last, pred, f)` (algoplus.hpp) on a range that holds the elements
`l`. `pred` is a function of the element. A call of `f` acts on the state, and the
function object is part of the state: the state at the return is what `return f` gives. -/
def for_each_if {σ α : Type} (pred : α → Bool) (f : α → Exec σ Unit) : List α → Exec σ Unit
  | [] => pure ()
  | x :: rest => do
    if pred x then
      f x
    for_each_if pred f rest

/-- What the spec compares with: `f` applied in order to the elements of a sequence. -/
def applyInOrder {σ α : Type} (f : α → Exec σ Unit) : List α → Exec σ Unit
  | [] => pure ()
  | x :: rest => do
    f x
    applyInOrder f rest

/-- A function object that keeps the list of the arguments it was called with. -/
def recordCall {α : Type} (x : α) : Exec (List α) Unit := fun calls => .ok () (calls ++ [x])

/-! ## Module numbers and command headers -/

/-- `RLMachine::unpackModuleNumber(packedModuleNumber, modtype, module)`; the result is the
pair of the values stored in `modtype` and in `module`. -/
def unpackModuleNumber (packedModuleNumber : Nat) : Int × Int :=
  let modtype := ofBits (packedModuleNumber >>> 8)
  let module : Int := if packedModuleNumber ≠ 0 ∧ (0xFF : Nat) ≠ 0 then 1 else 0
  (modtype, module)

/-- `CommandElement::opcode()`. -/
def CommandElement.opcode (K : Config) (f : CommandElement) : Int :=
  cor ((f.command 3).val : Int) (cshl K.shlOver ((f.command 4).val : Int) 8)

/-- `CommandElement::argc()`. -/
def CommandElement.argc (K : Config) (f : CommandElement) : Int :=
  cor ((f.command 5).val : Int) (cshl K.shlOver ((f.command 6).val : Int) 8)

/-- `CommandElement::overload()`. -/
def CommandElement.overload (f : CommandElement) : Int := ((f.command 7).val : Int)

/-- A module whose type and number are byte-sized. -/
def RLModule.ByteSized (module : RLModule) : Prop :=
  0 ≤ module.moduleType ∧ module.moduleType ≤ 255 ∧
  0 ≤ module.moduleNumber ∧ module.moduleNumber ≤ 255

/-- The state of the module map that `attachModule` keeps: every module is byte-sized and
is held under the key packed from its type and number. -/
def ModulesKeyed (K : Config) (m : RLMachine) : Prop :=
  ∀ key module, m.modules key = some module →
    module.ByteSized ∧ key = packModuleNumber K module.moduleType module.moduleNumber

/-- A module of the pair 1:0. -/
def sampleModuleOther : RLModule where
  moduleType := 1
  moduleNumber := 0
  name := "Sys"

/-- A command header with the bytes 35, 1, 2, 3, 4, 5, 6, 7. -/
def sampleCommand : CommandElement where
  command := fun i => if i = 0 then 35 else ⟨i.val, by omega⟩
  pointers := []

/-! ## LazyArray: the reads of the scan and the copy -/

/-- The indices at which the loop of `allocated_begin()` reads `m_array`, for at most
`fuel` evaluations of its condition: the left operand `m_array[firstEntry] == NULL` is
evaluated at every evaluation of the condition, before `firstEntry < m_size`. -/
def LazyArray.firstEntryReads {T : Type} (pastEnd : Int → Bool) (a : LazyArray T) :
    Nat → Int → Option (List Int)
  | 0, _ => none
  | fuel + 1, firstEntry =>
    if a.isNull pastEnd firstEntry && decide (firstEntry < a.m_size) then
      (LazyArray.firstEntryReads pastEnd a fuel (firstEntry + 1)).map (firstEntry :: ·)
    else some [firstEntry]

/-- `rawDeref(pos)`: the pointer `m_array[pos]`, read without a test of `pos`; `none` when
`pos` is outside the array that was allocated. -/
def LazyArray.rawDeref {T : Type} (a : LazyArray T) (pos : Int) : Option (Option T) :=
  if 0 ≤ pos then a.m_array[pos.toNat]? else none

/-- The body of the loop of `copyTo` for the index `i`. The state is the pair of `*this`
and `otherArray`, two different objects. -/
def LazyArray.copyEntry {T : Type} (i : Int) : Exec (LazyArray T × LazyArray T) Unit :=
  fun s =>
    match s.1.rawDeref i, s.2.rawDeref i with
    | some srcEntry, some dstEntry =>
      match srcEntry, dstEntry with
      | some v, none =>
        .ok () (s.1, { s.2 with m_array := s.2.m_array.set i.toNat (some v) })
      | none, some _ =>
        .ok () (s.1, { s.2 with m_array := s.2.m_array.set i.toNat none })
      | some v, some _ =>
        .ok () (s.1, { s.2 with m_array := s.2.m_array.set i.toNat (some v) })
      | none, none => .ok () s
    | _, _ => .undefined .outOfBounds

/-- The loop `for(int i = 0; i < m_size; ++i)` of `copyTo` from the index `i` on, with
`count` iterations left. -/
def LazyArray.copyLoop {T : Type} : Nat → Int → Exec (LazyArray T × LazyArray T) Unit
  | 0, _ => pure ()
  | count + 1, i => do
    LazyArray.copyEntry i
    LazyArray.copyLoop count (i + 1)

/-- `LazyArray<T>::copyTo(otherArray)`. The state is the pair of `*this` and
`otherArray`; the loop makes `m_size` iterations, none when `m_size` is negative. -/
def LazyArray.copyTo {T : Type} : Exec (LazyArray T × LazyArray T) Unit := fun s =>
  if s.2.m_size < s.1.m_size then
    .thrown .runtime_error s
  else
    LazyArray.copyLoop s.1.m_size.toNat 0 (s.1, { s.2 with m_size := s.1.m_size })

/-- An array of two slots, none allocated. -/
def sampleEmptyLazyArray : LazyArray Nat where
  m_size := 2
  m_array := [none, none]

/-- An array of five slots of which slots 0, 1 and 4 are allocated. -/
def sampleTargetLazyArray : LazyArray Nat where
  m_size := 5
  m_array := [some 1, some 2, none, none, some 5]

/-! ## Lemmas: 32-bit arithmetic -/

theorem toBits_lt (x : Int) : toBits x < 4294967296 := by
  unfold toBits; omega

theorem toBits_ofBits (n : Nat) : toBits (ofBits n) = n % 4294967296 := by
  unfold toBits ofBits toInt32; omega

theorem toBits_toInt32 (x : Int) : toBits (toInt32 x) = toBits x := by
  unfold toBits toInt32; omega

theorem isInt32_toInt32 (x : Int) : isInt32 (toInt32 x) := by
  unfold isInt32 toInt32; omega

theorem toInt32_of_isInt32 {x : Int} (h : isInt32 x) : toInt32 x = x := by
  unfold isInt32 at h; unfold toInt32; omega

theorem ofBits_toBits {x : Int} (h : isInt32 x) : ofBits (toBits x) = x := by
  unfold isInt32 at h; unfold toBits ofBits toInt32; omega

theorem toBits_of_nonneg {x : Int} (h0 : 0 ≤ x) (h1 : x < 4294967296) :
    toBits x = x.toNat := by
  unfold toBits; omega

theorem toBits_cand (a b : Int) : toBits (cand a b) = toBits a &&& toBits b := by
  unfold cand
  rw [toBits_ofBits]
  apply Nat.mod_eq_of_lt
  exact lt_of_le_of_lt Nat.and_le_left (toBits_lt a)

theorem toBits_cor (a b : Int) : toBits (cor a b) = toBits a ||| toBits b := by
  unfold cor
  rw [toBits_ofBits]
  apply Nat.mod_eq_of_lt
  exact Nat.or_lt_two_pow (n := 32) (toBits_lt a) (toBits_lt b)

theorem toBits_cnot (a : Int) : toBits (cnot a) = toBits a ^^^ 4294967295 := by
  unfold cnot
  rw [toBits_ofBits]
  apply Nat.mod_eq_of_lt
  exact Nat.xor_lt_two_pow (n := 32) (toBits_lt a) (by decide)

theorem toBits_cshl (O : Int → Int → Int) (a : Int) (n : Nat) (hn : n < 32) :
    toBits (cshl O a n) = (toBits a <<< n) % 4294967296 := by
  unfold cshl
  rw [if_pos (by omega), toBits_ofBits]
  simp

theorem testBit_toBits_ge (x : Int) {i : Nat} (hi : 32 ≤ i) : (toBits x).testBit i = false := by
  apply Nat.testBit_lt_two_pow
  calc toBits x < 2 ^ 32 := toBits_lt x
    _ ≤ 2 ^ i := Nat.pow_le_pow_right (by decide) hi

theorem toBits_cshr_mod (O : Int → Int → Int) (a : Int) (n : Nat) (hn : n < 32) :
    toBits (cshr O a n) % 2 ^ (32 - n) = toBits a >>> n := by
  unfold cshr
  rw [if_pos (by omega)]
  simp only [Int.toNat_ofNat, Nat.shiftRight_eq_div_pow]
  unfold toBits
  interval_cases n <;> omega

theorem testBit_cshr (O : Int → Int → Int) (a : Int) (n i : Nat) (h : i + n < 32) :
    (toBits (cshr O a n)).testBit i = (toBits a).testBit (n + i) := by
  have h1 := toBits_cshr_mod O a n (by omega)
  have h2 := congrArg (fun x => x.testBit i) h1
  simp only [Nat.testBit_mod_two_pow, Nat.testBit_shiftRight] at h2
  rw [← h2]
  simp; omega

/-- The word written by the bit-packed branch of `setIntValue`. -/
theorem testBit_packed_word (O : Int → Int → Int) (old v M : Int) (s i : Nat)
    (hs : s < 32) (hi : i < 32) :
    (toBits (cor (cand old (cnot (cshl O M s))) (cshl O (cand v M) s))).testBit i =
      (((toBits old).testBit i && !(decide (s ≤ i) && (toBits M).testBit (i - s))) ||
        (decide (s ≤ i) && ((toBits v).testBit (i - s) && (toBits M).testBit (i - s)))) := by
  rw [toBits_cor, toBits_cand, toBits_cnot, toBits_cshl O M s hs, toBits_cshl O _ s hs,
    toBits_cand]
  have h32 : (4294967296 : Nat) = 2 ^ 32 := by norm_num
  have hones : (4294967295 : Nat) = 2 ^ 32 - 1 := by norm_num
  rw [h32, hones]
  simp only [Nat.testBit_or, Nat.testBit_and, Nat.testBit_xor, Nat.testBit_mod_two_pow,
    Nat.testBit_shiftLeft, Nat.testBit_two_pow_sub_one]
  simp [hi]

theorem packed_word_outside (O : Int → Int → Int) (old v M : Int) (s f i : Nat)
    (hs : s < 32) (hi : i < 32) (hM : toBits M < 2 ^ f) (hout : i < s ∨ s + f ≤ i) :
    (toBits (cor (cand old (cnot (cshl O M s))) (cshl O (cand v M) s))).testBit i =
      (toBits old).testBit i := by
  rw [testBit_packed_word O old v M s i hs hi]
  rcases hout with h | h
  · have : ¬ s ≤ i := by omega
    simp [this]
  · have hb : (toBits M).testBit (i - s) = false := by
      apply Nat.testBit_lt_two_pow
      calc toBits M < 2 ^ f := hM
        _ ≤ 2 ^ (i - s) := Nat.pow_le_pow_right (by decide) (by omega)
    simp [hb]

theorem packed_word_inside (O R : Int → Int → Int) (old v M : Int) (s f : Nat)
    (hsf : s + f ≤ 32) (hf : 0 < f) (hM : toBits M = 2 ^ f - 1) :
    toBits (cshr R (cor (cand old (cnot (cshl O M s))) (cshl O (cand v M) s)) s) &&& toBits M
      = toBits v % 2 ^ f := by
  apply Nat.eq_of_testBit_eq
  intro i
  rw [Nat.testBit_and, Nat.testBit_mod_two_pow, hM, Nat.testBit_two_pow_sub_one]
  by_cases hi : i < f
  · rw [testBit_cshr R _ s i (by omega), testBit_packed_word O old v M s (s + i) (by omega) (by omega)]
    simp [hM, Nat.testBit_two_pow_sub_one, hi]
  · simp [hi]

theorem packed_read_back (O R : Int → Int → Int) (old v M : Int) (s f : Nat)
    (hsf : s + f ≤ 32) (hf : 0 < f) (hM : toBits M = 2 ^ f - 1) :
    cand (cshr R (cor (cand old (cnot (cshl O M s))) (cshl O (cand v M) s)) s) M
      = ofBits (toBits v % 2 ^ f) := by
  show ofBits (toBits (cshr R (cor (cand old (cnot (cshl O M s))) (cshl O (cand v M) s)) s)
    &&& toBits M) = _
  rw [packed_word_inside O R old v M s f hsf hf hM]

theorem ofBits_toBits_mod (v : Int) (f : Nat) (hf : f ≤ 31) :
    ofBits (toBits v % 2 ^ f) = v % 2 ^ f := by
  have h1 : (2 : Int) ^ f ∣ 4294967296 := by
    have : (4294967296 : Int) = 2 ^ 32 := by norm_num
    rw [this]
    exact pow_dvd_pow 2 (by omega)
  have h2 : ((toBits v % 2 ^ f : Nat) : Int) = v % 2 ^ f := by
    unfold toBits
    rw [Int.natCast_mod, Int.toNat_of_nonneg (Int.emod_nonneg _ (by norm_num))]
    push_cast
    exact Int.emod_emod_of_dvd v h1
  have h3 : (0 : Int) ≤ v % 2 ^ f := Int.emod_nonneg _ (by positivity)
  have h4 : v % 2 ^ f < 2 ^ f := Int.emod_lt_of_pos _ (by positivity)
  have h5 : (2 : Int) ^ f ≤ 2 ^ 31 := pow_le_pow_right₀ (by norm_num) hf
  unfold ofBits
  rw [h2]
  apply toInt32_of_isInt32
  unfold isInt32
  constructor <;> omega

/-! ## Lemmas: evaluating the integer accessors -/

theorem Exec.bind_apply {σ α β : Type} (x : Exec σ α) (f : α → Exec σ β) (s : σ) :
    (x >>= f) s = match x s with
      | .ok a s1 => f a s1
      | .thrown e s1 => .thrown e s1
      | .undefined u => .undefined u := rfl

theorem Exec.pure_apply {σ α : Type} (a : α) (s : σ) : (pure a : Exec σ α) s = .ok a s := rfl

theorem cdiv_apply {σ : Type} (a b : Int) (s : σ) (ha : 0 ≤ a) (hb : 0 < b) :
    cdiv a b s = .ok (a / b) s := by
  unfold cdiv
  rw [if_neg (by omega), Int.tdiv_eq_ediv ha (by omega)]
  rfl

theorem cmod_apply {σ : Type} (a b : Int) (s : σ) (ha : 0 ≤ a) (hb : 0 < b) :
    cmod a b s = .ok (a % b) s := by
  unfold cmod
  rw [if_neg (by omega), Int.tmod_eq_emod ha (by omega)]
  rfl

theorem cmul_eq (a b : Int) (h1 : -2147483648 ≤ a * b) (h2 : a * b < 2147483648) :
    cmul a b = a * b := by
  unfold cmul toInt32; omega

theorem csub_eq (a b : Int) (h1 : -2147483648 ≤ a - b) (h2 : a - b < 2147483648) :
    csub a b = a - b := by
  unfold csub toInt32; omega

theorem readIntVar_apply (K : Config) (m : RLMachine) (i j : Int)
    (hi0 : 0 ≤ i) (hi : i < K.intVarRows) (hj0 : 0 ≤ j) (hj : j < 2000) :
    readIntVar K i j m = .ok (m.intVar i j) m := by
  unfold readIntVar INT_BANK_SIZE
  rw [if_pos ⟨hi0, hi, hj0, hj⟩]

theorem writeIntVar_apply (K : Config) (m : RLMachine) (i j v : Int)
    (hi0 : 0 ≤ i) (hi : i < K.intVarRows) (hj0 : 0 ≤ j) (hj : j < 2000) :
    writeIntVar K i j v m = .ok () { m with
      intVar := fun a b => if a = i ∧ b = j then v else m.intVar a b } := by
  unfold writeIntVar INT_BANK_SIZE
  rw [if_pos ⟨hi0, hi, hj0, hj⟩]

theorem toBits_lt_iff (L c : Int) (hL : isInt32 L) (hc0 : 0 ≤ c) (hc : c < 2147483648) :
    toBits L ≥ toBits c ↔ (L < 0 ∨ c ≤ L) := by
  unfold isInt32 at hL
  unfold toBits
  omega

theorem factor_cases (f e : Nat) (h : f * e = 32) :
    (f = 1 ∧ e = 32) ∨ (f = 2 ∧ e = 16) ∨ (f = 4 ∧ e = 8) ∨ (f = 8 ∧ e = 4) ∨
      (f = 16 ∧ e = 2) ∨ (f = 32 ∧ e = 1) := by
  have hf : f ≤ 32 := Nat.le_of_dvd (by decide) ⟨e, h.symm⟩
  interval_cases f <;> omega

theorem factor_facts (f e : Nat) (h : f * e = 32) (L : Int) (hL0 : 0 ≤ L)
    (hL : L < 2000 * e) :
    (0 < (f : Int)) ∧ (0 < (e : Int)) ∧ ((32 : Int) / f = e) ∧ ((64000 : Int) / f = 2000 * e) ∧
      0 ≤ L / e ∧ L / e < 2000 ∧ 0 ≤ L % e * f ∧ L % e * f + f ≤ 32 ∧ (e : Int) ≤ 32 := by
  rcases factor_cases f e h with ⟨rfl, rfl⟩ | ⟨rfl, rfl⟩ | ⟨rfl, rfl⟩ | ⟨rfl, rfl⟩ |
    ⟨rfl, rfl⟩ | ⟨rfl, rfl⟩ <;>
  · simp only [Nat.cast_ofNat, Nat.cast_one] at hL ⊢
    omega

theorem setIntValue_packed (K : Config) (m : RLMachine) (type L v : Int) (f e : Nat)
    (h0 : 0 ≤ classIndex K type) (hN : classIndex K type ≤ K.NUMBER_OF_INT_LOCATIONS)
    (hrows : classIndex K type < K.intVarRows)
    (hsel : Int.tdiv type 26 ≠ 0)
    (hfac : cshl K.shlOver 1 (csub (Int.tdiv type 26) 1) = f)
    (hfe : f * e = 32) (hL0 : 0 ≤ L) (hL : L < 2000 * e) :
    setIntValue K type L v m = .ok () { m with
      intVar := fun i j =>
        if i = classIndex K type ∧ j = L / e then
          cor (cand (m.intVar (classIndex K type) (L / e))
              (cnot (cshl K.shlOver (csub (cshl K.shlOver 1 f) 1) (L % e * f))))
            (cshl K.shlOver (cand v (csub (cshl K.shlOver 1 f) 1)) (L % e * f))
        else m.intVar i j } := by
  obtain ⟨hf0, he0, h32, h64, hw0, hw1, hs0, hs1, he32⟩ := factor_facts f e hfe L hL0 hL
  have hdiag : ¬ (classIndex K type < 0 ∨ classIndex K type > K.NUMBER_OF_INT_LOCATIONS) := by
    omega
  have hcap : ¬ (toBits L ≥ toBits (2000 * e)) := by
    rw [toBits_lt_iff L _ (by unfold isInt32; omega) (by omega) (by omega)]; omega
  unfold setIntValue
  simp only [hfac, if_neg hdiag, if_neg hsel, Exec.bind_apply, Exec.pure_apply]
  rw [cdiv_apply 32 _ m (by omega) hf0, h32]
  simp only []
  rw [cmod_apply L _ m hL0 he0]
  simp only []
  rw [cdiv_apply 64000 _ m (by omega) hf0, h64]
  simp only []
  rw [if_neg hcap, Exec.bind_apply, cdiv_apply L _ m hL0 he0]
  simp only []
  rw [Exec.bind_apply, readIntVar_apply K m _ _ h0 hrows hw0 hw1]
  simp only []
  rw [writeIntVar_apply K m _ _ _ h0 hrows hw0 hw1, cmul_eq _ _ (by omega) (by omega)]

theorem getIntValue_packed (K : Config) (m : RLMachine) (type L : Int) (f e : Nat)
    (h0 : 0 ≤ classIndex K type) (hN : classIndex K type ≤ K.NUMBER_OF_INT_LOCATIONS)
    (hrows : classIndex K type < K.intVarRows)
    (hsel : Int.tdiv type 26 ≠ 0)
    (hfac : cshl K.shlOver 1 (csub (Int.tdiv type 26) 1) = f)
    (hfe : f * e = 32) (hL0 : 0 ≤ L) (hL : L < 2000 * e) :
    getIntValue K type L m = .ok
      (cand (cshr K.shrOver (m.intVar (classIndex K type) (L / e)) (L % e * f))
        (csub (cshl K.shlOver 1 f) 1)) m := by
  obtain ⟨hf0, he0, h32, h64, hw0, hw1, hs0, hs1, he32⟩ := factor_facts f e hfe L hL0 hL
  have hcap : ¬ (toBits L ≥ toBits (2000 * e)) := by
    rw [toBits_lt_iff L _ (by unfold isInt32; omega) (by omega) (by omega)]; omega
  unfold getIntValue
  simp only [hfac, if_neg (not_lt.mpr hN), if_neg hsel, Exec.bind_apply, Exec.pure_apply]
  rw [cdiv_apply 32 _ m (by omega) hf0, h32]
  simp only []
  rw [cdiv_apply 64000 _ m (by omega) hf0, h64]
  simp only []
  rw [if_neg hcap, Exec.bind_apply, cdiv_apply L _ m hL0 he0]
  simp only []
  rw [Exec.bind_apply, readIntVar_apply K m _ _ h0 hrows hw0 hw1]
  simp only []
  rw [Exec.bind_apply, cmod_apply L _ m hL0 he0]
  simp only []
  rw [cmul_eq _ _ (by omega) (by omega)]
  rfl

theorem cmod_ok {σ : Type} (a b : Int) (s : σ) (hb : 0 < b) :
    cmod a b s = .ok (Int.tmod a b) s := by
  unfold cmod
  rw [if_neg (by omega)]
  rfl

theorem pow_facts (k : Nat) (hk : k ≤ 5) :
    2 ^ k * 2 ^ (5 - k) = 32 ∧ (64000 : Int) / 2 ^ k = 2000 * ((2 ^ (5 - k) : Nat) : Int) ∧
      (32 : Int) / 2 ^ k = ((2 ^ (5 - k) : Nat) : Int) := by
  interval_cases k <;> simp

theorem factor_of_selector (K : Config) (k : Nat) (hk : k ≤ 5) :
    cshl K.shlOver 1 (csub (k + 1) 1) = ((2 ^ k : Nat) : Int) := by
  interval_cases k <;> simp [cshl, csub, toInt32, ofBits, toBits]

theorem mask_of_factor (K : Config) (k : Nat) (hk : k ≤ 4) :
    toBits (csub (cshl K.shlOver 1 ((2 ^ k : Nat) : Int)) 1) = 2 ^ (2 ^ k) - 1 := by
  interval_cases k <;> simp [cshl, csub, toInt32, ofBits, toBits]

theorem setIntValue_packed_throw (K : Config) (m : RLMachine) (type L v : Int) (f e : Nat)
    (h0 : 0 ≤ classIndex K type) (hN : classIndex K type ≤ K.NUMBER_OF_INT_LOCATIONS)
    (hsel : Int.tdiv type 26 ≠ 0)
    (hfac : cshl K.shlOver 1 (csub (Int.tdiv type 26) 1) = f)
    (hfe : f * e = 32) (hL : isInt32 L) (hout : L < 0 ∨ 2000 * e ≤ L) :
    setIntValue K type L v m = .thrown .illegalIndexSet m := by
  obtain ⟨hf0, he0, h32, h64, -, -, -, -, he32⟩ := factor_facts f e hfe 0 le_rfl (by
    rcases factor_cases f e hfe with ⟨rfl, rfl⟩ | ⟨rfl, rfl⟩ | ⟨rfl, rfl⟩ | ⟨rfl, rfl⟩ |
      ⟨rfl, rfl⟩ | ⟨rfl, rfl⟩ <;> simp)
  have hdiag : ¬ (classIndex K type < 0 ∨ classIndex K type > K.NUMBER_OF_INT_LOCATIONS) := by
    omega
  have hcap : toBits L ≥ toBits (2000 * e) := by
    rw [toBits_lt_iff L _ hL (by omega) (by omega)]; exact hout
  unfold setIntValue
  simp only [hfac, if_neg hdiag, if_neg hsel, Exec.bind_apply, Exec.pure_apply]
  rw [cdiv_apply 32 _ m (by omega) hf0, h32]
  simp only []
  rw [cmod_ok L _ m he0]
  simp only []
  rw [cdiv_apply 64000 _ m (by omega) hf0, h64]
  simp only []
  rw [if_pos hcap]
  rfl

theorem getIntValue_packed_throw (K : Config) (m : RLMachine) (type L : Int) (f e : Nat)
    (hN : classIndex K type ≤ K.NUMBER_OF_INT_LOCATIONS)
    (hsel : Int.tdiv type 26 ≠ 0)
    (hfac : cshl K.shlOver 1 (csub (Int.tdiv type 26) 1) = f)
    (hfe : f * e = 32) (hL : isInt32 L) (hout : L < 0 ∨ 2000 * e ≤ L) :
    getIntValue K type L m = .thrown (.illegalIndex L) m := by
  obtain ⟨hf0, he0, h32, h64, -, -, -, -, he32⟩ := factor_facts f e hfe 0 le_rfl (by
    rcases factor_cases f e hfe with ⟨rfl, rfl⟩ | ⟨rfl, rfl⟩ | ⟨rfl, rfl⟩ | ⟨rfl, rfl⟩ |
      ⟨rfl, rfl⟩ | ⟨rfl, rfl⟩ <;> simp)
  have hcap : toBits L ≥ toBits (2000 * e) := by
    rw [toBits_lt_iff L _ hL (by omega) (by omega)]; exact hout
  unfold getIntValue
  simp only [hfac, if_neg (not_lt.mpr hN), if_neg hsel, Exec.bind_apply, Exec.pure_apply]
  rw [cdiv_apply 32 _ m (by omega) hf0, h32]
  simp only []
  rw [cdiv_apply 64000 _ m (by omega) hf0, h64]
  simp only []
  rw [if_pos hcap]
  rfl

theorem plain_throw (K : Config) (m : RLMachine) (type L v : Int)
    (h0 : 0 ≤ classIndex K type) (hN : classIndex K type ≤ K.NUMBER_OF_INT_LOCATIONS)
    (hsel : Int.tdiv type 26 = 0) (hL : isInt32 L) (hout : L < 0 ∨ 2000 ≤ L) :
    getIntValue K type L m = .thrown (.illegalIndex L) m ∧
      setIntValue K type L v m = .thrown .illegalIndexSet m := by
  have hdiag : ¬ (classIndex K type < 0 ∨ classIndex K type > K.NUMBER_OF_INT_LOCATIONS) := by
    omega
  have hcap : toBits L ≥ 2000 := by
    have := (toBits_lt_iff L 2000 hL (by omega) (by omega)).mpr hout
    simpa [toBits] using this
  constructor
  · unfold getIntValue
    simp only [if_neg (not_lt.mpr hN), hsel, if_pos hcap]
    rfl
  · unfold setIntValue
    simp only [if_neg hdiag, hsel, if_pos hcap, Exec.bind_apply, Exec.pure_apply]
    rfl

theorem mask_lt (K : Config) (k : Nat) (hk : k ≤ 5) :
    toBits (csub (cshl K.shlOver 1 ((2 ^ k : Nat) : Int)) 1) < 2 ^ (2 ^ k) := by
  rcases Nat.lt_or_ge k 5 with h | h
  · rw [mask_of_factor K k (by omega)]
    exact Nat.sub_lt (by positivity) (by decide)
  · have : k = 5 := by omega
    subst this
    exact toBits_lt _

/-- Writing a bit-packed view of width at most 16 and reading the same view back returns
the written value reduced to the width of the view. -/
theorem getIntValue_setIntValue_packed (K : Config) (m : RLMachine) (type L v : Int) (k : Nat)
    (hk : k ≤ 4) (hsel : Int.tdiv type 26 = k + 1)
    (h0 : 0 ≤ classIndex K type) (hN : classIndex K type < K.NUMBER_OF_INT_LOCATIONS)
    (hrows : K.NUMBER_OF_INT_LOCATIONS ≤ K.intVarRows)
    (hL0 : 0 ≤ L) (hL : L < 64000 / 2 ^ k) :
    ∃ m1, setIntValue K type L v m = .ok () m1 ∧
      getIntValue K type L m1 = .ok (v % 2 ^ (2 ^ k)) m1 := by
  obtain ⟨hfe, h64, h32⟩ := pow_facts k (by omega)
  have hfac := factor_of_selector K k (by omega)
  rw [← hsel] at hfac
  have hsel0 : Int.tdiv type 26 ≠ 0 := by omega
  rw [h64] at hL
  have hset := setIntValue_packed K m type L v _ _ h0 (by omega) (by omega) hsel0 hfac hfe hL0 hL
  obtain ⟨hf0, he0, -, -, hw0, hw1, hs0, hs1, he32⟩ := factor_facts _ _ hfe L hL0 hL
  refine ⟨_, hset, ?_⟩
  rw [getIntValue_packed K _ type L _ _ h0 (by omega) (by omega) hsel0 hfac hfe hL0 hL]
  have hs : L % ((2 ^ (5 - k) : Nat) : Int) * ((2 ^ k : Nat) : Int) =
      ((L % ((2 ^ (5 - k) : Nat) : Int) * ((2 ^ k : Nat) : Int)).toNat : Int) :=
    (Int.toNat_of_nonneg hs0).symm
  have hM := mask_of_factor K k hk
  have hk31 : 2 ^ k ≤ 31 := by interval_cases k <;> norm_num
  have hval : cand (cshr K.shrOver
        (cor (cand (m.intVar (classIndex K type) (L / ((2 ^ (5 - k) : Nat) : Int)))
            (cnot (cshl K.shlOver (csub (cshl K.shlOver 1 ((2 ^ k : Nat) : Int)) 1)
              (L % ((2 ^ (5 - k) : Nat) : Int) * ((2 ^ k : Nat) : Int)))))
          (cshl K.shlOver (cand v (csub (cshl K.shlOver 1 ((2 ^ k : Nat) : Int)) 1))
            (L % ((2 ^ (5 - k) : Nat) : Int) * ((2 ^ k : Nat) : Int))))
        (L % ((2 ^ (5 - k) : Nat) : Int) * ((2 ^ k : Nat) : Int)))
      (csub (cshl K.shlOver 1 ((2 ^ k : Nat) : Int)) 1) = v % 2 ^ (2 ^ k) := by
    rw [hs, packed_read_back K.shlOver K.shrOver _ v _ _ (2 ^ k) (by omega) (by positivity) hM]
    exact ofBits_toBits_mod v _ hk31
  simp only [and_self, if_true]
  rw [hval]

/-! ## Lemmas: the call stack -/

theorem machine_eta (m : RLMachine) (s : List StackFrame) (h : s = m.callStack) :
    { m with callStack := s } = m := by
  subst h; rfl

theorem top_apply (m : RLMachine) (f : StackFrame) (h : m.callStack.getLast? = some f) :
    top m = .ok f m := by
  unfold top; rw [h]

theorem pop_push (m : RLMachine) (f : StackFrame) :
    pop { m with callStack := m.callStack ++ [f] } = .ok () m := by
  unfold pop
  cases hcs : m.callStack with
  | nil => simp only [List.nil_append, List.dropLast_single]; rw [machine_eta m [] hcs.symm]
  | cons a l =>
    simp only [List.cons_append]
    rw [← List.cons_append, List.dropLast_concat]
    rw [machine_eta m (a :: l) hcs.symm]


theorem rooted_push {s : List StackFrame} (h : RootedStack s) (f : StackFrame)
    (hf : f.frameType ≠ .TYPE_ROOT) : RootedStack (s ++ [f]) := by
  obtain ⟨root, rest, rfl, hr, hrest⟩ := h
  refine ⟨root, rest ++ [f], by simp, hr, ?_⟩
  intro g hg
  rcases List.mem_append.mp hg with h1 | h1
  · exact hrest g h1
  · rw [List.mem_singleton.mp h1]; exact hf

theorem rooted_cases {s : List StackFrame} (h : RootedStack s) :
    ∃ f, s.getLast? = some f ∧
      ((s = [f] ∧ f.frameType = .TYPE_ROOT) ∨
        (∃ init, s = init ++ [f] ∧ RootedStack init ∧ f.frameType ≠ .TYPE_ROOT)) := by
  obtain ⟨root, rest, rfl, hr, hrest⟩ := h
  rcases List.eq_nil_or_concat rest with h1 | ⟨init, t, h1⟩
  · subst h1
    exact ⟨root, by simp, Or.inl ⟨rfl, hr⟩⟩
  · rw [List.concat_eq_append] at h1
    subst h1
    refine ⟨t, ?_, Or.inr ⟨root :: init, by simp, ⟨root, init, rfl, hr, ?_⟩, ?_⟩⟩
    · rw [← List.cons_append, List.getLast?_append]; simp
    · intro g hg; exact hrest g (List.mem_append.mpr (Or.inl hg))
    · exact hrest t (by simp)

theorem rooted_modify {s : List StackFrame} (h : RootedStack s) (f : StackFrame)
    (hf : s.getLast? = some f) (g : StackFrame → StackFrame)
    (hg : (g f).frameType = f.frameType) : RootedStack (s.dropLast ++ [g f]) := by
  obtain ⟨f1, hf1, hc⟩ := rooted_cases h
  rw [hf] at hf1
  obtain rfl : f = f1 := Option.some.inj hf1
  rcases hc with ⟨rfl, hr⟩ | ⟨init, rfl, hi, hne⟩
  · exact ⟨g f, [], by simp, by rw [hg]; exact hr, by simp⟩
  · rw [List.dropLast_concat]
    exact rooted_push hi _ (by rw [hg]; exact hne)

theorem rooted_pop {s : List StackFrame} (h : RootedStack s) (f : StackFrame)
    (hf : s.getLast? = some f) (hne : f.frameType ≠ .TYPE_ROOT) :
    ∃ root rest, s = root :: (rest ++ [f]) ∧ s.dropLast = root :: rest ∧
      RootedStack (root :: rest) := by
  obtain ⟨f1, hf1, hc⟩ := rooted_cases h
  rw [hf] at hf1
  obtain rfl : f = f1 := Option.some.inj hf1
  rcases hc with ⟨rfl, hr⟩ | ⟨init, rfl, hi, -⟩
  · exact absurd hr hne
  · obtain ⟨root, rest, rfl, hr, hrest⟩ := hi
    exact ⟨root, rest, by simp, by rw [List.dropLast_concat], ⟨root, rest, rfl, hr, hrest⟩⟩

theorem modifyTop_apply (m : RLMachine) (f : StackFrame) (g : StackFrame → StackFrame)
    (h : m.callStack.getLast? = some f) :
    modifyTop g m = .ok () { m with callStack := m.callStack.dropLast ++ [g f] } := by
  unfold modifyTop; rw [h]

theorem pop_apply (m : RLMachine) (f : StackFrame) (h : m.callStack.getLast? = some f) :
    pop m = .ok () { m with callStack := m.callStack.dropLast } := by
  unfold pop
  cases hcs : m.callStack with
  | nil => rw [hcs] at h; simp at h
  | cons a l => rfl

theorem returnFromGosub_state (m : RLMachine) (f : StackFrame)
    (hf : m.callStack.getLast? = some f) :
    returnFromGosub m = (if f.frameType ≠ .TYPE_GOSUB then .thrown .callstackMismatchGosub m
      else .ok () { m with callStack := m.callStack.dropLast }) := by
  unfold returnFromGosub
  rw [Exec.bind_apply, top_apply m f hf]
  by_cases h : f.frameType ≠ .TYPE_GOSUB
  · simp only [if_pos h]; rfl
  · simp only [if_neg h]; exact pop_apply m f hf

theorem returnFromFarcall_state (m : RLMachine) (f : StackFrame)
    (hf : m.callStack.getLast? = some f) :
    returnFromFarcall m = (if f.frameType ≠ .TYPE_FARCALL then
        .thrown .callstackMismatchFarcall m
      else .ok () { m with callStack := m.callStack.dropLast }) := by
  unfold returnFromFarcall
  rw [Exec.bind_apply, top_apply m f hf]
  by_cases h : f.frameType ≠ .TYPE_FARCALL
  · simp only [if_pos h]; rfl
  · simp only [if_neg h]; exact pop_apply m f hf

theorem rooted_step (c : Call) (m m1 : RLMachine) (h : RootedStack m.callStack)
    (hrun : (c.run m).state? = some m1) : RootedStack m1.callStack := by
  obtain ⟨f, hf, -⟩ := rooted_cases h
  cases c with
  | jump S E =>
    simp only [Call.run, jump, Exec.bind_apply, getState] at hrun
    cases hS : m.archive.scenario S with
    | none =>
      rw [hS] at hrun
      simp only [throwExn, Res.state?, Option.some.injEq] at hrun
      rw [← hrun]; exact h
    | some sc =>
      rw [hS] at hrun
      simp only [Exec.bind_apply] at hrun
      rw [modifyTop_apply m f _ hf] at hrun
      simp only [] at hrun
      rw [modifyTop_apply _ { f with scenario := sc } _ (by simp)] at hrun
      simp only [Res.state?, Option.some.injEq] at hrun
      rw [← hrun]
      simp only [List.dropLast_concat]
      exact rooted_modify h f hf (fun f => { f with scenario := sc, ip := sc.findEntrypoint E }) rfl
  | farcall S E =>
    simp only [Call.run, farcall, Exec.bind_apply, getState] at hrun
    cases hS : m.archive.scenario S with
    | none =>
      rw [hS] at hrun
      simp only [throwExn, Res.state?, Option.some.injEq] at hrun
      rw [← hrun]; exact h
    | some sc =>
      rw [hS] at hrun
      simp only [push, Res.state?, Option.some.injEq] at hrun
      rw [← hrun]
      exact rooted_push h _ (by simp)
  | gosub p =>
    simp only [Call.run, gosub, Exec.bind_apply] at hrun
    rw [top_apply m f hf] at hrun
    simp only [push, Res.state?, Option.some.injEq] at hrun
    rw [← hrun]
    exact rooted_push h _ (by simp)
  | gotoLocation p =>
    simp only [Call.run, gotoLocation] at hrun
    rw [modifyTop_apply m f _ hf] at hrun
    simp only [Res.state?, Option.some.injEq] at hrun
    rw [← hrun]
    exact rooted_modify h f hf (fun f => { f with ip := p }) rfl
  | advanceInstructionPointer =>
    simp only [Call.run, advanceInstructionPointer, Exec.bind_apply] at hrun
    rw [top_apply m f hf] at hrun
    simp only [] at hrun
    by_cases hlt : f.ip < f.scenario.size
    · simp only [if_pos hlt, Exec.bind_apply] at hrun
      rw [modifyTop_apply m f _ hf] at hrun
      simp only [] at hrun
      rw [top_apply _ { f with ip := f.ip + 1 } (by simp)] at hrun
      simp only [] at hrun
      have hI := rooted_modify h f hf (fun f => { f with ip := f.ip + 1 }) rfl
      by_cases he : f.ip + 1 = f.scenario.size
      · simp only [if_pos he, Res.state?, Option.some.injEq] at hrun
        rw [← hrun]; exact hI
      · simp only [if_neg he, Exec.pure_apply, Res.state?, Option.some.injEq] at hrun
        rw [← hrun]; exact hI
    · simp only [if_neg hlt, undef, Exec.bind_apply, Res.state?] at hrun
      exact absurd hrun (by simp)
  | returnFromGosub =>
    simp only [Call.run] at hrun
    rw [returnFromGosub_state m f hf] at hrun
    by_cases hne : f.frameType ≠ .TYPE_GOSUB
    · simp only [if_pos hne, Res.state?, Option.some.injEq] at hrun
      rw [← hrun]; exact h
    · simp only [if_neg hne, Res.state?, Option.some.injEq] at hrun
      rw [← hrun]
      have ht : f.frameType = .TYPE_GOSUB := not_not.mp hne
      obtain ⟨root, rest, -, hd, hI⟩ := rooted_pop h f hf (by rw [ht]; simp)
      simp only [hd]; exact hI
  | returnFromFarcall =>
    simp only [Call.run] at hrun
    rw [returnFromFarcall_state m f hf] at hrun
    by_cases hne : f.frameType ≠ .TYPE_FARCALL
    · simp only [if_pos hne, Res.state?, Option.some.injEq] at hrun
      rw [← hrun]; exact h
    · simp only [if_neg hne, Res.state?, Option.some.injEq] at hrun
      rw [← hrun]
      have ht : f.frameType = .TYPE_FARCALL := not_not.mp hne
      obtain ⟨root, rest, -, hd, hI⟩ := rooted_pop h f hf (by rw [ht]; simp)
      simp only [hd]; exact hI

theorem rooted_runCalls (calls : List Call) (m m1 : RLMachine) (h : RootedStack m.callStack)
    (hrun : runCalls calls m = some m1) : RootedStack m1.callStack := by
  induction calls generalizing m with
  | nil =>
    simp only [runCalls, Option.some.injEq] at hrun
    rw [← hrun]; exact h
  | cons c rest ih =>
    simp only [runCalls] at hrun
    cases hc : (c.run m).state? with
    | none => rw [hc] at hrun; exact absurd hrun (by simp)
    | some m2 =>
      rw [hc] at hrun
      exact ih m2 (rooted_step c m m2 h hc) hrun

/-! ## Lemmas: the main loop -/

theorem getLast?_dropLast_concat (s : List StackFrame) (f : StackFrame) :
    (s.dropLast ++ [f]).getLast? = some f := by
  simp

theorem advanceInstructionPointer_apply (m : RLMachine) (f : StackFrame)
    (hf : m.callStack.getLast? = some f) (hlt : f.ip < f.scenario.size) :
    advanceInstructionPointer m = .ok () { m with
      callStack := m.callStack.dropLast ++ [{ f with ip := f.ip + 1 }]
      m_halted := m.m_halted || decide (f.ip + 1 = f.scenario.size) } := by
  unfold advanceInstructionPointer
  rw [Exec.bind_apply, top_apply m f hf]
  simp only [if_pos hlt, Exec.bind_apply]
  rw [modifyTop_apply m f _ hf]
  simp only []
  rw [top_apply _ { f with ip := f.ip + 1 } (by simp)]
  simp only []
  by_cases he : f.ip + 1 = f.scenario.size
  · simp [he]
  · simp [he, Exec.pure_apply]

theorem executeCommand_undefined (K : Config) (W : World) (m : RLMachine) (f : CommandElement)
    (hkey : m.modules (packModuleNumber K f.modtype f.module) = none) :
    executeCommand K W f m = .thrown (.undefinedModule f.modtype f.module) m := by
  unfold executeCommand
  rw [Exec.bind_apply]
  simp only [getState, hkey]
  rfl

theorem executeNextInstruction_element (K : Config) (W : World) (m : RLMachine)
    (f : StackFrame) (element : BytecodeElement)
    (hrun : m.m_halted = false) (hlong : m.m_longOperationStack = [])
    (hf : m.callStack.getLast? = some f)
    (helem : f.scenario.elements[f.ip]? = some element) :
    executeNextInstruction K W m =
      match runOnMachine K W element m with
      | .thrown e m1 => catchException e m1
      | r => r := by
  have hcur : runCurrentElement K W m = runOnMachine K W element m := by
    unfold runCurrentElement
    rw [Exec.bind_apply, top_apply m f hf]
    simp only [helem]
  unfold executeNextInstruction halted
  simp only [hrun, hlong, List.length_nil, ne_eq, not_true_eq_false, if_false, hcur]
  simp

theorem catchException_halt (e : Exn) (m : RLMachine) (f : StackFrame)
    (hf : m.callStack.getLast? = some f) (hflag : m.m_haltOnException = true) :
    catchException e m = .ok () { m with
      m_halted := true
      stdout := m.stdout ++
        [{ sceneNumber := f.scenario.sceneNumber, line := m.m_line, what := e }] } := by
  unfold catchException
  rw [Exec.bind_apply]
  simp only [getState, hflag, if_true, Exec.bind_apply, top, hf]

theorem catchException_skip (e : Exn) (m : RLMachine) (f : StackFrame)
    (hf : m.callStack.getLast? = some f) (hflag : m.m_haltOnException = false)
    (hlt : f.ip < f.scenario.size) :
    catchException e m = .ok () { m with
      callStack := m.callStack.dropLast ++ [{ f with ip := f.ip + 1 }]
      m_halted := m.m_halted || decide (f.ip + 1 = f.scenario.size)
      stdout := m.stdout ++
        [{ sceneNumber := f.scenario.sceneNumber, line := m.m_line, what := e }] } := by
  unfold catchException
  rw [Exec.bind_apply]
  simp only [getState, hflag, Exec.bind_apply, Bool.false_eq_true, if_false]
  rw [advanceInstructionPointer_apply m f hf hlt]
  simp [top, hflag]


theorem executeNextInstruction_longOperation (K : Config) (W : World) (m : RLMachine)
    (op : LongOperation) (hrun : m.m_halted = false)
    (hop : m.m_longOperationStack.getLast? = some op) :
    executeNextInstruction K W m =
      (W.invoke op >>= fun retVal => if retVal = true then popLongOperation else pure ()) m := by
  have hne : m.m_longOperationStack.length ≠ 0 := by
    intro h
    rw [List.length_eq_zero.mp h] at hop
    simp at hop
  unfold executeNextInstruction halted
  simp only [hrun, hne, ne_eq, not_false_eq_true, if_true, Bool.false_eq_true, if_false]
  rw [Exec.bind_apply, Exec.bind_apply]
  simp only [backLongOperation, hop]
  rw [Exec.bind_apply]

theorem lt_size_of_element (fr : StackFrame) (element : BytecodeElement)
    (helem : fr.scenario.elements[fr.ip]? = some element) : fr.ip < fr.scenario.size := by
  unfold Scenario.size
  by_contra h
  rw [List.getElem?_eq_none (by omega)] at helem
  exact Option.noConfusion helem

theorem meta_tick (K : Config) (W : World) (m : RLMachine) (fr : StackFrame)
    (t : MetaElementType) (v : Int)
    (hrun : m.m_halted = false) (hlong : m.m_longOperationStack = [])
    (hfr : m.callStack.getLast? = some fr)
    (helem : fr.scenario.elements[fr.ip]? = some (.Meta t v)) :
    ∃ m1, executeNextInstruction K W m = .ok () m1 ∧
      m1.callStack = m.callStack.dropLast ++ [{ fr with ip := fr.ip + 1 }] ∧
      m1.m_halted = decide (fr.ip + 1 = fr.scenario.size) ∧
      m1.m_longOperationStack = [] ∧ m1.modules = m.modules := by
  have hlt := lt_size_of_element fr _ helem
  rw [executeNextInstruction_element K W m fr _ hrun hlong hfr helem]
  by_cases ht : t = .Line_
  · simp only [runOnMachine, if_pos ht, Exec.bind_apply, setLineNumber]
    rw [advanceInstructionPointer_apply { m with m_line := some v } fr hfr hlt]
    exact ⟨_, rfl, rfl, by simp [hrun], hlong, rfl⟩
  · simp only [runOnMachine, if_neg ht, Exec.bind_apply, Exec.pure_apply]
    rw [advanceInstructionPointer_apply m fr hfr hlt]
    exact ⟨_, rfl, rfl, by simp [hrun], hlong, rfl⟩

theorem goto_tick (K : Config) (W : World) (m : RLMachine) (fr : StackFrame)
    (f : CommandElement) (md : RLModule) (p : Nat)
    (hrun : m.m_halted = false) (hlong : m.m_longOperationStack = [])
    (hfr : m.callStack.getLast? = some fr)
    (helem : fr.scenario.elements[fr.ip]? = some (.Command f))
    (hmod : m.modules (packModuleNumber K f.modtype f.module) = some md)
    (hjump : ∀ s, W.dispatchFunction md f s = gotoLocation p s) :
    executeNextInstruction K W m = .ok () { m with
      callStack := m.callStack.dropLast ++ [{ fr with ip := p }] } := by
  rw [executeNextInstruction_element K W m fr _ hrun hlong hfr helem]
  simp only [runOnMachine, executeCommand, Exec.bind_apply, getState, hmod, hjump, gotoLocation]
  rw [modifyTop_apply m fr _ hfr]

theorem executeUntilHalted_halted (K : Config) (W : World) (fuel : Nat) (m : RLMachine)
    (h : m.m_halted = true) : executeUntilHalted K W fuel m = some (.ok () m) := by
  cases fuel <;> simp [executeUntilHalted, halted, h]

theorem executeUntilHalted_step (K : Config) (W : World) (fuel : Nat) (m m1 : RLMachine)
    (h : m.m_halted = false) (htick : executeNextInstruction K W m = .ok () m1) :
    executeUntilHalted K W (fuel + 1) m = executeUntilHalted K W fuel m1 := by
  simp [executeUntilHalted, halted, h, htick]


theorem undefined_module_tick (K : Config) (W : World) (m : RLMachine)
    (f : CommandElement) (fr : StackFrame)
    (hkey : m.modules (packModuleNumber K f.modtype f.module) = none)
    (hrun : m.m_halted = false) (hflag : m.m_haltOnException = true)
    (hlong : m.m_longOperationStack = []) (hfr : m.callStack.getLast? = some fr)
    (helem : fr.scenario.elements[fr.ip]? = some (.Command f)) :
    executeNextInstruction K W m = .ok () { m with
      m_halted := true
      stdout := m.stdout ++ [{ sceneNumber := fr.scenario.sceneNumber, line := m.m_line,
                               what := .undefinedModule f.modtype f.module }] } := by
  rw [executeNextInstruction_element K W m fr _ hrun hlong hfr helem]
  simp only [runOnMachine, executeCommand_undefined K W m f hkey]
  rw [catchException_halt _ m fr hfr hflag]

/-! ## Lemmas: LazyArray -/

theorem isNull_inside {T : Type} (pastEnd : Int → Bool) (a : LazyArray T) (i : Nat)
    (h : i < a.m_array.length) : a.isNull pastEnd (i : Int) = !a.allocated i := by
  unfold LazyArray.isNull LazyArray.allocated
  have hin : (0 : Int) ≤ i ∧ (i : Int) < a.m_array.length := ⟨by omega, by omega⟩
  rw [if_pos hin]
  simp only [Int.toNat_ofNat]
  cases h1 : a.m_array[i]? with
  | none => rfl
  | some o => cases o <;> rfl

theorem skipLoop_spec {T : Type} (pastEnd : Int → Bool) (a : LazyArray T) (hv : a.Valid) :
    ∀ (d i fuel : Nat), i + d = a.m_size.toNat → d < fuel →
      ∃ j : Nat, a.skipLoop pastEnd fuel i = some (j : Int) ∧ i ≤ j ∧ j ≤ a.m_size.toNat ∧
        (∀ k, i ≤ k → k < j → a.allocated k = false) ∧
        (j < a.m_size.toNat → a.allocated j = true) := by
  obtain ⟨h0, hlen⟩ := hv
  intro d
  induction d with
  | zero =>
    intro i fuel hi hf
    obtain ⟨f, rfl⟩ : ∃ f, fuel = f + 1 := ⟨fuel - 1, by omega⟩
    refine ⟨i, ?_, le_refl _, by omega, fun k h1 h2 => by omega, fun h => by omega⟩
    have : ¬ ((i : Int) < a.size) := by unfold LazyArray.size; omega
    simp [LazyArray.skipLoop, this]
  | succ d ih =>
    intro i fuel hi hf
    obtain ⟨f, rfl⟩ : ∃ f, fuel = f + 1 := ⟨fuel - 1, by omega⟩
    have hlt : (i : Int) < a.size := by unfold LazyArray.size; omega
    have hin : i < a.m_array.length := by omega
    cases hal : a.allocated i with
    | true =>
      refine ⟨i, ?_, le_refl _, by omega, fun k h1 h2 => by omega, fun _ => hal⟩
      simp [LazyArray.skipLoop, isNull_inside pastEnd a i hin, hal]
    | false =>
      obtain ⟨j, hj, h1, h2, h3, h4⟩ := ih (i + 1) f (by omega) (by omega)
      refine ⟨j, ?_, by omega, h2, ?_, h4⟩
      · simp only [LazyArray.skipLoop, isNull_inside pastEnd a i hin, hal, hlt, decide_True,
          Bool.not_false, Bool.and_self, if_true]
        exact_mod_cast hj
      · intro k hk1 hk2
        by_cases hki : k = i
        · rw [hki]; exact hal
        · exact h3 k (by omega) hk2

theorem firstEntryLoop_eq_skipLoop {T : Type} (pastEnd : Int → Bool) (a : LazyArray T)
    (hv : a.Valid) : ∀ (fuel i : Nat), i ≤ a.m_size.toNat →
      a.firstEntryLoop pastEnd fuel i = a.skipLoop pastEnd fuel i := by
  obtain ⟨h0, hlen⟩ := hv
  intro fuel
  induction fuel with
  | zero => intro i _; rfl
  | succ f ih =>
    intro i hi
    by_cases hlt : (i : Int) < a.m_size
    · have hin : i < a.m_array.length := by omega
      have h1 := ih (i + 1) (by omega)
      have hcast : ((i + 1 : Nat) : Int) = (i : Int) + 1 := by push_cast; rfl
      rw [hcast] at h1
      simp only [LazyArray.firstEntryLoop, LazyArray.skipLoop, LazyArray.size, hlt,
        decide_True, Bool.and_true, Bool.true_and, h1]
    · simp [LazyArray.firstEntryLoop, LazyArray.skipLoop, LazyArray.size, hlt]

theorem visitFrom_spec {T : Type} (pastEnd : Int → Bool) (a : LazyArray T) (hv : a.Valid)
    (fuel : Nat) (hfuel : a.m_size.toNat < fuel) :
    ∀ (d j cnt : Nat), j + d = a.m_size.toNat → d < cnt →
      (j < a.m_size.toNat → a.allocated j = true) →
      ∃ l, a.visitFrom pastEnd fuel cnt { m_currentPosition := j } = some l ∧
        l.Pairwise (· < ·) ∧
        ∀ p : Int, p ∈ l ↔ ∃ k : Nat, p = k ∧ j ≤ k ∧ k < a.m_size.toNat ∧
          a.allocated k = true := by
  have h0 := hv.1
  intro d
  induction d using Nat.strong_induction_on with
  | _ d ih =>
    intro j cnt hj hcnt hal
    obtain ⟨c, rfl⟩ : ∃ c, cnt = c + 1 := ⟨cnt - 1, by omega⟩
    by_cases hend : j = a.m_size.toNat
    · refine ⟨[], ?_, List.Pairwise.nil, ?_⟩
      · have : (j : Int) = a.m_size := by omega
        simp [LazyArray.visitFrom, AllocatedLazyArrayIterator.equal,
          LazyArray.allocated_end, this]
      · intro p
        constructor
        · intro h; cases h
        · rintro ⟨k, _, h1, h2, _⟩; omega
    · have hjlt : j < a.m_size.toNat := by omega
      have hne : ¬ ((j : Int) = a.m_size) := by omega
      obtain ⟨j1, hs, hj1, hj2, hj3, hj4⟩ :=
        skipLoop_spec pastEnd a hv (a.m_size.toNat - (j + 1)) (j + 1) fuel (by omega)
          (by omega)
      obtain ⟨l, hl, hpw, hmem⟩ :=
        ih (a.m_size.toNat - j1) (by omega) j1 c (by omega) (by omega) hj4
      have hcast : ((j + 1 : Nat) : Int) = (j : Int) + 1 := by push_cast; rfl
      rw [hcast] at hs
      refine ⟨(j : Int) :: l, ?_, ?_, ?_⟩
      · simp [LazyArray.visitFrom, AllocatedLazyArrayIterator.equal,
          LazyArray.allocated_end, AllocatedLazyArrayIterator.increment, hne, hs, hl]
      · refine List.Pairwise.cons ?_ hpw
        intro p hp
        obtain ⟨k, rfl, hk, _, _⟩ := (hmem p).1 hp
        omega
      · intro p
        rw [List.mem_cons, hmem p]
        constructor
        · rintro (rfl | ⟨k, rfl, hk1, hk2, hk3⟩)
          · exact ⟨j, rfl, le_refl _, hjlt, hal hjlt⟩
          · exact ⟨k, rfl, by omega, hk2, hk3⟩
        · rintro ⟨k, rfl, hk1, hk2, hk3⟩
          by_cases hkj : k = j
          · left; rw [hkj]
          · right
            refine ⟨k, rfl, ?_, hk2, hk3⟩
            by_contra hlt
            have := hj3 k (by omega) (by omega)
            rw [this] at hk3
            cases hk3

theorem allocated_begin_spec {T : Type} (pastEnd : Int → Bool) (a : LazyArray T)
    (hv : a.Valid) (fuel : Nat) (hfuel : a.m_size.toNat < fuel) :
    ∃ j : Nat, a.allocated_begin pastEnd fuel = some { m_currentPosition := j } ∧
      j ≤ a.m_size.toNat ∧ (∀ k, k < j → a.allocated k = false) ∧
      (j < a.m_size.toNat → a.allocated j = true) := by
  obtain ⟨j, hs, _, h2, h3, h4⟩ :=
    skipLoop_spec pastEnd a hv a.m_size.toNat 0 fuel (by omega) hfuel
  have h := firstEntryLoop_eq_skipLoop pastEnd a hv fuel 0 (by omega)
  rw [hs] at h
  refine ⟨j, ?_, h2, fun k hk => h3 k (by omega) hk, h4⟩
  unfold LazyArray.allocated_begin
  have hz : ((0 : Nat) : Int) = 0 := rfl
  rw [hz] at h
  rw [h]
  rfl

theorem allocated_replicate {T : Type} (a : LazyArray T) (n : Nat) (rest : List (Option T))
    (h : a.m_array = List.replicate n none ++ rest) (i : Nat) (hi : i < n) :
    a.allocated i = false := by
  unfold LazyArray.allocated
  rw [h, List.getElem?_append_left (by simpa using hi)]
  simp [List.getElem?_replicate, hi]

theorem allocated_begin_of_none {T : Type} (pastEnd : Int → Bool) (a : LazyArray T)
    (hv : a.Valid) (fuel : Nat) (hfuel : a.m_size.toNat < fuel)
    (hnone : ∀ i : Nat, (i : Int) < a.size → a.allocated i = false) :
    a.allocated_begin pastEnd fuel = some a.allocated_end := by
  obtain ⟨j, hb, h1, _, h3⟩ := allocated_begin_spec pastEnd a hv fuel hfuel
  have h0 := hv.1
  have : j = a.m_size.toNat := by
    by_contra hne
    have hlt : j < a.m_size.toNat := by omega
    have := hnone j (by unfold LazyArray.size; omega)
    rw [h3 hlt] at this
    cases this
  rw [hb, this]
  unfold LazyArray.allocated_end
  congr 2
  omega

theorem observe_simulation {T : Type} (dflt : T) (n : Int) :
    ∀ (ops : List (Access T)) (a : LazyArray T) (l : List T),
      (∀ op ∈ ops, 0 ≤ op.pos ∧ op.pos < n) →
      a.m_size = n → (a.m_array.length : Int) = n →
      l = a.m_array.map (fun o => o.getD dflt) →
      LazyArray.observe dflt ops a = eagerObserve ops l ∧
        (LazyArray.observe dflt ops a).isSome = true := by
  intro ops
  induction ops with
  | nil => intro a l _ _ _ _; exact ⟨rfl, rfl⟩
  | cons op rest ih =>
    intro a l hops hsize hlen hl
    have hrest : ∀ op ∈ rest, 0 ≤ op.pos ∧ op.pos < n :=
      fun o ho => hops o (List.mem_cons_of_mem _ ho)
    have hop := hops op (List.mem_cons_self _ _)
    cases op with
    | read pos =>
      have hp : 0 ≤ pos ∧ pos < n := hop
      have hin : ¬ (pos < 0 ∨ pos ≥ a.m_size) := by omega
      have hlt : pos.toNat < a.m_array.length := by omega
      have hll : pos.toNat < l.length := by rw [hl]; simpa using hlt
      cases hs : a.m_array[pos.toNat] with
      | none =>
        have hget : a.m_array[pos.toNat]? = some none := by
          rw [List.getElem?_eq_getElem hlt, hs]
        have hidx : LazyArray.index dflt pos a =
            .ok dflt { a with m_array := a.m_array.set pos.toNat (some dflt) } := by
          unfold LazyArray.index
          rw [if_neg hin, hget]
        have hlget : l[pos.toNat]? = some dflt := by
          rw [hl, List.getElem?_map, hget]; rfl
        have hl2 : l = (a.m_array.set pos.toNat (some dflt)).map (fun o => o.getD dflt) := by
          rw [List.map_set, ← hl]
          apply List.ext_getElem? 
          intro i
          by_cases hi : i = pos.toNat
          · rw [hi, hlget]; simp [List.getElem?_set, hll]
          · simp [List.getElem?_set, Ne.symm hi]
        obtain ⟨h1, h2⟩ := ih { a with m_array := a.m_array.set pos.toNat (some dflt) } l
          hrest hsize (by simpa using hlen) hl2
        simp only [LazyArray.observe, eagerObserve, hidx, hlget, hp.1, if_true]
        rw [h1]
        refine ⟨rfl, ?_⟩
        rw [← h1]
        simpa using h2
      | some w =>
        have hget : a.m_array[pos.toNat]? = some (some w) := by
          rw [List.getElem?_eq_getElem hlt, hs]
        have hidx : LazyArray.index dflt pos a = .ok w a := by
          unfold LazyArray.index
          rw [if_neg hin, hget]
        have hlget : l[pos.toNat]? = some w := by
          rw [hl, List.getElem?_map, hget]; rfl
        obtain ⟨h1, h2⟩ := ih a l hrest hsize hlen hl
        simp only [LazyArray.observe, eagerObserve, hidx, hlget, hp.1, if_true]
        rw [h1]
        refine ⟨rfl, ?_⟩
        rw [← h1]
        simpa using h2
    | write pos v =>
      have hp : 0 ≤ pos ∧ pos < n := hop
      have hin : ¬ (pos < 0 ∨ pos ≥ a.m_size) := by omega
      have hlt : pos.toNat < a.m_array.length := by omega
      have hll : 0 ≤ pos ∧ pos < (l.length : Int) := by
        rw [hl]; simp only [List.length_map]; omega
      have hasg : LazyArray.assign dflt pos v a =
          .ok () { a with m_array := a.m_array.set pos.toNat (some v) } := by
        unfold LazyArray.assign
        rw [Exec.bind_apply]
        cases hs : a.m_array[pos.toNat] with
        | none =>
          have hget : a.m_array[pos.toNat]? = some none := by
            rw [List.getElem?_eq_getElem hlt, hs]
          have hidx : LazyArray.index dflt pos a =
              .ok dflt { a with m_array := a.m_array.set pos.toNat (some dflt) } := by
            unfold LazyArray.index
            rw [if_neg hin, hget]
          rw [hidx]
          simp [List.set_set]
        | some w =>
          have hget : a.m_array[pos.toNat]? = some (some w) := by
            rw [List.getElem?_eq_getElem hlt, hs]
          have hidx : LazyArray.index dflt pos a = .ok w a := by
            unfold LazyArray.index
            rw [if_neg hin, hget]
          rw [hidx]
      have hl2 : l.set pos.toNat v =
          (a.m_array.set pos.toNat (some v)).map (fun o => o.getD dflt) := by
        rw [List.map_set, ← hl]; rfl
      obtain ⟨h1, h2⟩ := ih { a with m_array := a.m_array.set pos.toNat (some v) }
        (l.set pos.toNat v) hrest hsize (by simpa using hlen) hl2
      simp only [LazyArray.observe, eagerObserve, hasg, hll, and_self, if_true]
      exact ⟨h1, h2⟩

/-! ## Lemmas: saved games -/

theorem loadElements_spec {α : Type} (item : Exec Loading α) (enc : α → Item)
    (get : LocalMemory → List α) (set : LocalMemory → List α → LocalMemory)
    (hitem : ∀ v rest p, item { iss := enc v :: rest, process := p } =
      .ok v { iss := rest, process := p })
    (hgs : ∀ m a, get (set m a) = a) (hss : ∀ m a b, set (set m a) b = set m b)
    (hsg : ∀ m, set m (get m) = m) :
    ∀ (vs done old : List α) (rest : List Item) (p : Process),
      get p.localMemory = done ++ old → old.length = vs.length →
      loadElements item get set vs.length done.length
          { iss := vs.map enc ++ rest, process := p } =
        .ok () { iss := rest,
                 process := { p with localMemory := set p.localMemory (done ++ vs) } } := by
  intro vs
  induction vs with
  | nil =>
    intro done old rest p hget hlen
    have hold : old = [] := List.length_eq_zero.mp hlen
    subst hold
    rw [List.append_nil] at hget
    rw [List.append_nil, ← hget, hsg]
    rfl
  | cons v vs ih =>
    intro done old rest p hget hlen
    obtain ⟨o, os, rfl⟩ : ∃ o os, old = o :: os := by
      cases old with
      | nil => simp at hlen
      | cons o os => exact ⟨o, os, rfl⟩
    have hos : os.length = vs.length := by simpa using hlen
    have hstep : (get p.localMemory).set done.length v = (done ++ [v]) ++ os := by
      rw [hget]
      simp
    have h := ih (done ++ [v]) os rest
      { p with localMemory := set p.localMemory ((done ++ [v]) ++ os) }
      (hgs _ _) hos
    rw [hss] at h
    have hl : (done ++ [v]).length = done.length + 1 := by simp
    rw [hl] at h
    have hfin : done ++ [v] ++ vs = done ++ v :: vs := by simp
    rw [hfin] at h
    simp only [List.length_cons, List.map_cons, List.cons_append, loadElements,
      Exec.bind_apply, hitem, modifyLocalMemory, hstep]
    exact h

theorem loadArray_spec {α : Type} (item : Exec Loading α) (enc : α → Item)
    (get : LocalMemory → List α) (set : LocalMemory → List α → LocalMemory)
    (hitem : ∀ v rest p, item { iss := enc v :: rest, process := p } =
      .ok v { iss := rest, process := p })
    (hgs : ∀ m a, get (set m a) = a) (hss : ∀ m a b, set (set m a) b = set m b)
    (hsg : ∀ m, set m (get m) = m)
    (vs : List α) (rest : List Item) (p : Process)
    (hlen : (get p.localMemory).length = vs.length) :
    loadArray item get set { iss := .count vs.length :: (vs.map enc ++ rest), process := p } =
      .ok () { iss := rest, process := { p with localMemory := set p.localMemory vs } } := by
  have h := loadElements_spec item enc get set hitem hgs hss hsg vs [] (get p.localMemory)
    rest p rfl hlen
  simp only [List.length_nil, List.nil_append] at h
  have hc : ¬ (vs.length > (get p.localMemory).length) := by omega
  simp only [loadArray, Exec.bind_apply, loadCount, getState, hc, if_false]
  exact h

theorem loadInt_cons (v : Int) (rest : List Item) (p : Process) :
    loadInt { iss := .int v :: rest, process := p } = .ok v { iss := rest, process := p } :=
  rfl

theorem loadString_cons (v : String) (rest : List Item) (p : Process) :
    loadString { iss := .str v :: rest, process := p } =
      .ok v { iss := rest, process := p } := rfl

theorem loadLocalMemory_spec (M : LocalMemory) (rest : List Item) (p : Process)
    (h : M.SameExtents p.localMemory) :
    loadLocalMemory { iss := saveLocalMemory M ++ rest, process := p } =
      .ok () { iss := rest, process := { p with localMemory := M } } := by
  obtain ⟨hA, hB, hC, hD, hE, hF, hS, hL, hK⟩ := h
  unfold loadLocalMemory saveLocalMemory saveIntArray saveStringArray
  simp only [List.append_assoc, List.cons_append, Exec.bind_apply]
  rw [loadArray_spec loadInt Item.int (·.intA) (fun memory a => { memory with intA := a })
    loadInt_cons (fun _ _ => rfl) (fun _ _ _ => rfl) (fun _ => rfl) M.intA]
  case hlen => exact hA.symm
  simp only []
  rw [loadArray_spec loadInt Item.int (·.intB) (fun memory a => { memory with intB := a })
    loadInt_cons (fun _ _ => rfl) (fun _ _ _ => rfl) (fun _ => rfl) M.intB]
  case hlen => exact hB.symm
  simp only []
  rw [loadArray_spec loadInt Item.int (·.intC) (fun memory a => { memory with intC := a })
    loadInt_cons (fun _ _ => rfl) (fun _ _ _ => rfl) (fun _ => rfl) M.intC]
  case hlen => exact hC.symm
  simp only []
  rw [loadArray_spec loadInt Item.int (·.intD) (fun memory a => { memory with intD := a })
    loadInt_cons (fun _ _ => rfl) (fun _ _ _ => rfl) (fun _ => rfl) M.intD]
  case hlen => exact hD.symm
  simp only []
  rw [loadArray_spec loadInt Item.int (·.intE) (fun memory a => { memory with intE := a })
    loadInt_cons (fun _ _ => rfl) (fun _ _ _ => rfl) (fun _ => rfl) M.intE]
  case hlen => exact hE.symm
  simp only []
  rw [loadArray_spec loadInt Item.int (·.intF) (fun memory a => { memory with intF := a })
    loadInt_cons (fun _ _ => rfl) (fun _ _ _ => rfl) (fun _ => rfl) M.intF]
  case hlen => exact hF.symm
  simp only []
  rw [loadArray_spec loadString Item.str (·.strS) (fun memory a => { memory with strS := a })
    loadString_cons (fun _ _ => rfl) (fun _ _ _ => rfl) (fun _ => rfl) M.strS]
  case hlen => exact hS.symm
  simp only []
  rw [loadArray_spec loadInt Item.int (·.intL) (fun memory a => { memory with intL := a })
    loadInt_cons (fun _ _ => rfl) (fun _ _ _ => rfl) (fun _ => rfl) M.intL]
  case hlen => exact hL.symm
  simp only []
  rw [loadArray_spec loadString Item.str (·.strK) (fun memory a => { memory with strK := a })
    loadString_cons (fun _ _ => rfl) (fun _ _ _ => rfl) (fun _ => rfl) M.strK]
  case hlen => exact hK.symm

theorem loadStackFrame_items (n k : Int) (t : FrameType) (rest : List Item) (p : Process)
    (hp : p.g_currentMachine = .addressOfMachine) :
    loadStackFrame { iss := .int n :: .int k :: .frameType t :: rest, process := p } =
      match p.machine.archive.scenario n with
      | none => .thrown (.unknownSeen n) { iss := rest, process := p }
      | some scenario =>
        if k > scenario.size ∨ k < 0 then
          .thrown (.illegalOffset k n) { iss := rest, process := p }
        else
          .ok { scenario := scenario, ip := k.toNat, frameType := t }
            { iss := rest, process := p } := by
  simp only [loadStackFrame, Exec.bind_apply, loadInt, loadFrameType, getState, hp]
  cases p.machine.archive.scenario n with
  | none => rfl
  | some scenario =>
    simp only []
    split <;> rfl

theorem loadStackFrame_saveStackFrame (f : StackFrame) (rest : List Item) (p : Process)
    (hp : p.g_currentMachine = .addressOfMachine) (hf : f.Within p.machine.archive) :
    loadStackFrame { iss := saveStackFrame f ++ rest, process := p } =
      .ok f { iss := rest, process := p } := by
  obtain ⟨h1, h2⟩ := hf
  have h := loadStackFrame_items f.scenario.sceneNumber f.ip f.frameType rest p hp
  rw [h1] at h
  have hc : ¬ ((f.ip : Int) > f.scenario.size ∨ (f.ip : Int) < 0) := by omega
  simp only [hc, if_false, Int.toNat_ofNat] at h
  exact h

theorem loadFrames_spec : ∀ (fs : List StackFrame) (rest : List Item) (p : Process),
    p.g_currentMachine = .addressOfMachine →
    (∀ f ∈ fs, f.Within p.machine.archive) →
    loadFrames fs.length { iss := fs.flatMap saveStackFrame ++ rest, process := p } =
      .ok () { iss := rest, process := { p with
        machine := { p.machine with callStack := p.machine.callStack ++ fs } } } := by
  intro fs
  induction fs with
  | nil =>
    intro rest p _ _
    simp [loadFrames, Exec.pure_apply]
  | cons f fs ih =>
    intro rest p hp hfs
    have hf := hfs f (List.mem_cons_self _ _)
    have h := ih rest
      { p with machine := { p.machine with callStack := p.machine.callStack ++ [f] } } hp
      (fun g hg => hfs g (List.mem_cons_of_mem _ hg))
    simp only [List.length_cons, List.flatMap_cons, List.append_assoc, loadFrames,
      Exec.bind_apply, loadStackFrame_saveStackFrame f _ p hp hf, modifyMachine]
    rw [h]
    simp

theorem loadFrames_failure : ∀ (good : List StackFrame) (extra : Nat) (n k : Int)
    (t : FrameType) (rest : List Item) (p : Process),
    p.g_currentMachine = .addressOfMachine →
    (∀ f ∈ good, f.Within p.machine.archive) →
    (∀ scenario, p.machine.archive.scenario n = some scenario → k > scenario.size ∨ k < 0) →
    loadFrames (good.length + 1 + extra)
        { iss := good.flatMap saveStackFrame ++ (.int n :: .int k :: .frameType t :: rest),
          process := p } =
      .thrown (if (p.machine.archive.scenario n).isNone then .unknownSeen n
               else .illegalOffset k n)
        { iss := rest, process := { p with
          machine := { p.machine with callStack := p.machine.callStack ++ good } } } := by
  intro good
  induction good with
  | nil =>
    intro extra n k t rest p hp _ hbad
    have hlen : ([] : List StackFrame).length + 1 + extra = extra + 1 := by simp; omega
    rw [hlen]
    simp only [List.flatMap_nil, List.nil_append, loadFrames, Exec.bind_apply,
      loadStackFrame_items n k t rest p hp, List.append_nil]
    cases hs : p.machine.archive.scenario n with
    | none => rfl
    | some scenario =>
      have hc := hbad scenario hs
      simp only [hc, if_true, Option.isNone_some, Bool.false_eq_true, if_false]
  | cons f good ih =>
    intro extra n k t rest p hp hgood hbad
    have hf := hgood f (List.mem_cons_self _ _)
    have h := ih extra n k t rest
      { p with machine := { p.machine with callStack := p.machine.callStack ++ [f] } } hp
      (fun g hg => hgood g (List.mem_cons_of_mem _ hg)) hbad
    have hlen : (f :: good).length + 1 + extra = (good.length + 1 + extra) + 1 := by
      simp only [List.length_cons]
      omega
    rw [hlen]
    simp only [List.flatMap_cons, List.append_assoc, loadFrames,
      Exec.bind_apply, loadStackFrame_saveStackFrame f _ p hp hf, modifyMachine]
    rw [h]
    simp

theorem copy_until_split {α : Type} (pred : α → Bool) : ∀ l : List α,
    ∃ rest, l = copy_until pred l ++ rest ∧ ∀ x, rest.head? = some x → pred x = true := by
  intro l
  induction l with
  | nil => exact ⟨[], rfl, fun x h => by cases h⟩
  | cons a l ih =>
    cases ha : pred a with
    | true =>
      refine ⟨a :: l, by simp [copy_until, ha], ?_⟩
      intro x hx
      simp only [List.head?_cons, Option.some.injEq] at hx
      rw [← hx]; exact ha
    | false =>
      obtain ⟨rest, h1, h2⟩ := ih
      refine ⟨rest, ?_, h2⟩
      simp only [copy_until, ha, Bool.false_eq_true, if_false, List.cons_append]
      rw [← h1]

theorem copy_until_false {α : Type} (pred : α → Bool) : ∀ l : List α,
    ∀ x ∈ copy_until pred l, pred x = false := by
  intro l
  induction l with
  | nil => intro x hx; cases hx
  | cons a l ih =>
    intro x hx
    cases ha : pred a with
    | true => simp [copy_until, ha] at hx
    | false =>
      simp only [copy_until, ha, Bool.false_eq_true, if_false, List.mem_cons] at hx
      rcases hx with rfl | hx
      · exact ha
      · exact ih x hx

theorem copy_until_longest {α : Type} (pred : α → Bool) : ∀ (pre rest : List α),
    (∀ x ∈ pre, pred x = false) →
    ∃ more, copy_until pred (pre ++ rest) = pre ++ more := by
  intro pre
  induction pre with
  | nil => intro rest _; exact ⟨_, rfl⟩
  | cons a pre ih =>
    intro rest h
    have ha : pred a = false := h a (List.mem_cons_self _ _)
    obtain ⟨more, hm⟩ := ih rest (fun x hx => h x (List.mem_cons_of_mem _ hx))
    refine ⟨more, ?_⟩
    rw [List.cons_append]
    generalize pre ++ rest = l at hm
    simp only [copy_until, ha, Bool.false_eq_true, if_false, hm, List.cons_append]

theorem copy_until_all {α : Type} (pred : α → Bool) (l : List α)
    (h : ∀ x ∈ l, pred x = false) : copy_until pred l = l := by
  obtain ⟨more, hm⟩ := copy_until_longest pred l [] h
  rw [List.append_nil] at hm
  obtain ⟨rest, h1, _⟩ := copy_until_split pred l
  have hlen := congrArg List.length h1
  rw [hm] at hlen
  simp only [List.length_append] at hlen
  have hmore : more = [] := List.length_eq_zero.mp (by omega)
  rw [hm, hmore, List.append_nil]

theorem prunedStack_eq (machine : RLMachine) :
    prunedStack machine =
      copy_until (fun f => f.frameType == .TYPE_LONGOP) machine.callStack := by
  unfold prunedStack
  have : StackFrame.setSaveGameAsIP = id := rfl
  rw [this, List.map_id]

theorem isLongOperation_false (f : StackFrame) :
    (f.frameType == FrameType.TYPE_LONGOP) = false ↔ f.frameType ≠ .TYPE_LONGOP := by
  simp

theorem isLongOperation_true (f : StackFrame) :
    (f.frameType == FrameType.TYPE_LONGOP) = true ↔ f.frameType = .TYPE_LONGOP := by
  simp

theorem prunedStack_sublist (machine : RLMachine) :
    ∀ f ∈ prunedStack machine, f ∈ machine.callStack := by
  intro f hf
  rw [prunedStack_eq] at hf
  obtain ⟨rest, h1, _⟩ :=
    copy_until_split (fun f => f.frameType == .TYPE_LONGOP) machine.callStack
  rw [h1]
  exact List.mem_append_left _ hf

theorem saveGameTo_apply (H : Host) (oss : List Item) (p : Process) :
    saveGameTo H oss p =
      .ok (oss ++ (.signature :: .str p.system.windowSubtitle :: .time H.now ::
            (saveLocalMemory p.localMemory ++
              (.int (lineNumber H p.machine) :: .count (prunedStack p.machine).length ::
                ((prunedStack p.machine).flatMap saveStackFrame ++ [])))))
        { p with g_currentMachine := .NULL } := by
  simp [saveGameTo, Exec.bind_apply, Exec.pure_apply, getState, setState, saveHeader,
    saveMachine, saveSystem]

theorem loadMachine_spec (line : Int) (fs : List StackFrame) (rest : List Item) (p : Process)
    (hp : p.g_currentMachine = .addressOfMachine)
    (hfs : ∀ f ∈ fs, f.Within p.machine.archive) :
    loadMachine { iss := .int line :: .count fs.length ::
        (fs.flatMap saveStackFrame ++ rest), process := p } =
      .ok () { iss := rest, process := { p with
        machine := { p.machine with m_line := some line, callStack := fs } } } := by
  have h := loadFrames_spec fs rest
    { p with machine := { p.machine with m_line := some line, callStack := [] } } hp hfs
  simp only [loadMachine, loadCallStack, Exec.bind_apply, loadInt, loadCount, modifyMachine]
  rw [h]
  simp

theorem loadMachine_failure (line : Int) (good : List StackFrame) (extra : Nat) (n k : Int)
    (t : FrameType) (rest : List Item) (p : Process)
    (hp : p.g_currentMachine = .addressOfMachine)
    (hgood : ∀ f ∈ good, f.Within p.machine.archive)
    (hbad : ∀ scenario, p.machine.archive.scenario n = some scenario →
      k > scenario.size ∨ k < 0) :
    loadMachine
        { iss := .int line :: .count (good.length + 1 + extra) ::
            (good.flatMap saveStackFrame ++ (.int n :: .int k :: .frameType t :: rest)),
          process := p } =
      .thrown (if (p.machine.archive.scenario n).isNone then .unknownSeen n
               else .illegalOffset k n)
        { iss := rest, process := { p with
          machine := { p.machine with m_line := some line, callStack := good } } } := by
  have h := loadFrames_failure good extra n k t rest
    { p with machine := { p.machine with m_line := some line, callStack := [] } } hp hgood
    hbad
  simp only [loadMachine, loadCallStack, Exec.bind_apply, loadInt, loadCount, modifyMachine]
  rw [h]
  simp

theorem loadGameFrom_spec (H : Host) (title : String) (time : Int) (M : LocalMemory)
    (line : Int) (fs : List StackFrame) (rest : List Item) (p : Process)
    (hM : M.SameExtents p.localMemory) (hfs : ∀ f ∈ fs, f.Within p.machine.archive) :
    loadGameFrom H (.signature :: .str title :: .time time ::
        (saveLocalMemory M ++ (.int line :: .count fs.length ::
          (fs.flatMap saveStackFrame ++ rest)))) p =
      .ok () { machine := { p.machine with m_line := some line, callStack := fs },
               localMemory := M,
               system := H.markScreenForRefresh (H.replayGraphicsStack
                 { p.machine with m_line := some line, callStack := fs } (H.reset p.system)),
               g_currentMachine := .NULL } := by
  have h1 := loadLocalMemory_spec M
    (.int line :: .count fs.length :: (fs.flatMap saveStackFrame ++ rest))
    { p with g_currentMachine := .addressOfMachine, system := H.reset p.system } hM
  have h2 := loadMachine_spec line fs rest
    { p with g_currentMachine := .addressOfMachine, system := H.reset p.system,
             localMemory := M } rfl hfs
  simp only [loadGameFrom, loadGameBlock, Exec.bind_apply, openArchive, loadHeader,
    loadString, loadTime, Exec.pure_apply, h1, h2, loadSystem]

theorem loadGameFrom_failure (H : Host) (title : String) (time : Int) (M : LocalMemory)
    (line : Int) (good : List StackFrame) (extra : Nat) (n k : Int) (t : FrameType)
    (rest : List Item) (p : Process)
    (hM : M.SameExtents p.localMemory) (hgood : ∀ f ∈ good, f.Within p.machine.archive)
    (hbad : ∀ scenario, p.machine.archive.scenario n = some scenario →
      k > scenario.size ∨ k < 0) :
    loadGameFrom H (.signature :: .str title :: .time time ::
        (saveLocalMemory M ++ (.int line :: .count (good.length + 1 + extra) ::
          (good.flatMap saveStackFrame ++ (.int n :: .int k :: .frameType t :: rest))))) p =
      .thrown (if (p.machine.archive.scenario n).isNone then .unknownSeen n
               else .illegalOffset k n)
        { machine := { p.machine with m_line := some line, callStack := good },
          localMemory := M,
          system := H.reset p.system,
          g_currentMachine := .addressOfMachine } := by
  have h1 := loadLocalMemory_spec M
    (.int line :: .count (good.length + 1 + extra) ::
      (good.flatMap saveStackFrame ++ (.int n :: .int k :: .frameType t :: rest)))
    { p with g_currentMachine := .addressOfMachine, system := H.reset p.system } hM
  have h2 := loadMachine_failure line good extra n k t rest
    { p with g_currentMachine := .addressOfMachine, system := H.reset p.system,
             localMemory := M } rfl hgood hbad
  simp only [loadGameFrom, loadGameBlock, Exec.bind_apply, openArchive, loadHeader,
    loadString, loadTime, Exec.pure_apply, h1, h2]

theorem rdropWhile_append_all {α : Type} (pred : α → Bool) (l : List α) :
    ∀ rest : List α, (∀ x ∈ rest, pred x = true) →
      (l ++ rest).rdropWhile pred = l.rdropWhile pred := by
  intro rest
  induction rest using List.reverseRecOn with
  | nil => intro _; rw [List.append_nil]
  | append_singleton r x ih =>
    intro h
    rw [← List.append_assoc, List.rdropWhile_concat_pos _ _ _ (h x (by simp))]
    exact ih (fun y hy => h y (by simp [hy]))

theorem rdropWhile_of_false {α : Type} (pred : α → Bool) (l : List α)
    (h : ∀ x ∈ l, pred x = false) : l.rdropWhile pred = l := by
  rw [List.rdropWhile_eq_self_iff]
  intro hl
  rw [h _ (List.getLast_mem hl)]
  simp

theorem loadGameFrom_sampleCorruptSave :
    loadGameFrom sampleHost sampleCorruptSave sampleProcess =
      .thrown (.unknownSeen 99)
        { machine := { sampleProcess.machine with
            m_line := some 12,
            callStack := [{ scenario := sampleScenario, ip := 1, frameType := .TYPE_ROOT }] },
          localMemory := { sampleLocalMemory with intA := [9, 9] },
          system := sampleHost.reset sampleProcess.system,
          g_currentMachine := .addressOfMachine } := by
  have h := loadGameFrom_failure sampleHost "chapter 1" 1193875200
    { sampleLocalMemory with intA := [9, 9] } 12
    [{ scenario := sampleScenario, ip := 1, frameType := .TYPE_ROOT }] 0 99 0 .TYPE_GOSUB []
    sampleProcess ⟨rfl, rfl, rfl, rfl, rfl, rfl, rfl, rfl, rfl⟩
    (by
      intro f hf
      simp only [List.mem_cons, List.mem_nil_iff, or_false] at hf
      rw [hf]
      exact ⟨rfl, by decide⟩)
    (by
      intro scenario hs
      have h1 : sampleProcess.machine.archive.scenario 99 = none := rfl
      rw [h1] at hs
      cases hs)
  have hnone : sampleProcess.machine.archive.scenario 99 = none := rfl
  rw [hnone] at h
  exact h

/-! ## Lemmas: algoplus, module numbers and command headers -/

theorem for_each_if_eq_applyInOrder {σ α : Type} (pred : α → Bool) (f : α → Exec σ Unit) :
    ∀ l : List α, for_each_if pred f l = applyInOrder f (l.filter pred) := by
  intro l
  induction l with
  | nil => rfl
  | cons x rest ih =>
    cases hx : pred x with
    | true =>
      rw [List.filter_cons_of_pos (by simpa using hx)]
      funext s
      simp only [for_each_if, applyInOrder, hx, if_true, Exec.bind_apply, ih]
    | false =>
      rw [List.filter_cons_of_neg (by simpa using hx)]
      funext s
      simp only [for_each_if, hx, Bool.false_eq_true, if_false, Exec.bind_apply,
        Exec.pure_apply, ih]

theorem applyInOrder_recordCall {α : Type} : ∀ (l calls : List α),
    applyInOrder recordCall l calls = .ok () (calls ++ l) := by
  intro l
  induction l with
  | nil => intro calls; simp [applyInOrder, Exec.pure_apply]
  | cons x rest ih =>
    intro calls
    simp only [applyInOrder, Exec.bind_apply, recordCall, ih]
    simp

theorem packModuleNumber_bytes (K : Config) (t n : Nat) (ht : t < 256) (hn : n < 256) :
    packModuleNumber K (t : Int) (n : Int) = 256 * t + n := by
  unfold packModuleNumber
  have h8 : ((8 : Nat) : Int) = 8 := rfl
  rw [toBits_cor, ← h8, toBits_cshl K.shlOver t 8 (by norm_num),
    toBits_of_nonneg (by omega) (by omega), toBits_of_nonneg (by omega) (by omega)]
  simp only [Int.toNat_ofNat]
  have h1 : t <<< 8 = 2 ^ 8 * t := by rw [Nat.shiftLeft_eq]; ring
  have h2 : 2 ^ 8 * t % 4294967296 = 2 ^ 8 * t := Nat.mod_eq_of_lt (by omega)
  rw [h1, h2, ← Nat.mul_add_lt_is_or (by omega) t]

theorem byte_cases (x : Int) (h0 : 0 ≤ x) (h1 : x ≤ 255) : ∃ t : Nat, x = t ∧ t < 256 :=
  ⟨x.toNat, by omega, by omega⟩

theorem packModuleNumber_injective (K : Config) (t1 n1 t2 n2 : Int)
    (h1 : 0 ≤ t1 ∧ t1 ≤ 255) (h2 : 0 ≤ n1 ∧ n1 ≤ 255)
    (h3 : 0 ≤ t2 ∧ t2 ≤ 255) (h4 : 0 ≤ n2 ∧ n2 ≤ 255)
    (h : packModuleNumber K t1 n1 = packModuleNumber K t2 n2) : t1 = t2 ∧ n1 = n2 := by
  obtain ⟨a, rfl, ha⟩ := byte_cases t1 h1.1 h1.2
  obtain ⟨b, rfl, hb⟩ := byte_cases n1 h2.1 h2.2
  obtain ⟨c, rfl, hc⟩ := byte_cases t2 h3.1 h3.2
  obtain ⟨d, rfl, hd⟩ := byte_cases n2 h4.1 h4.2
  rw [packModuleNumber_bytes K a b ha hb, packModuleNumber_bytes K c d hc hd] at h
  constructor <;> omega

theorem unpack_pack_bytes (K : Config) (t n : Nat) (ht : t < 256) (hn : n < 256) :
    unpackModuleNumber (packModuleNumber K (t : Int) (n : Int)) =
      ((t : Int), if t = 0 ∧ n = 0 then 0 else 1) := by
  rw [packModuleNumber_bytes K t n ht hn]
  unfold unpackModuleNumber
  have hshift : (256 * t + n) >>> 8 = t := by
    rw [Nat.shiftRight_eq_div_pow]
    omega
  simp only [hshift]
  have hof : ofBits t = (t : Int) := by
    unfold ofBits toInt32
    omega
  rw [hof]
  by_cases hz : t = 0 ∧ n = 0
  · obtain ⟨rfl, rfl⟩ := hz
    simp
  · have : 256 * t + n ≠ 0 := by omega
    simp [hz, this]

theorem header_word (K : Config) (lo hi : Fin 256) :
    cor ((lo.val : Int)) (cshl K.shlOver ((hi.val : Int)) 8) =
      (lo.val : Int) + 256 * (hi.val : Int) := by
  have h8 : ((8 : Nat) : Int) = 8 := rfl
  have hlo := lo.isLt
  have hhi := hi.isLt
  unfold cor
  rw [← h8, toBits_cshl K.shlOver hi.val 8 (by norm_num),
    toBits_of_nonneg (by omega) (by omega), toBits_of_nonneg (by omega) (by omega)]
  simp only [Int.toNat_ofNat]
  have h1 : hi.val <<< 8 = 2 ^ 8 * hi.val := by rw [Nat.shiftLeft_eq]; ring
  have h2 : 2 ^ 8 * hi.val % 4294967296 = 2 ^ 8 * hi.val := Nat.mod_eq_of_lt (by omega)
  rw [h1, h2, Nat.lor_comm, ← Nat.mul_add_lt_is_or (by omega) hi.val]
  unfold ofBits toInt32
  omega

theorem attachModule_free (K : Config) (m : RLMachine) (module : RLModule)
    (h : m.modules (packModuleNumber K module.moduleType module.moduleNumber) = none) :
    attachModule K module m = .ok () { m with
      modules := fun k =>
        if k = packModuleNumber K module.moduleType module.moduleNumber
        then some module else m.modules k } := by
  unfold attachModule
  rw [Exec.bind_apply]
  simp only [getState, h]
  unfold insertModule
  simp [h]

theorem executeCommand_found (K : Config) (W : World) (m : RLMachine) (f : CommandElement)
    (it : RLModule) (h : m.modules (packModuleNumber K f.modtype f.module) = some it) :
    executeCommand K W f m = W.dispatchFunction it f m := by
  unfold executeCommand
  rw [Exec.bind_apply]
  simp only [getState, h]

/-! ## Lemmas: LazyArray, the scan and the copy -/

theorem copyEntry_spec {T : Type} (src other : LazyArray T) (i : Nat)
    (hs : i < src.m_array.length) (ho : i < other.m_array.length) :
    ∃ other1, LazyArray.copyEntry (i : Int) (src, other) = .ok () (src, other1) ∧
      other1.m_size = other.m_size ∧ other1.m_array.length = other.m_array.length ∧
      ∀ j, other1.m_array[j]? = if j = i then src.m_array[i]? else other.m_array[j]? := by
  have hsget : src.m_array[i]? = some src.m_array[i] := List.getElem?_eq_getElem hs
  have hoget : other.m_array[i]? = some other.m_array[i] := List.getElem?_eq_getElem ho
  have hnn : (0 : Int) ≤ (i : Int) := by omega
  have hsr : src.rawDeref (i : Int) = some src.m_array[i] := by
    simp [LazyArray.rawDeref, hsget]
  have hor : other.rawDeref (i : Int) = some other.m_array[i] := by
    simp [LazyArray.rawDeref, hoget]
  have hset : ∀ (x : Option T) (j : Nat),
      (other.m_array.set i x)[j]? = if j = i then some x else other.m_array[j]? := by
    intro x j
    by_cases hj : j = i
    · subst hj; simp [List.getElem?_set, ho]
    · simp [List.getElem?_set, hj, Ne.symm hj]
  cases hsv : src.m_array[i] with
  | none =>
    cases hov : other.m_array[i] with
    | none =>
      refine ⟨other, ?_, rfl, rfl, ?_⟩
      · simp only [LazyArray.copyEntry, hsr, hor, hsv, hov]
      · intro j
        by_cases hj : j = i
        · subst hj; rw [if_pos rfl, hsget, hoget, hsv, hov]
        · rw [if_neg hj]
    | some w =>
      refine ⟨{ other with m_array := other.m_array.set i none }, ?_, rfl, by simp, ?_⟩
      · simp only [LazyArray.copyEntry, hsr, hor, hsv, hov, Int.toNat_ofNat]
      · intro j
        rw [hset none j, hsget, hsv]
  | some v =>
    cases hov : other.m_array[i] with
    | none =>
      refine ⟨{ other with m_array := other.m_array.set i (some v) }, ?_, rfl, by simp, ?_⟩
      · simp only [LazyArray.copyEntry, hsr, hor, hsv, hov, Int.toNat_ofNat]
      · intro j
        rw [hset (some v) j, hsget, hsv]
    | some w =>
      refine ⟨{ other with m_array := other.m_array.set i (some v) }, ?_, rfl, by simp, ?_⟩
      · simp only [LazyArray.copyEntry, hsr, hor, hsv, hov, Int.toNat_ofNat]
      · intro j
        rw [hset (some v) j, hsget, hsv]

theorem copyLoop_spec {T : Type} (src : LazyArray T) :
    ∀ (count i : Nat) (other : LazyArray T),
      i + count ≤ src.m_array.length → i + count ≤ other.m_array.length →
      ∃ other1, LazyArray.copyLoop count (i : Int) (src, other) = .ok () (src, other1) ∧
        other1.m_size = other.m_size ∧ other1.m_array.length = other.m_array.length ∧
        ∀ j, other1.m_array[j]? =
          if i ≤ j ∧ j < i + count then src.m_array[j]? else other.m_array[j]? := by
  intro count
  induction count with
  | zero =>
    intro i other _ _
    refine ⟨other, rfl, rfl, rfl, ?_⟩
    intro j
    rw [if_neg (by omega)]
  | succ count ih =>
    intro i other hs ho
    obtain ⟨o1, h1, hsize1, hlen1, hget1⟩ :=
      copyEntry_spec src other i (by omega) (by omega)
    obtain ⟨o2, h2, hsize2, hlen2, hget2⟩ := ih (i + 1) o1 (by omega) (by omega)
    have hcast : ((i + 1 : Nat) : Int) = (i : Int) + 1 := by push_cast; rfl
    rw [hcast] at h2
    refine ⟨o2, ?_, by rw [hsize2, hsize1], by rw [hlen2, hlen1], ?_⟩
    · simp only [LazyArray.copyLoop, Exec.bind_apply, h1, h2]
    · intro j
      rw [hget2 j, hget1 j]
      by_cases hj : j = i
      · subst hj
        rw [if_neg (by omega), if_pos rfl, if_pos (by omega)]
      · by_cases hin : i + 1 ≤ j ∧ j < i + 1 + count
        · rw [if_pos hin, if_pos (by omega)]
        · rw [if_neg hin, if_neg hj, if_neg (by omega)]

theorem firstEntryReads_of_none {T : Type} (pastEnd : Int → Bool) (a : LazyArray T)
    (hv : a.Valid) (hnone : ∀ i : Nat, (i : Int) < a.size → a.allocated i = false) :
    ∀ (d i fuel : Nat), i + d = a.m_size.toNat → d < fuel →
      ∃ reads, a.firstEntryReads pastEnd fuel i = some reads ∧ a.m_size ∈ reads := by
  obtain ⟨h0, hlen⟩ := hv
  intro d
  induction d with
  | zero =>
    intro i fuel hi hf
    obtain ⟨f, rfl⟩ : ∃ f, fuel = f + 1 := ⟨fuel - 1, by omega⟩
    have hnot : ¬ ((i : Int) < a.m_size) := by omega
    refine ⟨[(i : Int)], ?_, ?_⟩
    · simp [LazyArray.firstEntryReads, hnot]
    · have : (i : Int) = a.m_size := by omega
      simp [this]
  | succ d ih =>
    intro i fuel hi hf
    obtain ⟨f, rfl⟩ : ∃ f, fuel = f + 1 := ⟨fuel - 1, by omega⟩
    have hlt : (i : Int) < a.m_size := by omega
    have hin : i < a.m_array.length := by omega
    have hal := hnone i hlt
    obtain ⟨reads, hr, hmem⟩ := ih (i + 1) f (by omega) (by omega)
    have hcast : ((i + 1 : Nat) : Int) = (i : Int) + 1 := by push_cast; rfl
    rw [hcast] at hr
    refine ⟨(i : Int) :: reads, ?_, List.mem_cons_of_mem _ hmem⟩
    simp [LazyArray.firstEntryReads, isNull_inside pastEnd a i hin, hal, hlt, hr]

/-! ## C1: write then read of a bit-packed view -/

/-- C1: on the sample target (shift counts taken modulo 32) the type code 156 has the
valid class index 0 and width selector 6 (factor 32), location 0 is in range, and after
`setIntValue(156, 0, 5)` the call `getIntValue(156, 0)` returns 0 and word 0 of bank 0 is
still 0, where the claim has all 32 bits of the written value 5 returned: the mask
`(1 << 32) - 1` is computed with a shift count of 32. -/
theorem setIntValue_getIntValue_width32 :
    classIndex sampleConfig 156 = 0 ∧ Int.tdiv 156 26 = 6 ∧
      ((setIntValue sampleConfig 156 0 5 >>= fun _ => getIntValue sampleConfig 156 0)
        sampleMachine).value? = some 0 ∧
      (setIntValue sampleConfig 156 0 5 sampleMachine).state?.map (fun m => m.intVar 0 0) =
        some 0 := by
  refine ⟨by decide, by decide, by rfl, by rfl⟩

/-! ## C2: frame of a bit-packed write -/

/-- C2: for a valid class, a width selector `k + 1` in `1..6` (factor `f = 2 ^ k`) and an
in-range location `L`, `setIntValue` returns normally and changes only bits
`[shift, shift + f)` of word `L / (32 / f)` of the selected bank, where
`shift = (L mod (32 / f)) * f`: every other bit of that word, every other word of that
bank, every other bank and the rest of the machine are unchanged. -/
theorem setIntValue_changes_only_window (K : Config) (m : RLMachine) (type L v : Int) (k : Nat)
    (hk : k ≤ 5) (hsel : Int.tdiv type 26 = k + 1)
    (h0 : 0 ≤ classIndex K type) (hN : classIndex K type < K.NUMBER_OF_INT_LOCATIONS)
    (hrows : K.NUMBER_OF_INT_LOCATIONS ≤ K.intVarRows)
    (hL0 : 0 ≤ L) (hL : L < 64000 / 2 ^ k) :
    ∃ m1, setIntValue K type L v m = .ok () m1 ∧
      (∀ i j, ¬ (i = classIndex K type ∧ j = L / (32 / 2 ^ k)) →
        m1.intVar i j = m.intVar i j) ∧
      (∀ b : Nat, b < 32 →
        ((b : Int) < L % (32 / 2 ^ k) * 2 ^ k ∨ L % (32 / 2 ^ k) * 2 ^ k + 2 ^ k ≤ b) →
        (toBits (m1.intVar (classIndex K type) (L / (32 / 2 ^ k)))).testBit b =
          (toBits (m.intVar (classIndex K type) (L / (32 / 2 ^ k)))).testBit b) ∧
      m1 = { m with intVar := m1.intVar } := by
  obtain ⟨hfe, h64, h32⟩ := pow_facts k hk
  have hfac := factor_of_selector K k hk
  rw [← hsel] at hfac
  have hsel0 : Int.tdiv type 26 ≠ 0 := by omega
  rw [h64] at hL
  have hset := setIntValue_packed K m type L v _ _ h0 (by omega) (by omega) hsel0 hfac hfe hL0 hL
  obtain ⟨hf0, he0, -, -, hw0, hw1, hs0, hs1, he32⟩ := factor_facts _ _ hfe L hL0 hL
  have hs : L % ((2 ^ (5 - k) : Nat) : Int) * ((2 ^ k : Nat) : Int) =
      ((L % ((2 ^ (5 - k) : Nat) : Int) * ((2 ^ k : Nat) : Int)).toNat : Int) :=
    (Int.toNat_of_nonneg hs0).symm
  have hpow : ((2 : Int) ^ k) = ((2 ^ k : Nat) : Int) := by push_cast; rfl
  rw [h32, hpow]
  refine ⟨_, hset, ?_, ?_, rfl⟩
  · intro i j hij
    simp only [if_neg hij]
  · intro b hb hout
    simp only [and_self, if_true]
    rw [hs]
    apply packed_word_outside K.shlOver _ v _ _ (2 ^ k) b (by omega) hb (mask_lt K k hk)
    omega


/-- Witness of C2: class B (index 1), selector 4 (factor 8), location 9 is word 2 with
shift 8. -/
theorem setIntValue_changes_only_window_witness :
    ∃ m1, setIntValue sampleConfig 105 9 3 sampleMachine = .ok () m1 ∧
      (∀ i j, ¬ (i = classIndex sampleConfig 105 ∧ j = 9 / (32 / 2 ^ 3)) →
        m1.intVar i j = sampleMachine.intVar i j) ∧
      (∀ b : Nat, b < 32 →
        ((b : Int) < 9 % (32 / 2 ^ 3) * 2 ^ 3 ∨ (9 : Int) % (32 / 2 ^ 3) * 2 ^ 3 + 2 ^ 3 ≤ (b : Int)) →
        (toBits (m1.intVar (classIndex sampleConfig 105) (9 / (32 / 2 ^ 3)))).testBit b =
          (toBits (sampleMachine.intVar (classIndex sampleConfig 105)
            (9 / (32 / 2 ^ 3)))).testBit b) ∧
      m1 = { sampleMachine with intVar := m1.intVar } :=
  setIntValue_changes_only_window sampleConfig sampleMachine 105 9 3 3 (by decide) (by decide)
    (by decide) (by decide) (by decide) (by decide) (by decide)

/-! ## C3: locations out of range -/

/-- For a valid class index and a view selected by `type / 26 = sel` in `0..6`, a
location outside the range of the view (negative, at least 2000 for the plain view, at
least `64000 / f` for the view of factor `f = 2 ^ (sel - 1)`) makes `getIntValue` and
`setIntValue` throw an index error, and the machine at the throw is the machine before
the call: no integer bank is changed. -/
theorem intValue_out_of_range_throws (K : Config) (m : RLMachine) (type L v : Int) (sel : Nat)
    (hsel6 : sel ≤ 6) (hsel : Int.tdiv type 26 = sel)
    (h0 : 0 ≤ classIndex K type) (hN : classIndex K type < K.NUMBER_OF_INT_LOCATIONS)
    (hL : isInt32 L)
    (hout : L < 0 ∨ (if sel = 0 then 2000 else 64000 / 2 ^ (sel - 1)) ≤ L) :
    getIntValue K type L m = .thrown (.illegalIndex L) m ∧
      setIntValue K type L v m = .thrown .illegalIndexSet m := by
  rcases Nat.eq_zero_or_pos sel with hz | hpos
  · subst hz
    simp only [if_true] at hout
    exact plain_throw K m type L v h0 (by omega) (by simpa using hsel) hL hout
  · obtain ⟨k, rfl⟩ : ∃ k, sel = k + 1 := ⟨sel - 1, by omega⟩
    have hk : k ≤ 5 := by omega
    obtain ⟨hfe, h64, h32⟩ := pow_facts k hk
    have hfac := factor_of_selector K k hk
    have hsel' : Int.tdiv type 26 = (k : Int) + 1 := by rw [hsel]; push_cast; rfl
    rw [← hsel'] at hfac
    have hsel0 : Int.tdiv type 26 ≠ 0 := by omega
    simp only [Nat.add_sub_cancel, Nat.succ_ne_zero, if_false, h64] at hout
    exact ⟨getIntValue_packed_throw K m type L _ _ (by omega) hsel0 hfac hfe hL hout,
      setIntValue_packed_throw K m type L v _ _ h0 (by omega) hsel0 hfac hfe hL hout⟩

/-- An instance of `intValue_out_of_range_throws`: location 8000 is the first one outside
the view of factor 8 of class B. -/
theorem intValue_out_of_range_throws_witness :
    getIntValue sampleConfig 105 8000 sampleMachine = .thrown (.illegalIndex 8000) sampleMachine ∧
      setIntValue sampleConfig 105 8000 3 sampleMachine = .thrown .illegalIndexSet sampleMachine :=
  intValue_out_of_range_throws sampleConfig sampleMachine 105 8000 3 4 (by decide) (by decide)
    (by decide) (by decide) (by decide) (by decide)

/-- C3: on the sample target the type code 182 has the valid class index 0 and the width
selector 7, its factor is `1 << 6 = 64` and the capacity of its view `64000 / 64 = 1000`.
The locations 5000 and -1 are out of range for this view and `getIntValue` throws the
index error for them, while `setIntValue` evaluates `location % eltsize` with the element
size `32 / 64 = 0` ahead of its range check: a division by zero, where the claim has it
fail with an index error. -/
theorem setIntValue_out_of_range_not_rejected :
    classIndex sampleConfig 182 = 0 ∧ Int.tdiv 182 26 = 7 ∧
    cshl sampleConfig.shlOver 1 (csub (Int.tdiv 182 26) 1) = 64 ∧
    (64000 : Int) / 64 = 1000 ∧ (32 : Int) / 64 = 0 ∧
    getIntValue sampleConfig 182 5000 sampleMachine =
      .thrown (.illegalIndex 5000) sampleMachine ∧
    setIntValue sampleConfig 182 5000 1 sampleMachine = .undefined .divisionByZero ∧
    getIntValue sampleConfig 182 (-1) sampleMachine =
      .thrown (.illegalIndex (-1)) sampleMachine ∧
    setIntValue sampleConfig 182 (-1) 1 sampleMachine = .undefined .divisionByZero := by
  refine ⟨by decide, by decide, by decide, by decide, by decide, by rfl, by rfl, by rfl,
    by rfl⟩

/-! ## C4 and C5: type codes outside the named banks -/

/-- With a negative class index and an in-range location of the plain view, `getIntValue`
reads and `setIntValue` writes `intVar[index][location]` below the array, whatever the
configuration. -/
theorem intValue_negative_class (K : Config) (m : RLMachine) (type L v : Int)
    (hN : 0 ≤ K.NUMBER_OF_INT_LOCATIONS) (hidx : classIndex K type < 0)
    (hsel : Int.tdiv type 26 = 0) (hL0 : 0 ≤ L) (hL : L < 2000) :
    getIntValue K type L m = .undefined .outOfBounds ∧
      setIntValue K type L v m = .undefined .outOfBounds := by
  have hcap : ¬ toBits L ≥ 2000 := by unfold toBits; omega
  have hb : ¬ (0 ≤ classIndex K type ∧ classIndex K type < K.intVarRows ∧ 0 ≤ L ∧
      L < INT_BANK_SIZE) := by omega
  constructor
  · unfold getIntValue
    simp only [if_neg (show ¬ classIndex K type > K.NUMBER_OF_INT_LOCATIONS by omega), hsel,
      if_neg hcap, if_true]
    unfold readIntVar
    rw [if_neg hb]
  · unfold setIntValue
    simp only [if_pos (show classIndex K type < 0 ∨
      classIndex K type > K.NUMBER_OF_INT_LOCATIONS from Or.inl hidx), hsel, if_neg hcap,
      if_true, Exec.bind_apply, fprintfStderr]
    unfold writeIntVar
    rw [if_neg hb]

/-- C4: `getIntValue` does not throw for a class index outside the named banks. On the
sample configuration (nine named banks, nine rows) the type code -1 has class index -1
and the type code 9 has class index 9; both pass the only check
`index > NUMBER_OF_INT_LOCATIONS` and the function reads `intVar[-1][0]` and
`intVar[9][0]`, outside the array. -/
theorem getIntValue_invalid_class_not_rejected :
    classIndex sampleConfig (-1) = -1 ∧
      getIntValue sampleConfig (-1) 0 sampleMachine = .undefined .outOfBounds ∧
      classIndex sampleConfig 9 = 9 ∧ sampleConfig.NUMBER_OF_INT_LOCATIONS = 9 ∧
      getIntValue sampleConfig 9 0 sampleMachine = .undefined .outOfBounds := by
  refine ⟨by decide, by rfl, by decide, by rfl, by rfl⟩

/-- C5: `setIntValue` does not throw for a class index outside the named banks: it
writes a line to `stderr` and goes on to the store. On the sample configuration the type
codes -1 (class index -1) and 12 (class index 12) with location 0 reach the stores
`intVar[-1][0] = 5` and `intVar[12][0] = 5`, outside the array; with a location out of
range the line is written before the index error of the location check. -/
theorem setIntValue_invalid_class_not_rejected :
    classIndex sampleConfig (-1) = -1 ∧
      setIntValue sampleConfig (-1) 0 5 sampleMachine = .undefined .outOfBounds ∧
      classIndex sampleConfig 12 = 12 ∧
      setIntValue sampleConfig 12 0 5 sampleMachine = .undefined .outOfBounds ∧
      setIntValue sampleConfig 12 2000 5 sampleMachine =
        .thrown .illegalIndexSet
          { sampleMachine with stderr := [Diag.invalidAccess 0 2000] } := by
  refine ⟨by decide, by rfl, by decide, by rfl, by rfl⟩

/-! ## C6: string banks -/

/-- Of the string accessors: an index above 1999 throws for every type tag; a tag other
than the three bank tags throws; an index above 2 throws for `strK`; the machine at the
throw is the machine before the call. -/
theorem stringValue_rejects (m : RLMachine) (type location : Int) (value : String) :
    (location > 1999 → getStringValue type location m = .thrown .invalidRangeAccess m ∧
      setStringValue type location value m = .thrown .invalidRangeAccess m) ∧
    (location ≤ 1999 → type ≠ 0x0A → type ≠ 0x0C → type ≠ 0x12 →
      getStringValue type location m = .thrown .invalidTypeGetString m ∧
      setStringValue type location value m = .thrown .invalidTypeSetString m) ∧
    (location ≤ 1999 → type = 0x0A → location > 2 →
      getStringValue type location m = .thrown .invalidRangeAccessStrK m ∧
      setStringValue type location value m = .thrown .invalidRangeAccessStrK m) := by
  refine ⟨?_, ?_, ?_⟩
  · intro h
    constructor
    · unfold getStringValue; rw [if_pos h]; rfl
    · unfold setStringValue; rw [if_pos h]
  · intro h ha hc hs
    have h1 : ¬ location > 1999 := by omega
    constructor
    · unfold getStringValue; rw [if_neg h1, if_neg ha, if_neg hc, if_neg hs]; rfl
    · unfold setStringValue; rw [if_neg h1, if_neg ha, if_neg hc, if_neg hs]
  · intro h ha h2
    have h1 : ¬ location > 1999 := by omega
    constructor
    · unfold getStringValue; rw [if_neg h1, if_pos ha, if_pos h2]; rfl
    · unfold setStringValue; rw [if_neg h1, if_pos ha, if_pos h2]

/-- C6: a negative index is not rejected by the string accessors. With each of the three
bank tags, `getStringValue(tag, -1)` evaluates `bank[-1]` and `setStringValue(tag, -1, s)`
stores to `bank[-1]`, outside the bank, where the claim has both fail. -/
theorem stringValue_negative_index_not_rejected :
    getStringValue 0x0A (-1) sampleMachine = .undefined .outOfBounds ∧
      getStringValue 0x0C (-1) sampleMachine = .undefined .outOfBounds ∧
      getStringValue 0x12 (-1) sampleMachine = .undefined .outOfBounds ∧
      setStringValue 0x0A (-1) "s" sampleMachine = .undefined .outOfBounds ∧
      setStringValue 0x0C (-1) "s" sampleMachine = .undefined .outOfBounds ∧
      setStringValue 0x12 (-1) "s" sampleMachine = .undefined .outOfBounds := by
  refine ⟨by rfl, by rfl, by rfl, by rfl, by rfl, by rfl⟩

/-! ## C7 to C9: calls and returns -/

/-- C7: on a machine whose call stack is not empty (top frame `f`), `gosub(p)` pushes one
Gosub frame on the scenario of `f` at position `p`, and a following `returnFromGosub()`
returns normally and leaves the machine, hence every frame of the call stack, as it was
before the `gosub`. -/
theorem gosub_returnFromGosub (m : RLMachine) (p : Nat) (f : StackFrame)
    (hf : m.callStack.getLast? = some f) :
    ∃ m1, gosub p m = .ok () m1 ∧
      m1.callStack = m.callStack ++ [{ scenario := f.scenario, ip := p, frameType := .TYPE_GOSUB }] ∧
      returnFromGosub m1 = .ok () m ∧
      (gosub p >>= fun _ => returnFromGosub) m = .ok () m := by
  have h1 : gosub p m = .ok ()
      { m with callStack := m.callStack ++
        [{ scenario := f.scenario, ip := p, frameType := .TYPE_GOSUB }] } := by
    unfold gosub
    rw [Exec.bind_apply, top_apply m f hf]
    rfl
  have h2 : returnFromGosub { m with callStack := m.callStack ++
        [{ scenario := f.scenario, ip := p, frameType := .TYPE_GOSUB }] } = .ok () m := by
    unfold returnFromGosub
    rw [Exec.bind_apply, top_apply _ { scenario := f.scenario, ip := p, frameType := .TYPE_GOSUB }
      (by simp)]
    simp only [ne_eq, not_true_eq_false, if_false]
    exact pop_push m _
  refine ⟨_, h1, rfl, h2, ?_⟩
  rw [Exec.bind_apply, h1]
  exact h2


/-- Witness of C7: a `gosub` to position 2 on the sample machine. -/
theorem gosub_returnFromGosub_witness :
    ∃ m1, gosub 2 sampleMachine = .ok () m1 ∧
      m1.callStack = sampleMachine.callStack ++
        [{ scenario := sampleScenario, ip := 2, frameType := .TYPE_GOSUB }] ∧
      returnFromGosub m1 = .ok () sampleMachine ∧
      (gosub 2 >>= fun _ => returnFromGosub) sampleMachine = .ok () sampleMachine :=
  gosub_returnFromGosub sampleMachine 2
    { scenario := sampleScenario, ip := 0, frameType := .TYPE_ROOT } rfl


/-- C8: when the archive holds scenario number `S`, `farcall(S, E)` pushes exactly one
Farcall frame positioned at entrypoint `E` of that scenario, with every existing frame
preserved beneath it, and a following `returnFromFarcall()` returns normally and leaves
the machine, hence the call stack, as it was before the `farcall`. -/
theorem farcall_returnFromFarcall (m : RLMachine) (S E : Int) (sc : Scenario)
    (hS : m.archive.scenario S = some sc) :
    ∃ m1, farcall S E m = .ok () m1 ∧
      m1.callStack = m.callStack ++
        [{ scenario := sc, ip := sc.findEntrypoint E, frameType := .TYPE_FARCALL }] ∧
      returnFromFarcall m1 = .ok () m ∧
      (farcall S E >>= fun _ => returnFromFarcall) m = .ok () m := by
  have h1 : farcall S E m = .ok ()
      { m with callStack := m.callStack ++
        [{ scenario := sc, ip := sc.findEntrypoint E, frameType := .TYPE_FARCALL }] } := by
    unfold farcall
    rw [Exec.bind_apply]
    simp only [getState, hS]
    rfl
  have h2 : returnFromFarcall { m with callStack := m.callStack ++
        [{ scenario := sc, ip := sc.findEntrypoint E, frameType := .TYPE_FARCALL }] } =
      .ok () m := by
    unfold returnFromFarcall
    rw [Exec.bind_apply, top_apply _
      { scenario := sc, ip := sc.findEntrypoint E, frameType := .TYPE_FARCALL } (by simp)]
    simp only [ne_eq, not_true_eq_false, if_false]
    exact pop_push m _
  refine ⟨_, h1, rfl, h2, ?_⟩
  rw [Exec.bind_apply, h1]
  exact h2


/-- Witness of C8: a `farcall` to entrypoint 0 of scenario 1 on the sample machine. -/
theorem farcall_returnFromFarcall_witness :
    ∃ m1, farcall 1 0 sampleMachine = .ok () m1 ∧
      m1.callStack = sampleMachine.callStack ++
        [{ scenario := sampleScenario, ip := sampleScenario.findEntrypoint 0,
           frameType := .TYPE_FARCALL }] ∧
      returnFromFarcall m1 = .ok () sampleMachine ∧
      (farcall 1 0 >>= fun _ => returnFromFarcall) sampleMachine = .ok () sampleMachine :=
  farcall_returnFromFarcall sampleMachine 1 0 sampleScenario rfl


/-- C9: a return operation succeeds only on a matching frame. With top frame `f`,
`returnFromGosub` throws the call-stack mismatch error when the type of `f` is not Gosub
(so when it is Farcall or Root) and `returnFromFarcall` throws when it is not Farcall (so
when it is Gosub or Root); the machine at the throw is the machine before the call, so
nothing is popped; and a normal return happens only on a frame of the matching type. -/
theorem return_on_mismatch_throws (m : RLMachine) (f : StackFrame)
    (hf : m.callStack.getLast? = some f) :
    (f.frameType ≠ .TYPE_GOSUB → returnFromGosub m = .thrown .callstackMismatchGosub m) ∧
    (f.frameType ≠ .TYPE_FARCALL → returnFromFarcall m = .thrown .callstackMismatchFarcall m) ∧
    (∀ m1, returnFromGosub m = .ok () m1 → f.frameType = .TYPE_GOSUB) ∧
    (∀ m1, returnFromFarcall m = .ok () m1 → f.frameType = .TYPE_FARCALL) := by
  refine ⟨?_, ?_, ?_, ?_⟩
  · intro h
    unfold returnFromGosub
    rw [Exec.bind_apply, top_apply m f hf]
    simp only [if_pos h]
    rfl
  · intro h
    unfold returnFromFarcall
    rw [Exec.bind_apply, top_apply m f hf]
    simp only [if_pos h]
    rfl
  · intro m1 h
    by_contra hne
    unfold returnFromGosub at h
    rw [Exec.bind_apply, top_apply m f hf] at h
    simp only [if_pos hne] at h
    exact Res.noConfusion h
  · intro m1 h
    by_contra hne
    unfold returnFromFarcall at h
    rw [Exec.bind_apply, top_apply m f hf] at h
    simp only [if_pos hne] at h
    exact Res.noConfusion h

/-- Witness of C9: both returns throw on the sample machine, whose top frame is the
root frame. -/
theorem return_on_mismatch_throws_witness :
    returnFromGosub sampleMachine = .thrown .callstackMismatchGosub sampleMachine ∧
      returnFromFarcall sampleMachine = .thrown .callstackMismatchFarcall sampleMachine :=
  have h := return_on_mismatch_throws sampleMachine
    { scenario := sampleScenario, ip := 0, frameType := .TYPE_ROOT } rfl
  ⟨h.1 (by decide), h.2.1 (by decide)⟩

/-! ## C10: the root frame -/


/-- C10: starting from a freshly constructed machine (either constructor), after any
sequence of `jump`, `farcall`, `gosub`, `gotoLocation`, `advanceInstructionPointer`,
`returnFromGosub` and `returnFromFarcall` calls, returning or throwing, the call stack is
not empty, its bottom frame is of type Root and no other frame is; and a return operation
that returns normally in such a state removes only the top frame, which is not the
bottom one, so the Root frame is never popped. -/
theorem root_frame_stays_at_bottom (inArchive : Archive) (m0 m : RLMachine)
    (calls : List Call)
    (hnew : RLMachine.create inArchive () = .ok m0 () ∨
      ∃ seenStart, RLMachine.createWithSystem seenStart inArchive () = .ok m0 ())
    (hrun : runCalls calls m0 = some m) :
    (∃ root rest, m.callStack = root :: rest ∧ root.frameType = .TYPE_ROOT ∧
      ∀ f ∈ rest, f.frameType ≠ .TYPE_ROOT) ∧
    (∀ m1, (returnFromGosub m = .ok () m1 ∨ returnFromFarcall m = .ok () m1) →
      ∃ root rest top, m.callStack = root :: (rest ++ [top]) ∧ m1.callStack = root :: rest ∧
        root.frameType = .TYPE_ROOT) := by
  have hfresh : ∀ sc log, RootedStack (freshMachine inArchive sc log).callStack :=
    fun sc log => ⟨_, [], rfl, rfl, by simp⟩
  have h0 : RootedStack m0.callStack := by
    rcases hnew with h | ⟨seen, h⟩
    · unfold RLMachine.create at h
      split at h
      · exact Res.noConfusion h
      · split at h
        · exact Res.noConfusion h
        · injection h with h1 _
          rw [← h1]; exact hfresh _ _
    · unfold RLMachine.createWithSystem at h
      simp only [] at h
      split at h
      · injection h with h1 _
        rw [← h1]; exact hfresh _ _
      · split at h
        · exact Res.noConfusion h
        · split at h
          · exact Res.noConfusion h
          · injection h with h1 _
            rw [← h1]; exact hfresh _ _
  have hm := rooted_runCalls calls m0 m h0 hrun
  refine ⟨hm, ?_⟩
  intro m1 hret
  obtain ⟨f, hf, -⟩ := rooted_cases hm
  have hpop : ∀ (hne : f.frameType ≠ .TYPE_ROOT)
      (h1 : m1 = { m with callStack := m.callStack.dropLast }),
      ∃ root rest top, m.callStack = root :: (rest ++ [top]) ∧ m1.callStack = root :: rest ∧
        root.frameType = .TYPE_ROOT := by
    intro hne h1
    obtain ⟨root, rest, hs, hd, hI⟩ := rooted_pop hm f hf hne
    obtain ⟨r2, rest2, hcons, hr2, -⟩ := hI
    obtain ⟨rfl, -⟩ := List.cons.inj hcons
    exact ⟨root, rest, f, hs, by rw [h1]; exact hd, hr2⟩
  rcases hret with h | h
  · rw [returnFromGosub_state m f hf] at h
    by_cases hne : f.frameType ≠ .TYPE_GOSUB
    · rw [if_pos hne] at h; exact Res.noConfusion h
    · rw [if_neg hne] at h
      injection h with _ h1
      exact hpop (by rw [not_not.mp hne]; simp) h1.symm
  · rw [returnFromFarcall_state m f hf] at h
    by_cases hne : f.frameType ≠ .TYPE_FARCALL
    · rw [if_pos hne] at h; exact Res.noConfusion h
    · rw [if_neg hne] at h
      injection h with _ h1
      exact hpop (by rw [not_not.mp hne]; simp) h1.symm

/-- Witness of C10: on the machine constructed on the sample archive, a `gosub`, its
return, two failing returns, a `farcall` and a `jump`. -/
theorem root_frame_stays_at_bottom_witness :
    ∃ m, runCalls [.gosub 2, .returnFromGosub, .returnFromGosub, .returnFromFarcall,
        .farcall 1 0, .jump 1 0] sampleMachine = some m ∧
      (∃ root rest, m.callStack = root :: rest ∧ root.frameType = .TYPE_ROOT ∧
        ∀ f ∈ rest, f.frameType ≠ .TYPE_ROOT) :=
  ⟨_, rfl, (root_frame_stays_at_bottom sampleArchive sampleMachine _
    [.gosub 2, .returnFromGosub, .returnFromGosub, .returnFromFarcall, .farcall 1 0, .jump 1 0]
    (Or.inl rfl) rfl).1⟩

/-! ## C11 and C12: jump -/

/-- C12: `jump` and `farcall` called with a scenario number that is absent from the
archive throw the invalid-scenario error, and the machine at the throw is the machine
before the call: no frame is pushed or modified. -/
theorem jump_farcall_absent_scenario (m : RLMachine) (S E : Int)
    (hS : m.archive.scenario S = none) :
    jump S E m = .thrown .invalidScenarioNumber m ∧
      farcall S E m = .thrown .invalidScenarioNumber m := by
  constructor
  · unfold jump
    rw [Exec.bind_apply]
    simp only [getState, hS]
    rfl
  · unfold farcall
    rw [Exec.bind_apply]
    simp only [getState, hS]
    rfl

/-- Witness of C12: the sample archive holds no scenario 2. -/
theorem jump_farcall_absent_scenario_witness :
    jump 2 0 sampleMachine = .thrown .invalidScenarioNumber sampleMachine ∧
      farcall 2 0 sampleMachine = .thrown .invalidScenarioNumber sampleMachine :=
  jump_farcall_absent_scenario sampleMachine 2 0 rfl

/-! ## C13: attaching modules -/

/-- C13: with `key = (moduleType << 8) | moduleNumber`, `attachModule` throws the
module-clash error exactly when a module is registered under `key`; the machine at the
throw is the machine before the call, so the registry is unchanged; when no module is
registered under `key` the call returns normally, `key` maps to the module, every other
key maps to what it mapped to and the rest of the machine is unchanged; a second
registration of any module of the same pair then throws and `key` still maps to the
first module. -/
theorem attachModule_clash (K : Config) (m : RLMachine) (module : RLModule) :
    ((attachModule K module m).exn? = some .moduleClash ↔
      (m.modules (packModuleNumber K module.moduleType module.moduleNumber)).isSome = true) ∧
    ((m.modules (packModuleNumber K module.moduleType module.moduleNumber)).isSome = true →
      attachModule K module m = .thrown .moduleClash m) ∧
    (m.modules (packModuleNumber K module.moduleType module.moduleNumber) = none →
      ∃ m1, attachModule K module m = .ok () m1 ∧
        m1.modules (packModuleNumber K module.moduleType module.moduleNumber) = some module ∧
        (∀ k, k ≠ packModuleNumber K module.moduleType module.moduleNumber →
          m1.modules k = m.modules k) ∧
        m1 = { m with modules := m1.modules } ∧
        ∀ second : RLModule, second.moduleType = module.moduleType →
          second.moduleNumber = module.moduleNumber →
          attachModule K second m1 = .thrown .moduleClash m1) := by
  have hsome : ∀ (m0 : RLMachine) (md first : RLModule),
      m0.modules (packModuleNumber K md.moduleType md.moduleNumber) = some first →
      attachModule K md m0 = .thrown .moduleClash m0 := by
    intro m0 md first h
    unfold attachModule
    rw [Exec.bind_apply]
    simp only [getState, h]
    rfl
  have hnone : m.modules (packModuleNumber K module.moduleType module.moduleNumber) = none →
      attachModule K module m = .ok () { m with
        modules := fun k =>
          if k = packModuleNumber K module.moduleType module.moduleNumber
          then some module else m.modules k } := by
    intro h
    unfold attachModule
    rw [Exec.bind_apply]
    simp only [getState, h]
    unfold insertModule
    simp [h]
  refine ⟨?_, ?_, ?_⟩
  · cases h : m.modules (packModuleNumber K module.moduleType module.moduleNumber) with
    | none => rw [hnone h]; simp [Res.exn?]
    | some first => rw [hsome m module first h]; simp [Res.exn?]
  · intro h
    obtain ⟨first, hfirst⟩ := Option.isSome_iff_exists.mp h
    exact hsome m module first hfirst
  · intro h
    refine ⟨_, hnone h, by simp, ?_, rfl, ?_⟩
    · intro k hk
      simp [hk]
    · intro second ht hn
      apply hsome _ second module
      rw [ht, hn]
      simp

/-- Witness of C13: the first module of pair 0:1 is registered on the sample machine, the
second one of the same pair is refused. -/
theorem attachModule_clash_witness :
    ∃ m1, attachModule sampleConfig sampleModule sampleMachine = .ok () m1 ∧
      m1.modules (packModuleNumber sampleConfig 0 1) = some sampleModule ∧
      attachModule sampleConfig sampleModuleTwin m1 = .thrown .moduleClash m1 := by
  obtain ⟨m1, h1, h2, -, -, h3⟩ :=
    (attachModule_clash sampleConfig sampleMachine sampleModule).2.2 rfl
  exact ⟨m1, h1, h2, h3 sampleModuleTwin rfl rfl⟩

/-! ## C14 to C18: ticks -/

/-- C14: for a command element whose key `(modtype << 8) | module` has no registered
module, `executeCommand` throws the undefined-module error with the machine as it was
before the call, whatever the handlers of the modules are; and when such a command is
the current element of a machine that is running, halts on exceptions (as every
constructed machine does) and has an empty long-operation stack, one
`executeNextInstruction` tick returns normally and leaves the machine halted, its call
stack unchanged. -/
theorem undefined_module_halts (K : Config) (W : World) (m : RLMachine) (f : CommandElement)
    (hkey : m.modules (packModuleNumber K f.modtype f.module) = none) :
    executeCommand K W f m = .thrown (.undefinedModule f.modtype f.module) m ∧
    (∀ a sc log, (freshMachine a sc log).m_haltOnException = true) ∧
    (∀ fr : StackFrame, m.m_halted = false → m.m_haltOnException = true →
      m.m_longOperationStack = [] → m.callStack.getLast? = some fr →
      fr.scenario.elements[fr.ip]? = some (.Command f) →
      ∃ m1, executeNextInstruction K W m = .ok () m1 ∧ m1.m_halted = true ∧
        m1.callStack = m.callStack ∧
        m1.stdout = m.stdout ++ [{ sceneNumber := fr.scenario.sceneNumber, line := m.m_line,
                                   what := .undefinedModule f.modtype f.module }]) := by
  refine ⟨executeCommand_undefined K W m f hkey, fun _ _ _ => rfl, ?_⟩
  intro fr hrun hflag hlong hfr helem
  exact ⟨_, undefined_module_tick K W m f fr hkey hrun hflag hlong hfr helem, rfl, rfl, rfl⟩

/-- Witness of C14: the sample machine moved to its jump command, with no module
registered. -/
theorem undefined_module_halts_witness :
    executeCommand sampleConfig sampleWorld sampleGoto sampleMachine =
        .thrown (.undefinedModule 0 1) sampleMachine ∧
      ∃ m1, executeNextInstruction sampleConfig sampleWorld
          { sampleMachine with
            callStack := [{ scenario := sampleScenario, ip := 1, frameType := .TYPE_ROOT }] } =
          .ok () m1 ∧ m1.m_halted = true := by
  refine ⟨(undefined_module_halts sampleConfig sampleWorld sampleMachine sampleGoto rfl).1, ?_⟩
  obtain ⟨m1, h1, h2, -, -⟩ :=
    (undefined_module_halts sampleConfig sampleWorld
      { sampleMachine with
        callStack := [{ scenario := sampleScenario, ip := 1, frameType := .TYPE_ROOT }] }
      sampleGoto rfl).2.2
      { scenario := sampleScenario, ip := 1, frameType := .TYPE_ROOT } rfl rfl rfl rfl rfl
  exact ⟨m1, h1, h2⟩

/-- C15: on a halted machine `executeNextInstruction` returns normally with the machine
unchanged (call stack, long-operation stack, variable banks, line number and halted flag
included), whatever the long operations and the elements would do; hence any number of
ticks leaves a halted machine unchanged, and halted. -/
theorem halted_tick_is_noop (K : Config) (W : World) (m : RLMachine)
    (h : m.m_halted = true) :
    executeNextInstruction K W m = .ok () m ∧
      ∀ n, executeTicks K W n m = .ok () m := by
  have h1 : executeNextInstruction K W m = .ok () m := by
    unfold executeNextInstruction halted
    simp only [h, if_true]
  refine ⟨h1, ?_⟩
  intro n
  induction n with
  | zero => rfl
  | succ n ih =>
    simp only [executeTicks]
    rw [Exec.bind_apply, h1]
    exact ih

/-- Witness of C15: the sample machine once halted. -/
theorem halted_tick_is_noop_witness :
    executeNextInstruction sampleConfig sampleWorld { sampleMachine with m_halted := true } =
        .ok () { sampleMachine with m_halted := true } ∧
      ∀ n, executeTicks sampleConfig sampleWorld n { sampleMachine with m_halted := true } =
        .ok () { sampleMachine with m_halted := true } :=
  halted_tick_is_noop sampleConfig sampleWorld { sampleMachine with m_halted := true } rfl


/-- C16: in a tick of a running machine whose long-operation stack is not empty (top
operation `op`), `executeNextInstruction` is one invocation of `op` followed, when `op`
reports completion, by `pop_back()`, and nothing else: no element is run. So a tick in
which `op` reports "not complete" leaves the machine as `op` left it, a tick in which it
reports completion differs from that only by the `pop_back()`, an exception of `op`
leaves the tick, and in every case the call stack after the tick is the one `op` left:
the tick itself moves no instruction position. -/
theorem long_operation_tick (K : Config) (W : World) (m : RLMachine) (op : LongOperation)
    (hrun : m.m_halted = false) (hop : m.m_longOperationStack.getLast? = some op) :
    executeNextInstruction K W m =
      (W.invoke op >>= fun retVal => if retVal = true then popLongOperation else pure ()) m ∧
    (∀ m1, W.invoke op m = .ok false m1 → executeNextInstruction K W m = .ok () m1) ∧
    (∀ m1, W.invoke op m = .ok true m1 → executeNextInstruction K W m = popLongOperation m1) ∧
    (∀ e m1, W.invoke op m = .thrown e m1 → executeNextInstruction K W m = .thrown e m1) ∧
    (∀ r m1 m2, W.invoke op m = .ok r m1 → executeNextInstruction K W m = .ok () m2 →
      m2.callStack = m1.callStack) := by
  have h := executeNextInstruction_longOperation K W m op hrun hop
  have hpop : ∀ m1 m2 : RLMachine, popLongOperation m1 = .ok () m2 →
      m2.callStack = m1.callStack := by
    intro m1 m2 hp
    unfold popLongOperation at hp
    split at hp
    · exact Res.noConfusion hp
    · injection hp with _ h2
      rw [← h2]
  refine ⟨h, ?_, ?_, ?_, ?_⟩
  · intro m1 h1
    rw [h, Exec.bind_apply, h1]
    rfl
  · intro m1 h1
    rw [h, Exec.bind_apply, h1]
    rfl
  · intro e m1 h1
    rw [h, Exec.bind_apply, h1]
  · intro r m1 m2 h1 h2
    rw [h, Exec.bind_apply, h1] at h2
    cases r with
    | false =>
      simp only [Bool.false_eq_true, if_false, Exec.pure_apply] at h2
      injection h2 with _ h3
      rw [← h3]
    | true =>
      simp only [if_true] at h2
      exact hpop m1 m2 h2

/-- Witness of C16: the sample machine with the long operation 3, which reports
completion at once, on its long-operation stack. -/
theorem long_operation_tick_witness :
    executeNextInstruction sampleConfig sampleWorld
        { sampleMachine with m_longOperationStack := [{ id := 3 }] } =
      popLongOperation { sampleMachine with m_longOperationStack := [{ id := 3 }] } :=
  (long_operation_tick sampleConfig sampleWorld
    { sampleMachine with m_longOperationStack := [{ id := 3 }] } { id := 3 } rfl rfl).2.2.1
    _ rfl

/-- When the invoked long operation leaves the long-operation stack as it found it, a
tick removes exactly that operation if it reports completion and nothing otherwise. -/
theorem tick_pops_invoked (K : Config) (W : World) (m m1 : RLMachine) (op : LongOperation)
    (r : Bool) (hrun : m.m_halted = false)
    (hop : m.m_longOperationStack.getLast? = some op)
    (hinv : W.invoke op m = .ok r m1)
    (hkeep : m1.m_longOperationStack = m.m_longOperationStack) :
    ∃ m2, executeNextInstruction K W m = .ok () m2 ∧
      m2.m_longOperationStack =
        (if r = true then m.m_longOperationStack.dropLast else m.m_longOperationStack) ∧
      (r = true → m2.m_longOperationStack ++ [op] = m.m_longOperationStack) := by
  rw [executeNextInstruction_longOperation K W m op hrun hop, Exec.bind_apply, hinv]
  cases r with
  | false => exact ⟨m1, rfl, by simpa using hkeep, by simp⟩
  | true =>
    simp only [if_true]
    unfold popLongOperation
    cases hs : m1.m_longOperationStack with
    | nil => rw [hs] at hkeep; rw [← hkeep] at hop; simp at hop
    | cons a l =>
      simp only []
      refine ⟨_, rfl, by simp [← hkeep, hs], ?_⟩
      intro _
      simp only []
      rw [← hs, hkeep]
      exact List.dropLast_append_getLast? op hop

/-- C17: a long operation that pushes a further long operation and reports completion is
not the one removed. On the sample machine with the long operation 0 on its stack, a tick
invokes operation 0, which pushes operation 1 and reports completion; `pop_back()` then
removes operation 1 and the stack after the tick still holds operation 0, where the
claim has the invoked operation removed. -/
theorem completed_long_operation_not_removed :
    (sampleWorld.invoke { id := 0 }
        { sampleMachine with m_longOperationStack := [{ id := 0 }] }).value? = some true ∧
      ((sampleWorld.invoke { id := 0 }
        { sampleMachine with m_longOperationStack := [{ id := 0 }] }).state?.map
          (fun m => m.m_longOperationStack)) = some [{ id := 0 }, { id := 1 }] ∧
      ((executeNextInstruction sampleConfig sampleWorld
        { sampleMachine with m_longOperationStack := [{ id := 0 }] }).state?.map
          (fun m => m.m_longOperationStack)) = some [{ id := 0 }] := by
  refine ⟨by rfl, by rfl, by rfl⟩

/-- C18 fails as stated: the sample machine at its jump command is running, its
long-operation stack is empty and `haltOnException` is cleared; the handler of the command
calls `halt()` and then throws, leaving the call stack as it was. The tick advances the
top frame from position 1 to position 2 of the three elements of the scenario, and the
machine is halted, where the claim has it remain running when the advance does not reach
the end of the scenario. -/
theorem exception_tick_halted_by_element :
    sampleMachineAtJump.m_halted = false ∧ sampleMachineAtJump.m_longOperationStack = [] ∧
    sampleMachineAtJump.m_haltOnException = false ∧
    (runOnMachine sampleConfig sampleWorldHaltThenThrow (.Command sampleGoto)
      sampleMachineAtJump).exn? = some .invalidTypeGetString ∧
    (runOnMachine sampleConfig sampleWorldHaltThenThrow (.Command sampleGoto)
      sampleMachineAtJump).state?.map (fun m1 => m1.callStack.map StackFrame.stored) =
        some (sampleMachineAtJump.callStack.map StackFrame.stored) ∧
    (executeNextInstruction sampleConfig sampleWorldHaltThenThrow
      sampleMachineAtJump).state?.map (fun m2 => m2.callStack.map StackFrame.stored) =
        some [(1, 2, .TYPE_ROOT)] ∧
    (executeNextInstruction sampleConfig sampleWorldHaltThenThrow
      sampleMachineAtJump).state?.map (fun m2 => m2.m_halted) = some true ∧
    sampleScenario.size = 3 := by
  refine ⟨rfl, rfl, rfl, by rfl, by rfl, by rfl, by rfl, rfl⟩

/-- C18, amended: for a running machine with an empty long-operation stack whose current
element throws when executed, leaving the call stack as it was: if `haltOnException` is
set, the tick returns normally and leaves the machine halted with its call stack, hence
its instruction position, unchanged; otherwise the tick returns normally, the position of
the top frame is advanced by exactly one, every other frame is unchanged, and the machine
is halted afterwards exactly when the element had halted it before it threw or that
advance reaches the end of the scenario. `setHaltOnException` sets the flag that
decides. -/
theorem exception_tick (K : Config) (W : World) (m m1 : RLMachine) (fr : StackFrame)
    (element : BytecodeElement) (ex : Exn)
    (hrun : m.m_halted = false) (hlong : m.m_longOperationStack = [])
    (hfr : m.callStack.getLast? = some fr)
    (helem : fr.scenario.elements[fr.ip]? = some element)
    (hthrow : runOnMachine K W element m = .thrown ex m1)
    (hcs : m1.callStack = m.callStack) :
    (m1.m_haltOnException = true →
      ∃ m2, executeNextInstruction K W m = .ok () m2 ∧ m2.m_halted = true ∧
        m2.callStack = m.callStack) ∧
    (m1.m_haltOnException = false →
      ∃ m2, executeNextInstruction K W m = .ok () m2 ∧
        m2.callStack = m.callStack.dropLast ++ [{ fr with ip := fr.ip + 1 }] ∧
        (m2.m_halted = true ↔ (m1.m_halted = true ∨ fr.ip + 1 = fr.scenario.size))) ∧
    (∀ b, setHaltOnException b m = .ok () { m with m_haltOnException := b }) := by
  have hlt := lt_size_of_element fr _ helem
  have hfr1 : m1.callStack.getLast? = some fr := by rw [hcs]; exact hfr
  have htick := executeNextInstruction_element K W m fr _ hrun hlong hfr helem
  rw [hthrow] at htick
  simp only [] at htick
  refine ⟨?_, ?_, fun _ => rfl⟩
  · intro hflag
    rw [htick, catchException_halt ex m1 fr hfr1 hflag]
    exact ⟨_, rfl, rfl, hcs⟩
  · intro hflag
    rw [htick, catchException_skip ex m1 fr hfr1 hflag hlt]
    refine ⟨_, rfl, by simp only [hcs], ?_⟩
    simp

/-- C18, amended, on the sample machine at its jump command, whose module is not
registered, with `haltOnException` cleared: the element throws with the machine running,
and the tick skips the command and leaves the machine running at position 2 of 3. -/
theorem exception_tick_witness :
    ∃ m2, executeNextInstruction sampleConfig sampleWorld
        { sampleMachine with
          m_haltOnException := false
          callStack := [{ scenario := sampleScenario, ip := 1, frameType := .TYPE_ROOT }] } =
        .ok () m2 ∧
      m2.callStack = [{ scenario := sampleScenario, ip := 2, frameType := .TYPE_ROOT }] ∧
      (m2.m_halted = true ↔ (false = true ∨ 1 + 1 = sampleScenario.size)) :=
  (exception_tick sampleConfig sampleWorld
    { sampleMachine with
      m_haltOnException := false
      callStack := [{ scenario := sampleScenario, ip := 1, frameType := .TYPE_ROOT }] }
    { sampleMachine with
      m_haltOnException := false
      callStack := [{ scenario := sampleScenario, ip := 1, frameType := .TYPE_ROOT }] }
    { scenario := sampleScenario, ip := 1, frameType := .TYPE_ROOT }
    (.Command sampleGoto) (.undefinedModule 0 1) rfl rfl rfl rfl rfl rfl).2.1 rfl

/-! ## C19 and C20: the instruction pointer and the end of the script -/

/-- C19: on a machine whose top frame `f` is before the end of its scenario,
`advanceInstructionPointer` returns normally, increments the position of the top frame by
exactly one and changes no other frame and nothing else but the halted flag; afterwards
the machine is halted exactly when it was already halted or the new position is the end
of the scenario of the top frame, so advancing past the last element halts the machine. -/
theorem advanceInstructionPointer_effect (m : RLMachine) (f : StackFrame)
    (hf : m.callStack.getLast? = some f) (hlt : f.ip < f.scenario.size) :
    ∃ m1, advanceInstructionPointer m = .ok () m1 ∧
      m1.callStack = m.callStack.dropLast ++ [{ f with ip := f.ip + 1 }] ∧
      (m1.m_halted = true ↔ (m.m_halted = true ∨ f.ip + 1 = f.scenario.size)) ∧
      (f.ip + 1 = f.scenario.size → m1.m_halted = true) ∧
      m1 = { m with callStack := m1.callStack, m_halted := m1.m_halted } := by
  refine ⟨_, advanceInstructionPointer_apply m f hf hlt, rfl, by simp, ?_, rfl⟩
  intro h
  simp [h]

/-- Witness of C19: the sample machine at the last element of its scenario. -/
theorem advanceInstructionPointer_effect_witness :
    ∃ m1, advanceInstructionPointer
        { sampleMachine with
          callStack := [{ scenario := sampleScenario, ip := 2, frameType := .TYPE_ROOT }] } =
        .ok () m1 ∧
      m1.callStack = [{ scenario := sampleScenario, ip := 3, frameType := .TYPE_ROOT }] ∧
      m1.m_halted = true := by
  obtain ⟨m1, h1, h2, -, h4, -⟩ := advanceInstructionPointer_effect
    { sampleMachine with
      callStack := [{ scenario := sampleScenario, ip := 2, frameType := .TYPE_ROOT }] }
    { scenario := sampleScenario, ip := 2, frameType := .TYPE_ROOT } rfl (by decide)
  exact ⟨m1, h1, h2, h4 rfl⟩


/-- C20, as stated, fails on the machine just constructed: no module is registered, so
on the sample archive (one scenario: an entrypoint marker, a jump command whose target is
the element after itself, a line marker) the jump command throws the undefined-module
error and `executeUntilHalted` ends after two ticks with the machine halted at the jump
command, position 1, not at the end of the scenario, position 3. -/
theorem executeUntilHalted_without_module :
    RLMachine.create sampleArchive () = .ok sampleMachine () ∧
      sampleScenario.size = 3 ∧
      ∃ m1, (∀ (W : World) (fuel : Nat),
          executeUntilHalted sampleConfig W (fuel + 2) sampleMachine = some (.ok () m1)) ∧
        m1.m_halted = true ∧
        m1.callStack = [{ scenario := sampleScenario, ip := 1, frameType := .TYPE_ROOT }] := by
  refine ⟨rfl, rfl,
    { sampleMachine with
      callStack := [{ scenario := sampleScenario, ip := 1, frameType := .TYPE_ROOT }]
      m_halted := true
      stdout := [{ sceneNumber := 1, line := none, what := .undefinedModule 0 1 }] },
    ?_, ?_, ?_⟩
  · intro W fuel
    have ha' : executeNextInstruction sampleConfig W sampleMachine = .ok ()
        { sampleMachine with
          callStack := [{ scenario := sampleScenario, ip := 1, frameType := .TYPE_ROOT }] } :=
      rfl
    rw [executeUntilHalted_step sampleConfig W (fuel + 1) sampleMachine _ rfl ha']
    have hb' := undefined_module_tick sampleConfig W
      { sampleMachine with
        callStack := [{ scenario := sampleScenario, ip := 1, frameType := .TYPE_ROOT }] }
      sampleGoto { scenario := sampleScenario, ip := 1, frameType := .TYPE_ROOT }
      rfl rfl rfl rfl rfl rfl
    rw [executeUntilHalted_step sampleConfig W fuel _ _ rfl hb']
    exact executeUntilHalted_halted sampleConfig W fuel _ rfl
  · rfl
  · rfl


/-- C20, amended: let a running machine with an empty long-operation stack have its top
frame at the start of a scenario whose elements are a meta marker, a jump command and a
meta marker, and let a module be registered under the key of the jump command whose
handler for it is `gotoLocation` to the element immediately after the command. Then
`executeUntilHalted` terminates, after three ticks, with a normal return; the machine is
halted, the top frame is at position 3, the end of the scenario, past the last element,
and every other frame is unchanged. -/
theorem executeUntilHalted_reaches_end (K : Config) (W : World) (m : RLMachine)
    (sc : Scenario) (ty : FrameType) (f : CommandElement) (md : RLModule)
    (t1 t2 : MetaElementType) (v1 v2 : Int)
    (hrun : m.m_halted = false) (hlong : m.m_longOperationStack = [])
    (hfr : m.callStack.getLast? = some { scenario := sc, ip := 0, frameType := ty })
    (helems : sc.elements = [.Meta t1 v1, .Command f, .Meta t2 v2])
    (hmod : m.modules (packModuleNumber K f.modtype f.module) = some md)
    (hjump : ∀ s, W.dispatchFunction md f s = gotoLocation 2 s) :
    ∃ m3, (∀ fuel, executeUntilHalted K W (fuel + 3) m = some (.ok () m3)) ∧
      m3.m_halted = true ∧
      m3.callStack = m.callStack.dropLast ++ [{ scenario := sc, ip := 3, frameType := ty }] ∧
      sc.size = 3 := by
  have hsize : sc.size = 3 := by unfold Scenario.size; rw [helems]; rfl
  obtain ⟨m1, h1, hcs1, hh1, hl1, hm1⟩ := meta_tick K W m
    { scenario := sc, ip := 0, frameType := ty } t1 v1 hrun hlong hfr
    (by simp only [helems]; rfl)
  have hrun1 : m1.m_halted = false := by rw [hh1]; simp [hsize]
  have hfr1 : m1.callStack.getLast? = some { scenario := sc, ip := 1, frameType := ty } := by
    rw [hcs1]; simp
  have h2 := goto_tick K W m1 { scenario := sc, ip := 1, frameType := ty } f md 2 hrun1 hl1
    hfr1 (by simp only [helems]; rfl) (by rw [hm1]; exact hmod) hjump
  obtain ⟨m3, h3, hcs3, hh3, -, -⟩ := meta_tick K W
    { m1 with callStack := m1.callStack.dropLast ++
        [{ scenario := sc, ip := 2, frameType := ty }] }
    { scenario := sc, ip := 2, frameType := ty } t2 v2 hrun1 hl1 (by simp)
    (by simp only [helems]; rfl)
  refine ⟨m3, ?_, by rw [hh3]; simp [hsize], ?_, hsize⟩
  · intro fuel
    rw [executeUntilHalted_step K W (fuel + 2) m m1 hrun h1,
      executeUntilHalted_step K W (fuel + 1) m1
        { m1 with callStack := m1.callStack.dropLast ++
            [{ scenario := sc, ip := 2, frameType := ty }] } hrun1 h2,
      executeUntilHalted_step K W fuel
        { m1 with callStack := m1.callStack.dropLast ++
            [{ scenario := sc, ip := 2, frameType := ty }] } m3 hrun1 h3]
    exact executeUntilHalted_halted K W fuel m3 (by rw [hh3]; simp [hsize])
  · rw [hcs3]
    simp [hcs1]

/-- Witness of C20, amended: the sample machine after the module of the jump commands is
attached. -/
theorem executeUntilHalted_reaches_end_witness :
    ∃ m0 m3, attachModule sampleConfig sampleModule sampleMachine = .ok () m0 ∧
      (∀ fuel, executeUntilHalted sampleConfig sampleWorld (fuel + 3) m0 = some (.ok () m3)) ∧
      m3.m_halted = true ∧
      m3.callStack = [{ scenario := sampleScenario, ip := 3, frameType := .TYPE_ROOT }] := by
  obtain ⟨m3, h1, h2, h3, -⟩ := executeUntilHalted_reaches_end sampleConfig sampleWorld
    { sampleMachine with modules := fun k =>
        if k = 1 ∧ (sampleMachine.modules 1).isNone then some sampleModule
        else sampleMachine.modules k }
    sampleScenario .TYPE_ROOT sampleGoto sampleModule .Entrypoint_ .Line_ 0 7
    rfl rfl rfl rfl rfl (fun _ => rfl)
  exact ⟨_, m3, rfl, h1, h2, h3⟩

/-! ## C21: the call stack written by save -/

/-- C21: `save` of the machine writes the line number, then the pruned stack: the
frames of the call stack from the bottom up to, but not including, the first
LongOperation frame. The pruned stack is an initial run of the call stack that ends at the
end of the stack or in front of a LongOperation frame, it holds no LongOperation frame,
every initial run of the call stack without LongOperation frame is an initial run of it,
and it is the whole call stack when that has no LongOperation frame. -/
theorem saved_stack_is_longest_run (H : Host) (machine : RLMachine) :
    saveMachine H machine =
      .int (lineNumber H machine) :: .count (prunedStack machine).length ::
        (prunedStack machine).flatMap saveStackFrame ∧
    (∃ rest, machine.callStack = prunedStack machine ++ rest ∧
      ∀ f, rest.head? = some f → f.frameType = .TYPE_LONGOP) ∧
    (∀ f ∈ prunedStack machine, f.frameType ≠ .TYPE_LONGOP) ∧
    (∀ pre rest, machine.callStack = pre ++ rest →
      (∀ f ∈ pre, f.frameType ≠ .TYPE_LONGOP) → ∃ more, prunedStack machine = pre ++ more) ∧
    ((∀ f ∈ machine.callStack, f.frameType ≠ .TYPE_LONGOP) →
      prunedStack machine = machine.callStack) := by
  refine ⟨by simp [saveMachine], ?_, ?_, ?_, ?_⟩
  · obtain ⟨rest, h1, h2⟩ :=
      copy_until_split (fun f => f.frameType == .TYPE_LONGOP) machine.callStack
    refine ⟨rest, ?_, ?_⟩
    · rw [prunedStack_eq]; exact h1
    · intro f hf
      exact (isLongOperation_true f).1 (h2 f hf)
  · intro f hf
    rw [prunedStack_eq] at hf
    exact (isLongOperation_false f).1 (copy_until_false _ _ f hf)
  · intro pre rest hcs hpre
    rw [prunedStack_eq, hcs]
    exact copy_until_longest _ pre rest (fun f hf => (isLongOperation_false f).2 (hpre f hf))
  · intro h
    rw [prunedStack_eq]
    exact copy_until_all _ _ (fun f hf => (isLongOperation_false f).2 (h f hf))

/-- C21, on the machine of the sample process, whose call stack is
`[Root, Gosub, LongOperation]`: two frames are written. -/
theorem saved_stack_is_longest_run_witness :
    (prunedStack sampleProcess.machine).map StackFrame.stored =
      [(1, 0, .TYPE_ROOT), (1, 2, .TYPE_GOSUB)] ∧
    (saveMachine sampleHost sampleProcess.machine =
      .int (lineNumber sampleHost sampleProcess.machine) ::
        .count (prunedStack sampleProcess.machine).length ::
        (prunedStack sampleProcess.machine).flatMap saveStackFrame ∧
    (∃ rest, sampleProcess.machine.callStack = prunedStack sampleProcess.machine ++ rest ∧
      ∀ f, rest.head? = some f → f.frameType = .TYPE_LONGOP) ∧
    (∀ f ∈ prunedStack sampleProcess.machine, f.frameType ≠ .TYPE_LONGOP) ∧
    (∀ pre rest, sampleProcess.machine.callStack = pre ++ rest →
      (∀ f ∈ pre, f.frameType ≠ .TYPE_LONGOP) →
      ∃ more, prunedStack sampleProcess.machine = pre ++ more) ∧
    ((∀ f ∈ sampleProcess.machine.callStack, f.frameType ≠ .TYPE_LONGOP) →
      prunedStack sampleProcess.machine = sampleProcess.machine.callStack)) :=
  ⟨by decide, saved_stack_is_longest_run sampleHost sampleProcess.machine⟩

/-! ## C22: save then load keeps the position and the local memory -/

/-- C22: let the call stack of the machine hold no LongOperation frame and let its frames
lie within their scenarios. Then `saveGameTo` on a new stream returns, and `loadGameFrom`
on what it wrote, into a machine with the same archive, returns with the top frame on the
same scenario number and offset (the whole call stack is the one that was saved) and with
the local memory that was saved. -/
theorem save_then_load_restores (H : Host) (p q : Process)
    (hno : ∀ f ∈ p.machine.callStack, f.frameType ≠ .TYPE_LONGOP)
    (hwithin : ∀ f ∈ p.machine.callStack, f.Within p.machine.archive)
    (harchive : q.machine.archive = p.machine.archive)
    (hextents : p.localMemory.SameExtents q.localMemory) :
    ∃ written p1 q1, saveGameTo H [] p = .ok written p1 ∧
      loadGameFrom H written q = .ok () q1 ∧
      q1.machine.callStack.getLast?.map (fun f => (f.scenario.sceneNumber, f.ip)) =
        p.machine.callStack.getLast?.map (fun f => (f.scenario.sceneNumber, f.ip)) ∧
      q1.machine.callStack = p.machine.callStack ∧
      q1.localMemory = p.localMemory := by
  have hpruned : prunedStack p.machine = p.machine.callStack := by
    rw [prunedStack_eq]
    exact copy_until_all _ _ (fun f hf => (isLongOperation_false f).2 (hno f hf))
  have hload := loadGameFrom_spec H p.system.windowSubtitle H.now p.localMemory
    (lineNumber H p.machine) (prunedStack p.machine) [] q hextents
    (by rw [hpruned, harchive]; exact hwithin)
  rw [← List.nil_append (Item.signature :: _)] at hload
  refine ⟨_, _, _, saveGameTo_apply H [] p, hload, ?_, ?_, ?_⟩
  · simp only [hpruned]
  · simp only [hpruned]
  · rfl

/-- C22, on a process like the sample one whose call stack is `[Root, Gosub]`, loaded
into the sample process with another content of `intA`. -/
theorem save_then_load_restores_witness :
    (∀ f ∈ (sampleStack.take 2), f.frameType ≠ .TYPE_LONGOP) ∧
    ∃ written p1 q1,
      saveGameTo sampleHost []
        { sampleProcess with machine :=
            { sampleProcess.machine with callStack := sampleStack.take 2 } } =
          .ok written p1 ∧
      loadGameFrom sampleHost written
        { sampleProcess with localMemory := { sampleLocalMemory with intA := [0, 0] } } =
          .ok () q1 ∧
      q1.machine.callStack.getLast?.map (fun f => (f.scenario.sceneNumber, f.ip)) =
        (sampleStack.take 2).getLast?.map (fun f => (f.scenario.sceneNumber, f.ip)) ∧
      q1.machine.callStack = sampleStack.take 2 ∧
      q1.localMemory = sampleLocalMemory :=
  ⟨by decide,
    save_then_load_restores sampleHost
      { sampleProcess with machine :=
          { sampleProcess.machine with callStack := sampleStack.take 2 } }
      { sampleProcess with localMemory := { sampleLocalMemory with intA := [0, 0] } }
      (by decide)
      (by
        intro f hf
        simp only [sampleStack, List.take, List.mem_cons, List.mem_nil_iff, or_false] at hf
        rcases hf with rfl | rfl <;> exact ⟨rfl, by decide⟩)
      rfl
      ⟨rfl, rfl, rfl, rfl, rfl, rfl, rfl, rfl, rfl⟩⟩

/-! ## C23: save then load yields the pruned stack -/

/-- C23: let the frames of the call stack lie within their scenarios. Then `saveGameTo`
on a new stream returns, and `loadGameFrom` on what it wrote, into a machine with the same
archive, returns with a call stack equal to the pruned stack, frame by frame in scenario
number, offset and frame type. A stack `[Root, Gosub, LongOperation]` is restored as the
stack of its Root and Gosub frames. -/
theorem save_then_load_yields_pruned (H : Host) (p q : Process)
    (hwithin : ∀ f ∈ p.machine.callStack, f.Within p.machine.archive)
    (harchive : q.machine.archive = p.machine.archive)
    (hextents : p.localMemory.SameExtents q.localMemory) :
    ∃ written p1 q1, saveGameTo H [] p = .ok written p1 ∧
      loadGameFrom H written q = .ok () q1 ∧
      q1.machine.callStack = prunedStack p.machine ∧
      q1.machine.callStack.map StackFrame.stored =
        (prunedStack p.machine).map StackFrame.stored ∧
      (∀ root gosub longOperation, p.machine.callStack = [root, gosub, longOperation] →
        root.frameType = .TYPE_ROOT → gosub.frameType = .TYPE_GOSUB →
        longOperation.frameType = .TYPE_LONGOP →
        q1.machine.callStack = [root, gosub]) := by
  have hload := loadGameFrom_spec H p.system.windowSubtitle H.now p.localMemory
    (lineNumber H p.machine) (prunedStack p.machine) [] q hextents
    (by
      intro f hf
      rw [harchive]
      exact hwithin f (prunedStack_sublist p.machine f hf))
  rw [← List.nil_append (Item.signature :: _)] at hload
  refine ⟨_, _, _, saveGameTo_apply H [] p, hload, rfl, rfl, ?_⟩
  intro root gosub longOperation hcs hr hg hl
  simp only []
  rw [prunedStack_eq, hcs]
  simp [copy_until, hr, hg, hl]

/-- C23, on the sample process, whose call stack is `[Root, Gosub, LongOperation]`, loaded
into a process whose machine is newly constructed on the same archive. -/
theorem save_then_load_yields_pruned_witness :
    ∃ written p1 q1, saveGameTo sampleHost [] sampleProcess = .ok written p1 ∧
      loadGameFrom sampleHost written { sampleProcess with machine := sampleMachine } =
        .ok () q1 ∧
      q1.machine.callStack = prunedStack sampleProcess.machine ∧
      q1.machine.callStack.map StackFrame.stored =
        (prunedStack sampleProcess.machine).map StackFrame.stored ∧
      (∀ root gosub longOperation,
        sampleProcess.machine.callStack = [root, gosub, longOperation] →
        root.frameType = .TYPE_ROOT → gosub.frameType = .TYPE_GOSUB →
        longOperation.frameType = .TYPE_LONGOP →
        q1.machine.callStack = [root, gosub]) :=
  save_then_load_yields_pruned sampleHost sampleProcess
    { sampleProcess with machine := sampleMachine }
    (by
      intro f hf
      simp only [sampleProcess, sampleStack, List.mem_cons, List.mem_nil_iff, or_false] at hf
      rcases hf with rfl | rfl | rfl <;> exact ⟨rfl, by decide⟩)
    rfl
    ⟨rfl, rfl, rfl, rfl, rfl, rfl, rfl, rfl, rfl⟩

/-! ## C24: loading a stored frame -/

/-- C24: while `g_currentMachine` points to the machine, `load` of a frame stored as
scenario number `n`, offset `k` and frame type `t` throws when the archive has no scenario
`n` and throws when `k` is negative or larger than the number of elements of scenario `n`;
otherwise it yields the frame on scenario `n` of the archive at position `k` with frame
type `t`. -/
theorem loadStackFrame_contract (n k : Int) (t : FrameType) (rest : List Item) (p : Process)
    (hp : p.g_currentMachine = .addressOfMachine) :
    (p.machine.archive.scenario n = none →
      loadStackFrame { iss := .int n :: .int k :: .frameType t :: rest, process := p } =
        .thrown (.unknownSeen n) { iss := rest, process := p }) ∧
    (∀ scenario, p.machine.archive.scenario n = some scenario →
      (k < 0 ∨ k > scenario.size) →
      loadStackFrame { iss := .int n :: .int k :: .frameType t :: rest, process := p } =
        .thrown (.illegalOffset k n) { iss := rest, process := p }) ∧
    (∀ scenario, p.machine.archive.scenario n = some scenario →
      0 ≤ k → k ≤ scenario.size →
      ∃ frame,
        loadStackFrame { iss := .int n :: .int k :: .frameType t :: rest, process := p } =
          .ok frame { iss := rest, process := p } ∧
        frame.scenario = scenario ∧ (frame.ip : Int) = k ∧ frame.frameType = t) := by
  have h := loadStackFrame_items n k t rest p hp
  refine ⟨?_, ?_, ?_⟩
  · intro hs
    rw [h, hs]
  · intro scenario hs hk
    have hc : k > scenario.size ∨ k < 0 := by omega
    rw [h, hs]
    simp only [hc, if_true]
  · intro scenario hs h0 h1
    have hc : ¬ (k > scenario.size ∨ k < 0) := by omega
    refine ⟨{ scenario := scenario, ip := k.toNat, frameType := t }, ?_, rfl, ?_, rfl⟩
    · rw [h, hs]
      simp only [hc, if_false]
    · simp only []
      omega

/-- C24, on the sample archive, which holds a scenario of three elements under number 1:
offset 3 is accepted. -/
theorem loadStackFrame_contract_witness :
    sampleProcessInLoad.g_currentMachine = .addressOfMachine ∧
    sampleProcessInLoad.machine.archive.scenario 1 = some sampleScenario ∧
    sampleScenario.size = 3 ∧
    ((sampleProcessInLoad.machine.archive.scenario 1 = none →
      loadStackFrame
          { iss := [.int 1, .int 3, .frameType .TYPE_GOSUB], process := sampleProcessInLoad } =
        .thrown (.unknownSeen 1) { iss := [], process := sampleProcessInLoad }) ∧
    (∀ scenario, sampleProcessInLoad.machine.archive.scenario 1 = some scenario →
      ((3 : Int) < 0 ∨ (3 : Int) > scenario.size) →
      loadStackFrame
          { iss := [.int 1, .int 3, .frameType .TYPE_GOSUB], process := sampleProcessInLoad } =
        .thrown (.illegalOffset 3 1) { iss := [], process := sampleProcessInLoad }) ∧
    (∀ scenario, sampleProcessInLoad.machine.archive.scenario 1 = some scenario →
      (0 : Int) ≤ 3 → (3 : Int) ≤ scenario.size →
      ∃ frame,
        loadStackFrame
            { iss := [.int 1, .int 3, .frameType .TYPE_GOSUB],
              process := sampleProcessInLoad } =
          .ok frame { iss := [], process := sampleProcessInLoad } ∧
        frame.scenario = scenario ∧ (frame.ip : Int) = 3 ∧ frame.frameType = .TYPE_GOSUB)) :=
  ⟨rfl, rfl, rfl,
    loadStackFrame_contract 1 3 .TYPE_GOSUB [] sampleProcessInLoad rfl⟩

/-! ## C25: a load that fails -/

/-- C25 fails as stated: `loadGameFrom` on a saved game whose second stored frame names
scenario 99, which the archive does not hold, throws and leaves a call stack of one frame
where there were three, another line number, another local memory and another state of
`System`. -/
theorem loadGameFrom_failure_mutates :
    ∃ q, loadGameFrom sampleHost sampleCorruptSave sampleProcess =
        .thrown (.unknownSeen 99) q ∧
      (sampleProcess.machine.callStack.length = 3 ∧ q.machine.callStack.length = 1) ∧
      (sampleProcess.machine.m_line = some 7 ∧ q.machine.m_line = some 12) ∧
      (sampleProcess.localMemory.intA = [1, 2] ∧ q.localMemory.intA = [9, 9]) ∧
      (sampleProcess.system.state = [4, 2] ∧ q.system.state = []) :=
  ⟨_, loadGameFrom_sampleCorruptSave, ⟨rfl, rfl⟩, ⟨rfl, rfl⟩, ⟨rfl, rfl⟩, ⟨rfl, rfl⟩⟩

/-- C25, amended: when `loadGameFrom` reads a saved game in which the frames `good` can be
loaded and the frame stored behind them names an unknown scenario or an illegal offset,
it throws, and the machine is left as the load had made it by then: the state of `System`
is the reset one, the local memory and the line number are the stored ones, the call
stack holds the frames `good` and nothing else of the machine has changed. -/
theorem failed_load_keeps_what_was_loaded (H : Host) (title : String) (time : Int)
    (M : LocalMemory) (line : Int) (good : List StackFrame) (extra : Nat) (n k : Int)
    (t : FrameType) (rest : List Item) (p : Process)
    (hM : M.SameExtents p.localMemory) (hgood : ∀ f ∈ good, f.Within p.machine.archive)
    (hbad : ∀ scenario, p.machine.archive.scenario n = some scenario →
      k > scenario.size ∨ k < 0) :
    loadGameFrom H (.signature :: .str title :: .time time ::
        (saveLocalMemory M ++ (.int line :: .count (good.length + 1 + extra) ::
          (good.flatMap saveStackFrame ++ (.int n :: .int k :: .frameType t :: rest))))) p =
      .thrown (if (p.machine.archive.scenario n).isNone then .unknownSeen n
               else .illegalOffset k n)
        { machine := { p.machine with m_line := some line, callStack := good },
          localMemory := M,
          system := H.reset p.system,
          g_currentMachine := .addressOfMachine } :=
  loadGameFrom_failure H title time M line good extra n k t rest p hM hgood hbad

/-- C25, amended, on a saved game with one good frame and a frame at offset 4 of the
sample scenario, which has three elements. -/
theorem failed_load_keeps_what_was_loaded_witness :
    loadGameFrom sampleHost (.signature :: .str "chapter 2" :: .time 0 ::
        (saveLocalMemory sampleLocalMemory ++ (.int 12 ::
          .count ((sampleStack.take 1).length + 1 + 0) ::
          ((sampleStack.take 1).flatMap saveStackFrame ++
            (.int 1 :: .int 4 :: .frameType .TYPE_GOSUB :: []))))) sampleProcess =
      .thrown (if (sampleProcess.machine.archive.scenario 1).isNone then .unknownSeen 1
               else .illegalOffset 4 1)
        { machine := { sampleProcess.machine with
            m_line := some 12, callStack := sampleStack.take 1 },
          localMemory := sampleLocalMemory,
          system := sampleHost.reset sampleProcess.system,
          g_currentMachine := .addressOfMachine } :=
  failed_load_keeps_what_was_loaded sampleHost "chapter 2" 0 sampleLocalMemory 12
    (sampleStack.take 1) 0 1 4 .TYPE_GOSUB [] sampleProcess
    ⟨rfl, rfl, rfl, rfl, rfl, rfl, rfl, rfl, rfl⟩
    (by
      intro f hf
      simp only [sampleStack, List.take, List.mem_cons, List.mem_nil_iff, or_false] at hf
      rcases hf with rfl
      exact ⟨rfl, by decide⟩)
    (by
      intro scenario hs
      have h1 : sampleProcess.machine.archive.scenario 1 = some sampleScenario := rfl
      rw [h1] at hs
      cases hs
      decide)

/-! ## C26: the pointer to the current machine -/

/-- C26 fails on the code: `g_currentMachine` is `NULL` before the call of `loadGameFrom`
on a saved game whose second stored frame names scenario 99, the call throws, and at the
throw `g_currentMachine` points to the machine. -/
theorem loadGameFrom_throw_keeps_pointer :
    sampleProcess.g_currentMachine = .NULL ∧
    (loadGameFrom sampleHost sampleCorruptSave sampleProcess).exn? =
      some (.unknownSeen 99) ∧
    (loadGameFrom sampleHost sampleCorruptSave sampleProcess).state?.map
      (fun q => q.g_currentMachine) = some .addressOfMachine := by
  rw [loadGameFrom_sampleCorruptSave]
  exact ⟨rfl, rfl, rfl⟩

/-! ## C27: what the pruned stack omits -/

/-- C27 fails as stated: of the call stack `[Root, LongOperation, Gosub]` only the Root
frame is saved, while the stack has no trailing LongOperation frame: the Gosub frame is
not saved. -/
theorem pruned_stack_omits_frame_above_long_operation :
    (prunedStack { sampleMachine with callStack := sampleStackLongOperationBelow }).map
        StackFrame.stored = [(1, 0, .TYPE_ROOT)] ∧
    (sampleStackLongOperationBelow.rdropWhile
        (fun f => f.frameType == .TYPE_LONGOP)).map StackFrame.stored =
      [(1, 0, .TYPE_ROOT), (1, 1, .TYPE_LONGOP), (1, 2, .TYPE_GOSUB)] := by
  constructor <;> decide

/-- C27, amended: the pruned stack is the call stack cut at its first LongOperation frame:
the frames below that frame are saved, in order, and that frame and the frames above it
are omitted. When every frame from the first LongOperation frame up is a LongOperation
frame, the pruned stack is the call stack without its trailing LongOperation frames. -/
theorem pruned_stack_cut_at_first_long_operation (machine : RLMachine) :
    ∃ rest, machine.callStack = prunedStack machine ++ rest ∧
      (∀ f ∈ prunedStack machine, f.frameType ≠ .TYPE_LONGOP) ∧
      (∀ f, rest.head? = some f → f.frameType = .TYPE_LONGOP) ∧
      ((∀ f ∈ rest, f.frameType = .TYPE_LONGOP) →
        prunedStack machine =
          machine.callStack.rdropWhile (fun f => f.frameType == .TYPE_LONGOP)) := by
  obtain ⟨rest, h1, h2⟩ :=
    copy_until_split (fun f => f.frameType == .TYPE_LONGOP) machine.callStack
  have hfalse := copy_until_false (fun f => f.frameType == .TYPE_LONGOP) machine.callStack
  rw [← prunedStack_eq] at h1 hfalse
  refine ⟨rest, h1, ?_, ?_, ?_⟩
  · intro f hf
    exact (isLongOperation_false f).1 (hfalse f hf)
  · intro f hf
    exact (isLongOperation_true f).1 (h2 f hf)
  · intro hrest
    have h3 := rdropWhile_append_all (fun f => f.frameType == .TYPE_LONGOP)
      (prunedStack machine) rest (fun f hf => (isLongOperation_true f).2 (hrest f hf))
    rw [← h1, rdropWhile_of_false _ _ hfalse] at h3
    exact h3.symm

/-- C27, amended, on the machine of the sample process, whose call stack is
`[Root, Gosub, LongOperation]`. -/
theorem pruned_stack_cut_at_first_long_operation_witness :
    (sampleProcess.machine.callStack.rdropWhile
        (fun f => f.frameType == .TYPE_LONGOP)).map StackFrame.stored =
      [(1, 0, .TYPE_ROOT), (1, 2, .TYPE_GOSUB)] ∧
    ∃ rest, sampleProcess.machine.callStack = prunedStack sampleProcess.machine ++ rest ∧
      (∀ f ∈ prunedStack sampleProcess.machine, f.frameType ≠ .TYPE_LONGOP) ∧
      (∀ f, rest.head? = some f → f.frameType = .TYPE_LONGOP) ∧
      ((∀ f ∈ rest, f.frameType = .TYPE_LONGOP) →
        prunedStack sampleProcess.machine =
          sampleProcess.machine.callStack.rdropWhile
            (fun f => f.frameType == .TYPE_LONGOP)) :=
  ⟨by decide, pruned_stack_cut_at_first_long_operation sampleProcess.machine⟩

/-! ## C28: the contract of `LazyArray::operator[]` -/

/-- C28: on an array that satisfies the class invariant, `operator[](pos)` throws
`out_of_range` exactly when `pos < 0` or `pos >= size()`. Otherwise it returns the element
of slot `pos` and leaves the size and every other slot unchanged; when the slot was
unallocated the element is a newly default-constructed one, when it was allocated the
element is the one that was there and the array is not changed at all; a second access
returns the same element and changes nothing. -/
theorem index_contract {T : Type} (dflt : T) (a : LazyArray T) (pos : Int) (hv : a.Valid) :
    ((LazyArray.index dflt pos a).exn? = some .out_of_range ↔ (pos < 0 ∨ pos ≥ a.size)) ∧
    (¬ (pos < 0 ∨ pos ≥ a.size) →
      ∃ v b, LazyArray.index dflt pos a = .ok v b ∧
        b.size = a.size ∧ b.m_array.length = a.m_array.length ∧
        b.m_array[pos.toNat]? = some (some v) ∧
        (∀ j, j ≠ pos.toNat → b.m_array[j]? = a.m_array[j]?) ∧
        (a.allocated pos.toNat = false → v = dflt) ∧
        (a.allocated pos.toNat = true → a.m_array[pos.toNat]? = some (some v) ∧ b = a) ∧
        LazyArray.index dflt pos b = .ok v b) := by
  obtain ⟨h0, hlen⟩ := hv
  constructor
  · constructor
    · intro h
      by_contra hin
      have hin2 : ¬ (pos < 0 ∨ pos ≥ a.m_size) := hin
      have hlt : pos.toNat < a.m_array.length := by
        unfold LazyArray.size at hin; omega
      unfold LazyArray.index at h
      rw [if_neg hin2, List.getElem?_eq_getElem hlt] at h
      cases hs : a.m_array[pos.toNat] with
      | none => rw [hs] at h; cases h
      | some w => rw [hs] at h; cases h
    · intro h
      have h2 : pos < 0 ∨ pos ≥ a.m_size := h
      unfold LazyArray.index
      rw [if_pos h2]
      rfl
  · intro hin
    have hin2 : ¬ (pos < 0 ∨ pos ≥ a.m_size) := hin
    have hlt : pos.toNat < a.m_array.length := by
      unfold LazyArray.size at hin; omega
    cases hs : a.m_array[pos.toNat] with
    | none =>
      have hget : a.m_array[pos.toNat]? = some none := by
        rw [List.getElem?_eq_getElem hlt, hs]
      refine ⟨dflt, { a with m_array := a.m_array.set pos.toNat (some dflt) }, ?_, rfl,
        by simp, ?_, ?_, fun _ => rfl, ?_, ?_⟩
      · unfold LazyArray.index
        rw [if_neg hin2, hget]
      · simp [List.getElem?_set, hlt]
      · intro j hj
        simp [List.getElem?_set, Ne.symm hj]
      · intro hal
        unfold LazyArray.allocated at hal
        rw [hget] at hal
        cases hal
      · unfold LazyArray.index
        have hin3 : ¬ (pos < 0 ∨ pos ≥ a.m_size) := hin
        simp only [hin3, if_false]
        simp [List.getElem?_set, hlt]
    | some w =>
      have hget : a.m_array[pos.toNat]? = some (some w) := by
        rw [List.getElem?_eq_getElem hlt, hs]
      have hidx : LazyArray.index dflt pos a = .ok w a := by
        unfold LazyArray.index
        rw [if_neg hin2, hget]
      refine ⟨w, a, hidx, rfl, rfl, hget, fun _ _ => rfl, ?_, fun _ => ⟨hget, rfl⟩, hidx⟩
      intro hal
      unfold LazyArray.allocated at hal
      rw [hget] at hal
      cases hal

/-- C28, at slot 0 (unallocated) of the sample array. -/
theorem index_contract_witness :
    sampleLazyArray.Valid ∧
    (((LazyArray.index 0 0 sampleLazyArray).exn? = some .out_of_range ↔
        ((0 : Int) < 0 ∨ (0 : Int) ≥ sampleLazyArray.size)) ∧
    (¬ ((0 : Int) < 0 ∨ (0 : Int) ≥ sampleLazyArray.size) →
      ∃ v b, LazyArray.index 0 0 sampleLazyArray = .ok v b ∧
        b.size = sampleLazyArray.size ∧
        b.m_array.length = sampleLazyArray.m_array.length ∧
        b.m_array[(0 : Int).toNat]? = some (some v) ∧
        (∀ j, j ≠ (0 : Int).toNat → b.m_array[j]? = sampleLazyArray.m_array[j]?) ∧
        (sampleLazyArray.allocated (0 : Int).toNat = false → v = 0) ∧
        (sampleLazyArray.allocated (0 : Int).toNat = true →
          sampleLazyArray.m_array[(0 : Int).toNat]? = some (some v) ∧
          b = sampleLazyArray) ∧
        LazyArray.index 0 0 b = .ok v b)) :=
  ⟨⟨by decide, by decide⟩, index_contract 0 sampleLazyArray 0 ⟨by decide, by decide⟩⟩

/-! ## C29: iteration over the allocated slots -/

/-- C29: on an array that satisfies the class invariant, whatever the word behind the
array holds and with enough fuel for the loops, the iteration from `allocated_begin()` to
`allocated_end()` ends and visits positions in strictly increasing order, and a position
is visited exactly when it is in `[0, size())` and its slot is allocated. For an array
with no allocated slot `allocated_begin()` equals `allocated_end()`; this is so for the
array after `clear()` and for a newly constructed array. -/
theorem allocated_iteration_visits_allocated {T : Type} (pastEnd : Int → Bool)
    (a : LazyArray T) (fuel : Nat) (hv : a.Valid) (hfuel : a.m_size.toNat < fuel) :
    (∃ l, a.allocatedPositions pastEnd fuel = some l ∧ l.Pairwise (· < ·) ∧
      ∀ p : Int, p ∈ l ↔ (0 ≤ p ∧ p < a.size ∧ a.allocated p.toNat = true)) ∧
    ((∀ i : Nat, (i : Int) < a.size → a.allocated i = false) →
      ∃ it, a.allocated_begin pastEnd fuel = some it ∧ it.equal a.allocated_end = true) ∧
    (∃ b, LazyArray.clear a = .ok () b ∧
      ∃ it, b.allocated_begin pastEnd fuel = some it ∧ it.equal b.allocated_end = true) ∧
    (∀ n : Int, 0 ≤ n → n.toNat < fuel →
      ∃ b : LazyArray T, LazyArray.create n () = .ok b () ∧
        ∃ it, b.allocated_begin pastEnd fuel = some it ∧
          it.equal b.allocated_end = true) := by
  have h0 := hv.1
  have hlen := hv.2
  refine ⟨?_, ?_, ?_, ?_⟩
  · obtain ⟨j, hb, h1, h2, h3⟩ := allocated_begin_spec pastEnd a hv fuel hfuel
    obtain ⟨l, hl, hpw, hmem⟩ :=
      visitFrom_spec pastEnd a hv fuel hfuel (a.m_size.toNat - j) j fuel (by omega)
        (by omega) h3
    refine ⟨l, ?_, hpw, ?_⟩
    · unfold LazyArray.allocatedPositions
      rw [hb]
      exact hl
    · intro p
      rw [hmem p]
      unfold LazyArray.size
      constructor
      · rintro ⟨k, rfl, _, hk2, hk3⟩
        exact ⟨by omega, by omega, by simpa using hk3⟩
      · rintro ⟨hp1, hp2, hp3⟩
        refine ⟨p.toNat, by omega, ?_, by omega, hp3⟩
        by_contra hlt
        rw [h2 p.toNat (by omega)] at hp3
        cases hp3
  · intro hnone
    exact ⟨a.allocated_end, allocated_begin_of_none pastEnd a hv fuel hfuel hnone,
      by simp [AllocatedLazyArrayIterator.equal]⟩
  · have hle : a.m_size ≤ (a.m_array.length : Int) := hlen
    refine ⟨{ a with m_array :=
        List.replicate a.m_size.toNat none ++ a.m_array.drop a.m_size.toNat }, ?_, ?_⟩
    · unfold LazyArray.clear
      rw [if_pos hle]
    · refine ⟨_, allocated_begin_of_none pastEnd _ ?_ fuel hfuel ?_,
        by simp [AllocatedLazyArrayIterator.equal]⟩
      · refine ⟨h0, ?_⟩
        simp only [List.length_append, List.length_replicate, List.length_drop]
        omega
      · intro i hi
        exact allocated_replicate _ a.m_size.toNat _ rfl i
          (by unfold LazyArray.size at hi; simp only at hi; omega)
  · intro n hn hnf
    refine ⟨{ m_size := n, m_array := List.replicate n.toNat none }, ?_, ?_⟩
    · unfold LazyArray.create
      rw [if_neg (by omega)]
    · refine ⟨_, allocated_begin_of_none pastEnd _ ?_ fuel hnf ?_,
        by simp [AllocatedLazyArrayIterator.equal]⟩
      · refine ⟨hn, ?_⟩
        simp only [List.length_replicate]
        omega
      · intro i hi
        exact allocated_replicate _ n.toNat [] (by simp) i
          (by unfold LazyArray.size at hi; simp only at hi; omega)

/-- C29, on the sample array: the iteration visits positions 1 and 3. -/
theorem allocated_iteration_visits_allocated_witness :
    sampleLazyArray.Valid ∧ sampleLazyArray.m_size.toNat < 5 ∧
    sampleLazyArray.allocatedPositions (fun _ => true) 5 = some [1, 3] ∧
    ((∃ l, sampleLazyArray.allocatedPositions (fun _ => true) 5 = some l ∧
      l.Pairwise (· < ·) ∧
      ∀ p : Int, p ∈ l ↔
        (0 ≤ p ∧ p < sampleLazyArray.size ∧ sampleLazyArray.allocated p.toNat = true)) ∧
    ((∀ i : Nat, (i : Int) < sampleLazyArray.size → sampleLazyArray.allocated i = false) →
      ∃ it, sampleLazyArray.allocated_begin (fun _ => true) 5 = some it ∧
        it.equal sampleLazyArray.allocated_end = true) ∧
    (∃ b, LazyArray.clear sampleLazyArray = .ok () b ∧
      ∃ it, b.allocated_begin (fun _ => true) 5 = some it ∧
        it.equal b.allocated_end = true) ∧
    (∀ n : Int, 0 ≤ n → n.toNat < 5 →
      ∃ b : LazyArray Nat, LazyArray.create n () = .ok b () ∧
        ∃ it, b.allocated_begin (fun _ => true) 5 = some it ∧
          it.equal b.allocated_end = true)) :=
  ⟨⟨by decide, by decide⟩, by decide, by decide,
    allocated_iteration_visits_allocated (fun _ => true) sampleLazyArray 5
      ⟨by decide, by decide⟩ (by decide)⟩

/-! ## C30: laziness is not observable through element access -/

/-- C30: every sequence of in-range reads and writes made through `operator[]` on a newly
constructed `LazyArray` of size `n` returns normally and observes the values that the same
sequence observes on an array of `n` eagerly default-constructed values. -/
theorem lazy_refines_eager {T : Type} (dflt : T) (n : Int) (ops : List (Access T))
    (hn : 0 ≤ n) (hops : ∀ op ∈ ops, 0 ≤ op.pos ∧ op.pos < n) :
    ∃ a : LazyArray T, LazyArray.create n () = .ok a () ∧
      (LazyArray.observe dflt ops a).isSome = true ∧
      LazyArray.observe dflt ops a = eagerObserve ops (List.replicate n.toNat dflt) := by
  refine ⟨{ m_size := n, m_array := List.replicate n.toNat none }, ?_, ?_⟩
  · unfold LazyArray.create
    rw [if_neg (by omega)]
  · have h := observe_simulation dflt n ops
      { m_size := n, m_array := List.replicate n.toNat none }
      (List.replicate n.toNat dflt) hops rfl
      (by simp only [List.length_replicate]; omega) (by simp)
    exact ⟨h.2, h.1⟩

/-- C30, for a read, a write and two reads on an array of three numbers. -/
theorem lazy_refines_eager_witness :
    (0 : Int) ≤ 3 ∧
    (∀ op ∈ [Access.read 0, Access.write 2 5, Access.read 2, Access.read 1],
      0 ≤ op.pos ∧ op.pos < 3) ∧
    eagerObserve [Access.read 0, Access.write 2 5, Access.read 2, Access.read 1]
      (List.replicate (3 : Int).toNat (0 : Nat)) = some [0, 5, 0] ∧
    ∃ a : LazyArray Nat, LazyArray.create 3 () = .ok a () ∧
      (LazyArray.observe 0 [Access.read 0, Access.write 2 5, Access.read 2, Access.read 1]
        a).isSome = true ∧
      LazyArray.observe 0 [Access.read 0, Access.write 2 5, Access.read 2, Access.read 1] a =
        eagerObserve [Access.read 0, Access.write 2 5, Access.read 2, Access.read 1]
          (List.replicate (3 : Int).toNat 0) :=
  ⟨by decide, by decide, by decide,
    lazy_refines_eager 0 3 [Access.read 0, Access.write 2 5, Access.read 2, Access.read 1]
      (by decide) (by decide)⟩

/-! ## C31: `for_each_if` -/

/-- C31: `for_each_if(first, last, pred, f)` does what applying `f` in order to the
subsequence of the elements that satisfy `pred` does, whatever `f` does; and the calls of
`f` it makes are, in this order, the calls on the elements of the range that satisfy
`pred`: one call for each of them and none for another element. -/
theorem for_each_if_applies_to_matching {σ α : Type} (pred : α → Bool) (f : α → Exec σ Unit)
    (l : List α) :
    for_each_if pred f l = applyInOrder f (l.filter pred) ∧
    (∀ calls, for_each_if pred recordCall l calls = .ok () (calls ++ l.filter pred)) := by
  refine ⟨for_each_if_eq_applyInOrder pred f l, ?_⟩
  intro calls
  rw [for_each_if_eq_applyInOrder, applyInOrder_recordCall]

/-- C31, on the range 1, 2, 3, 4, 6, 5 with the even numbers selected: `f` is called on 2,
4 and 6. -/
theorem for_each_if_applies_to_matching_witness :
    for_each_if (fun x => x % 2 == 0) recordCall [1, 2, 3, 4, 6, 5] [] = .ok () [2, 4, 6] ∧
    (for_each_if (fun x => x % 2 == 0) recordCall [1, 2, 3, 4, 6, 5] =
      applyInOrder recordCall ([1, 2, 3, 4, 6, 5].filter (fun x => x % 2 == 0)) ∧
    (∀ calls, for_each_if (fun x => x % 2 == 0) recordCall [1, 2, 3, 4, 6, 5] calls =
      .ok () (calls ++ [1, 2, 3, 4, 6, 5].filter (fun x => x % 2 == 0)))) :=
  ⟨rfl, for_each_if_applies_to_matching (fun x => x % 2 == 0) recordCall [1, 2, 3, 4, 6, 5]⟩

/-! ## C32: unpacking a packed module number -/

/-- C32: on every target the pair of module type 0 and module number 2 is packed as 2
and unpacked as type 0 and number 1, and the pair 3 and 0 is packed as 768 and unpacked as
type 3 and number 1, where the claim has the number 2 and the number 0 returned:
`unpackModuleNumber` computes the number as `packedModuleNumber && 0xFF`, which is 1 for
every key but 0. -/
theorem unpackModuleNumber_loses_number (K : Config) :
    packModuleNumber K 0 2 = 2 ∧ unpackModuleNumber (packModuleNumber K 0 2) = (0, 1) ∧
    packModuleNumber K 3 0 = 768 ∧ unpackModuleNumber (packModuleNumber K 3 0) = (3, 1) := by
  have h1 := packModuleNumber_bytes K 0 2 (by omega) (by omega)
  have h2 := packModuleNumber_bytes K 3 0 (by omega) (by omega)
  have h3 := unpack_pack_bytes K 0 2 (by omega) (by omega)
  have h4 := unpack_pack_bytes K 3 0 (by omega) (by omega)
  norm_num at h1 h2 h3 h4
  exact ⟨h1, h3, h2, h4⟩

/-! ## C33: the fields of a command header -/

/-- C33: for every command header, `modtype()` is byte 1, `module()` is byte 2,
`overload()` is byte 7, `opcode()` is byte 3 + 256 * byte 4 and `argc()` is
byte 5 + 256 * byte 6, both in `0..65535`; the key `packModuleNumber(modtype(), module())`
of the dispatch is 256 * byte 1 + byte 2 and lies in `0..65535`. -/
theorem command_header_fields (K : Config) (f : CommandElement) :
    f.modtype = ((f.command 1).val : Int) ∧ f.module = ((f.command 2).val : Int) ∧
    f.overload = ((f.command 7).val : Int) ∧
    f.opcode K = ((f.command 3).val : Int) + 256 * ((f.command 4).val : Int) ∧
    (0 ≤ f.opcode K ∧ f.opcode K ≤ 65535) ∧
    f.argc K = ((f.command 5).val : Int) + 256 * ((f.command 6).val : Int) ∧
    (0 ≤ f.argc K ∧ f.argc K ≤ 65535) ∧
    packModuleNumber K f.modtype f.module = 256 * (f.command 1).val + (f.command 2).val ∧
    packModuleNumber K f.modtype f.module ≤ 65535 := by
  have hop := header_word K (f.command 3) (f.command 4)
  have harg := header_word K (f.command 5) (f.command 6)
  have hkey := packModuleNumber_bytes K (f.command 1).val (f.command 2).val
    (f.command 1).isLt (f.command 2).isLt
  have h1 := (f.command 1).isLt
  have h2 := (f.command 2).isLt
  have h3 := (f.command 3).isLt
  have h4 := (f.command 4).isLt
  have h5 := (f.command 5).isLt
  have h6 := (f.command 6).isLt
  refine ⟨rfl, rfl, rfl, hop, ?_, harg, ?_, hkey, ?_⟩
  · unfold CommandElement.opcode; rw [hop]; omega
  · unfold CommandElement.argc; rw [harg]; omega
  · unfold CommandElement.modtype CommandElement.module; rw [hkey]; omega

/-- C33, on the header with the bytes 35, 1, 2, 3, 4, 5, 6, 7: opcode 3 + 256 * 4, argc
5 + 256 * 6 and key 256 * 1 + 2. -/
theorem command_header_fields_witness :
    (sampleCommand.opcode sampleConfig = 1027 ∧ sampleCommand.argc sampleConfig = 1541 ∧
      packModuleNumber sampleConfig sampleCommand.modtype sampleCommand.module = 258) ∧
    (sampleCommand.modtype = ((sampleCommand.command 1).val : Int) ∧
    sampleCommand.module = ((sampleCommand.command 2).val : Int) ∧
    sampleCommand.overload = ((sampleCommand.command 7).val : Int) ∧
    sampleCommand.opcode sampleConfig =
      ((sampleCommand.command 3).val : Int) + 256 * ((sampleCommand.command 4).val : Int) ∧
    (0 ≤ sampleCommand.opcode sampleConfig ∧ sampleCommand.opcode sampleConfig ≤ 65535) ∧
    sampleCommand.argc sampleConfig =
      ((sampleCommand.command 5).val : Int) + 256 * ((sampleCommand.command 6).val : Int) ∧
    (0 ≤ sampleCommand.argc sampleConfig ∧ sampleCommand.argc sampleConfig ≤ 65535) ∧
    packModuleNumber sampleConfig sampleCommand.modtype sampleCommand.module =
      256 * (sampleCommand.command 1).val + (sampleCommand.command 2).val ∧
    packModuleNumber sampleConfig sampleCommand.modtype sampleCommand.module ≤ 65535) :=
  ⟨⟨by decide, by decide, by decide⟩, command_header_fields sampleConfig sampleCommand⟩

/-! ## C34: distinct pairs have distinct keys -/

/-- C34: on byte-sized module types and numbers `packModuleNumber` is injective. So,
while every registered module is byte-sized and held under the key of its pair (which
`attachModule` keeps so), attaching a byte-sized module whose pair differs from the pair
of every registered module reports no clash and registers the module, and the module that
`executeCommand` selects for a command has the module type and module number of the
command. -/
theorem packModuleNumber_separates_pairs (K : Config) :
    (∀ t1 n1 t2 n2 : Int, 0 ≤ t1 ∧ t1 ≤ 255 → 0 ≤ n1 ∧ n1 ≤ 255 →
      0 ≤ t2 ∧ t2 ≤ 255 → 0 ≤ n2 ∧ n2 ≤ 255 →
      (t1, n1) ≠ (t2, n2) → packModuleNumber K t1 n1 ≠ packModuleNumber K t2 n2) ∧
    (∀ (m : RLMachine) (module : RLModule), ModulesKeyed K m → module.ByteSized →
      (∀ key other, m.modules key = some other →
        (other.moduleType, other.moduleNumber) ≠ (module.moduleType, module.moduleNumber)) →
      ∃ m1, attachModule K module m = .ok () m1 ∧ ModulesKeyed K m1 ∧
        m1.modules (packModuleNumber K module.moduleType module.moduleNumber) =
          some module) ∧
    (∀ (W : World) (m : RLMachine) (f : CommandElement) (it : RLModule),
      ModulesKeyed K m →
      m.modules (packModuleNumber K f.modtype f.module) = some it →
      executeCommand K W f m = W.dispatchFunction it f m ∧
        it.moduleType = f.modtype ∧ it.moduleNumber = f.module) := by
  refine ⟨?_, ?_, ?_⟩
  · intro t1 n1 t2 n2 h1 h2 h3 h4 hne heq
    obtain ⟨ht, hn⟩ := packModuleNumber_injective K t1 n1 t2 n2 h1 h2 h3 h4 heq
    exact hne (by rw [ht, hn])
  · intro m module hkeyed hbyte hfresh
    have hnone : m.modules (packModuleNumber K module.moduleType module.moduleNumber) =
        none := by
      cases hm : m.modules (packModuleNumber K module.moduleType module.moduleNumber) with
      | none => rfl
      | some other =>
        exfalso
        obtain ⟨hob, hkey⟩ := hkeyed _ other hm
        obtain ⟨ht, hn⟩ := packModuleNumber_injective K _ _ _ _
          ⟨hbyte.1, hbyte.2.1⟩ ⟨hbyte.2.2.1, hbyte.2.2.2⟩
          ⟨hob.1, hob.2.1⟩ ⟨hob.2.2.1, hob.2.2.2⟩ hkey
        exact hfresh _ other hm (by rw [ht, hn])
    refine ⟨_, attachModule_free K m module hnone, ?_, ?_⟩
    · intro key md hmd
      simp only at hmd
      by_cases hk : key = packModuleNumber K module.moduleType module.moduleNumber
      · rw [if_pos hk] at hmd
        cases hmd
        exact ⟨hbyte, hk⟩
      · rw [if_neg hk] at hmd
        exact hkeyed key md hmd
    · simp
  · intro W m f it hkeyed hit
    refine ⟨executeCommand_found K W m f it hit, ?_⟩
    obtain ⟨hob, hkey⟩ := hkeyed _ it hit
    have h1 := (f.command 1).isLt
    have h2 := (f.command 2).isLt
    obtain ⟨ht, hn⟩ := packModuleNumber_injective K f.modtype f.module it.moduleType
      it.moduleNumber
      ⟨by unfold CommandElement.modtype; omega, by unfold CommandElement.modtype; omega⟩
      ⟨by unfold CommandElement.module; omega, by unfold CommandElement.module; omega⟩
      ⟨hob.1, hob.2.1⟩ ⟨hob.2.2.1, hob.2.2.2⟩ hkey
    exact ⟨ht.symm, hn.symm⟩

/-- C34, on the sample machine, which has no module: the module of the pair 0:1 is
attached, the module of the pair 1:0 is attached after it without a clash, and the jump
command of module 0:1 is dispatched to the first. -/
theorem packModuleNumber_separates_pairs_witness :
    packModuleNumber sampleConfig 0 1 ≠ packModuleNumber sampleConfig 1 0 ∧
    ∃ m1 m2, attachModule sampleConfig sampleModule sampleMachine = .ok () m1 ∧
      attachModule sampleConfig sampleModuleOther m1 = .ok () m2 ∧
      ModulesKeyed sampleConfig m2 ∧
      m2.modules (packModuleNumber sampleConfig 1 0) = some sampleModuleOther ∧
      executeCommand sampleConfig sampleWorld sampleGoto m1 =
        sampleWorld.dispatchFunction sampleModule sampleGoto m1 ∧
      sampleModule.moduleType = sampleGoto.modtype ∧
      sampleModule.moduleNumber = sampleGoto.module := by
  have h := packModuleNumber_separates_pairs sampleConfig
  have hbyte1 : sampleModule.ByteSized := by
    unfold RLModule.ByteSized sampleModule; decide
  have hbyte2 : sampleModuleOther.ByteSized := by
    unfold RLModule.ByteSized sampleModuleOther; decide
  have hkeyed0 : ModulesKeyed sampleConfig sampleMachine := by
    intro key md hmd
    cases hmd
  refine ⟨h.1 0 1 1 0 (by decide) (by decide) (by decide) (by decide) (by decide), ?_⟩
  obtain ⟨m1, h1, hk1, hm1⟩ := h.2.1 sampleMachine sampleModule hkeyed0 hbyte1
    (by intro key other ho; cases ho)
  have hm1eq := attachModule_free sampleConfig sampleMachine sampleModule rfl
  rw [h1] at hm1eq
  cases hm1eq
  have hfresh : ∀ key other,
      (if key = packModuleNumber sampleConfig sampleModule.moduleType
          sampleModule.moduleNumber then some sampleModule
        else sampleMachine.modules key) = some other →
      (other.moduleType, other.moduleNumber) ≠
        (sampleModuleOther.moduleType, sampleModuleOther.moduleNumber) := by
    intro key other ho
    split at ho
    · cases ho; decide
    · cases ho
  obtain ⟨m2, h2, hk2, hm2⟩ := h.2.1 _ sampleModuleOther hk1 hbyte2 hfresh
  exact ⟨_, m2, h1, h2, hk2, hm2, h.2.2 sampleWorld _ sampleGoto sampleModule hk1 hm1⟩

/-! ## C35: an accepted bit-packed access stays inside the bank and inside one word -/

/-- C35: for a type code with a valid class index and the width selector `k + 1` in `1..6`
the factor computed is `f = 2 ^ k`, and for every location `L` that the range check
`uint(location) >= 64000 / factor` lets pass, `0 <= L < 64000 / f`, the word index
`L / (32 / f)` is in `0..1999` and the shift `(L mod (32 / f)) * f` is in `0..32 - f`:
`getIntValue` returns what it computes from that word of the bank with that shift, and
`setIntValue` returns and changes no other word. -/
theorem packed_access_stays_inside (K : Config) (m : RLMachine) (type L v : Int) (k : Nat)
    (hk : k ≤ 5) (hsel : Int.tdiv type 26 = k + 1)
    (h0 : 0 ≤ classIndex K type) (hN : classIndex K type < K.NUMBER_OF_INT_LOCATIONS)
    (hrows : K.NUMBER_OF_INT_LOCATIONS ≤ K.intVarRows)
    (hL : isInt32 L) (hpass : ¬ (toBits L ≥ toBits (64000 / 2 ^ k))) :
    cshl K.shlOver 1 (csub (Int.tdiv type 26) 1) = 2 ^ k ∧
    (0 ≤ L ∧ L < 64000 / 2 ^ k) ∧
    (0 ≤ L / (32 / 2 ^ k) ∧ L / (32 / 2 ^ k) < 2000) ∧
    (0 ≤ L % (32 / 2 ^ k) * 2 ^ k ∧ L % (32 / 2 ^ k) * 2 ^ k ≤ 32 - 2 ^ k) ∧
    getIntValue K type L m = .ok
      (cand (cshr K.shrOver (m.intVar (classIndex K type) (L / (32 / 2 ^ k)))
          (L % (32 / 2 ^ k) * 2 ^ k))
        (csub (cshl K.shlOver 1 (2 ^ k)) 1)) m ∧
    ∃ m1, setIntValue K type L v m = .ok () m1 ∧
      ∀ i j, ¬ (i = classIndex K type ∧ j = L / (32 / 2 ^ k)) →
        m1.intVar i j = m.intVar i j := by
  obtain ⟨hfe, hcap, helt⟩ := pow_facts k hk
  have hfac : cshl K.shlOver 1 (csub (Int.tdiv type 26) 1) = ((2 ^ k : Nat) : Int) := by
    rw [hsel]; exact factor_of_selector K k hk
  have hpk : ((2 ^ k : Nat) : Int) = (2 : Int) ^ k := by push_cast; rfl
  have hcap0 : (0 : Int) ≤ 64000 / 2 ^ k := Int.ediv_nonneg (by norm_num) (by positivity)
  have hcap1 : (64000 : Int) / 2 ^ k < 2147483648 := by
    have : (64000 : Int) / 2 ^ k ≤ 64000 :=
      Int.ediv_le_self _ (by norm_num)
    omega
  have hrange : 0 ≤ L ∧ L < 64000 / 2 ^ k := by
    have h := (toBits_lt_iff L (64000 / 2 ^ k) hL hcap0 hcap1).not.1 hpass
    omega
  have hL2 : L < 2000 * ((2 ^ (5 - k) : Nat) : Int) := by rw [← hcap]; exact hrange.2
  obtain ⟨_, _, _, _, hw0, hw1, hs0, hs1, _⟩ :=
    factor_facts (2 ^ k) (2 ^ (5 - k)) hfe L hrange.1 hL2
  have hsel0 : Int.tdiv type 26 ≠ 0 := by rw [hsel]; omega
  have hget := getIntValue_packed K m type L (2 ^ k) (2 ^ (5 - k)) h0 (le_of_lt hN)
    (by omega) hsel0 hfac hfe hrange.1 hL2
  have hset := setIntValue_packed K m type L v (2 ^ k) (2 ^ (5 - k)) h0 (le_of_lt hN)
    (by omega) hsel0 hfac hfe hrange.1 hL2
  rw [hpk] at hfac hget hset
  rw [helt]
  rw [hpk] at hs0 hs1
  refine ⟨hfac, hrange, ⟨hw0, hw1⟩, ⟨hs0, by omega⟩, hget, _, hset, ?_⟩
  intro i j hij
  simp only [hij, if_false]

/-- C35, on the sample target for the type code 78 (class A, width selector 3, factor 4)
and the last location of the view, 15999: word 1999 and shift 28. -/
theorem packed_access_stays_inside_witness :
    (15999 : Int) / (32 / 2 ^ 2) = 1999 ∧ (15999 : Int) % (32 / 2 ^ 2) * 2 ^ 2 = 28 ∧
    (cshl sampleConfig.shlOver 1 (csub (Int.tdiv 78 26) 1) = 2 ^ 2 ∧
    (0 ≤ (15999 : Int) ∧ (15999 : Int) < 64000 / 2 ^ 2) ∧
    (0 ≤ (15999 : Int) / (32 / 2 ^ 2) ∧ (15999 : Int) / (32 / 2 ^ 2) < 2000) ∧
    (0 ≤ (15999 : Int) % (32 / 2 ^ 2) * 2 ^ 2 ∧
      (15999 : Int) % (32 / 2 ^ 2) * 2 ^ 2 ≤ 32 - 2 ^ 2) ∧
    getIntValue sampleConfig 78 15999 sampleMachine = .ok
      (cand (cshr sampleConfig.shrOver
          (sampleMachine.intVar (classIndex sampleConfig 78) ((15999 : Int) / (32 / 2 ^ 2)))
          ((15999 : Int) % (32 / 2 ^ 2) * 2 ^ 2))
        (csub (cshl sampleConfig.shlOver 1 (2 ^ 2)) 1)) sampleMachine ∧
    ∃ m1, setIntValue sampleConfig 78 15999 3 sampleMachine = .ok () m1 ∧
      ∀ i j, ¬ (i = classIndex sampleConfig 78 ∧ j = (15999 : Int) / (32 / 2 ^ 2)) →
        m1.intVar i j = sampleMachine.intVar i j) :=
  ⟨by decide, by decide,
    packed_access_stays_inside sampleConfig sampleMachine 78 15999 3 2 (by decide)
      (by decide) (by decide) (by decide) (by decide) (by decide) (by decide)⟩

/-! ## C36: width selectors from 7 on -/

/-- C36: on the sample target the type code 182 has the valid class index 0 and the width
selector 7, the factor is `1 << 6 = 64` and the element size `32 / 64 = 0`; `getIntValue`
at the location 0, which passes the range check, evaluates `location / eltsize`, and
`setIntValue` evaluates `location % eltsize` ahead of its range check, at the location 0
and at the location 5000: each is a division by zero, where the claim has a normal return
or an index error. -/
theorem width_selector_7_divides_by_zero :
    classIndex sampleConfig 182 = 0 ∧ Int.tdiv 182 26 = 7 ∧
    getIntValue sampleConfig 182 0 sampleMachine = .undefined .divisionByZero ∧
    setIntValue sampleConfig 182 0 1 sampleMachine = .undefined .divisionByZero ∧
    setIntValue sampleConfig 182 5000 1 sampleMachine = .undefined .divisionByZero := by
  refine ⟨by decide, by decide, by rfl, by rfl, by rfl⟩

/-! ## C37: the bit-width views and the plain view -/

/-- C37: on the sample target (shift counts taken modulo 32), after word 0 of bank A was
set to 5 through the plain view (type code 0), the plain view returns 5 at word 0 and the
factor-32 view (type code 156: class A, width selector 6) returns 0 at location 0, where
the claim has bits 0 to 31 of the word returned: the mask `(1 << 32) - 1` is computed with
a shift count of 32. -/
theorem width32_view_differs_from_plain_view :
    classIndex sampleConfig 156 = classIndex sampleConfig 0 ∧ Int.tdiv 156 26 = 6 ∧
    ((setIntValue sampleConfig 0 0 5 >>= fun _ => getIntValue sampleConfig 0 0)
      sampleMachine).value? = some 5 ∧
    ((setIntValue sampleConfig 0 0 5 >>= fun _ => getIntValue sampleConfig 156 0)
      sampleMachine).value? = some 0 := by
  refine ⟨by decide, by decide, by rfl, by rfl⟩

/-! ## C38: write then read of a string slot -/

/-- C38: for each of the three bank tags (`0x0A` for `strK`, `0x0C` for `strM`, `0x12` for
`strS`) and an index in the range of the bank, `setStringValue` returns, `getStringValue`
on the same tag and index then returns the string that was set, every other slot of the
bank and the other two banks hold what they held, and nothing else of the machine has
changed. -/
theorem setStringValue_getStringValue (m : RLMachine) (i : Int) (s : String)
    (h0 : 0 ≤ i) (h1 : i ≤ 1999) :
    (i ≤ 2 → ∃ m1, setStringValue 0x0A i s m = .ok () m1 ∧
      getStringValue 0x0A i m1 = .ok s m1 ∧
      (∀ j, j ≠ i → m1.strK j = m.strK j) ∧ m1.strM = m.strM ∧ m1.strS = m.strS ∧
      m1 = { m with strK := m1.strK }) ∧
    (∃ m1, setStringValue 0x0C i s m = .ok () m1 ∧
      getStringValue 0x0C i m1 = .ok s m1 ∧
      (∀ j, j ≠ i → m1.strM j = m.strM j) ∧ m1.strK = m.strK ∧ m1.strS = m.strS ∧
      m1 = { m with strM := m1.strM }) ∧
    (∃ m1, setStringValue 0x12 i s m = .ok () m1 ∧
      getStringValue 0x12 i m1 = .ok s m1 ∧
      (∀ j, j ≠ i → m1.strS j = m.strS j) ∧ m1.strK = m.strK ∧ m1.strM = m.strM ∧
      m1 = { m with strS := m1.strS }) := by
  have hhi : ¬ (i > 1999) := by omega
  have hbank : 0 ≤ i ∧ i < STR_BANK_SIZE := by unfold STR_BANK_SIZE; omega
  refine ⟨?_, ?_, ?_⟩
  · intro h2
    have hk : ¬ (i > 2) := by omega
    have hin : 0 ≤ i ∧ i < STRK_SIZE := by unfold STRK_SIZE; omega
    refine ⟨{ m with strK := storeStr m.strK i s }, ?_, ?_, ?_, rfl, rfl, rfl⟩
    · simp [setStringValue, hhi, hk, hin]
    · simp [getStringValue, hhi, hk, readStr, hin, storeStr]
    · intro j hj
      simp [storeStr, hj]
  · refine ⟨{ m with strM := storeStr m.strM i s }, ?_, ?_, ?_, rfl, rfl, rfl⟩
    · simp [setStringValue, hhi, hbank]
    · simp [getStringValue, hhi, readStr, hbank, storeStr]
    · intro j hj
      simp [storeStr, hj]
  · refine ⟨{ m with strS := storeStr m.strS i s }, ?_, ?_, ?_, rfl, rfl, rfl⟩
    · simp [setStringValue, hhi, hbank]
    · simp [getStringValue, hhi, readStr, hbank, storeStr]
    · intro j hj
      simp [storeStr, hj]

/-- C38, at index 2, the last slot of `strK`, on the sample machine. -/
theorem setStringValue_getStringValue_witness :
    (0 : Int) ≤ 2 ∧ (2 : Int) ≤ 1999 ∧
    (((2 : Int) ≤ 2 → ∃ m1, setStringValue 0x0A 2 "name" sampleMachine = .ok () m1 ∧
      getStringValue 0x0A 2 m1 = .ok "name" m1 ∧
      (∀ j, j ≠ 2 → m1.strK j = sampleMachine.strK j) ∧ m1.strM = sampleMachine.strM ∧
      m1.strS = sampleMachine.strS ∧ m1 = { sampleMachine with strK := m1.strK }) ∧
    (∃ m1, setStringValue 0x0C 2 "name" sampleMachine = .ok () m1 ∧
      getStringValue 0x0C 2 m1 = .ok "name" m1 ∧
      (∀ j, j ≠ 2 → m1.strM j = sampleMachine.strM j) ∧ m1.strK = sampleMachine.strK ∧
      m1.strS = sampleMachine.strS ∧ m1 = { sampleMachine with strM := m1.strM }) ∧
    (∃ m1, setStringValue 0x12 2 "name" sampleMachine = .ok () m1 ∧
      getStringValue 0x12 2 m1 = .ok "name" m1 ∧
      (∀ j, j ≠ 2 → m1.strS j = sampleMachine.strS j) ∧ m1.strK = sampleMachine.strK ∧
      m1.strM = sampleMachine.strM ∧ m1 = { sampleMachine with strS := m1.strS })) :=
  ⟨by decide, by decide,
    setStringValue_getStringValue sampleMachine 2 "name" (by decide) (by decide)⟩

/-! ## C39: the reads of `allocated_begin()` -/

/-- C39: on an array of two slots with no allocated slot the scan of `allocated_begin()`
reads `m_array` at the indices 0, 1 and 2, and on an array of size 0 it reads it at the
index 0, whatever it finds there: each time the last read is at the index `size()`,
outside the array, where the claim has the scan stop without inspecting that index. The
condition of the loop reads `m_array[firstEntry]` before it tests
`firstEntry < m_size`. -/
theorem allocated_begin_reads_index_size (pastEnd : Int → Bool) :
    sampleEmptyLazyArray.size = 2 ∧
    sampleEmptyLazyArray.firstEntryReads pastEnd 3 0 = some [0, 1, 2] ∧
    sampleEmptyLazyArray.allocated_begin pastEnd 3 = some sampleEmptyLazyArray.allocated_end ∧
    (LazyArray.create 0 : Exec Unit (LazyArray Nat)) () =
      .ok { m_size := 0, m_array := [] } () ∧
    ({ m_size := 0, m_array := [] } : LazyArray Nat).firstEntryReads pastEnd 1 0 =
      some [0] := by
  refine ⟨rfl, ?_, ?_, rfl, ?_⟩
  · simp [LazyArray.firstEntryReads, LazyArray.isNull, sampleEmptyLazyArray]
  · simp [LazyArray.allocated_begin, LazyArray.firstEntryLoop, LazyArray.isNull,
      sampleEmptyLazyArray, LazyArray.allocated_end]
  · simp [LazyArray.firstEntryReads]

/-! ## C40: `copyTo` -/

/-- C40: for two arrays that satisfy the class invariant, `copyTo(other)` throws when
`other.size() < size()` and leaves both arrays as they were; otherwise it returns, the
source is unchanged, `other.size()` is `size()`, every slot of `other` below `size()` is
what the slot of the source is, allocated with the same value or not allocated, and the
slots of `other` from `size()` on are as they were. -/
theorem copyTo_contract {T : Type} (src other : LazyArray T) (hs : src.Valid)
    (ho : other.Valid) :
    (other.size < src.size →
      LazyArray.copyTo (src, other) = .thrown .runtime_error (src, other)) ∧
    (¬ (other.size < src.size) →
      ∃ other1, LazyArray.copyTo (src, other) = .ok () (src, other1) ∧
        other1.size = src.size ∧
        (∀ i : Nat, (i : Int) < src.size →
          other1.m_array[i]? = src.m_array[i]? ∧ other1.allocated i = src.allocated i) ∧
        (∀ i : Nat, src.size ≤ (i : Int) → other1.m_array[i]? = other.m_array[i]?)) := by
  obtain ⟨hs0, hslen⟩ := hs
  obtain ⟨ho0, holen⟩ := ho
  unfold LazyArray.size
  constructor
  · intro h
    unfold LazyArray.copyTo
    rw [if_pos h]
  · intro h
    obtain ⟨o1, h1, hsize, hlen, hget⟩ := copyLoop_spec src src.m_size.toNat 0
      { other with m_size := src.m_size } (by omega) (by simp only; omega)
    have hz : ((0 : Nat) : Int) = 0 := rfl
    rw [hz] at h1
    refine ⟨o1, ?_, hsize, ?_, ?_⟩
    · unfold LazyArray.copyTo
      rw [if_neg h]
      exact h1
    · intro i hi
      have hg := hget i
      rw [if_pos (by omega)] at hg
      refine ⟨hg, ?_⟩
      unfold LazyArray.allocated
      rw [hg]
    · intro i hi
      have hg := hget i
      rw [if_neg (by omega)] at hg
      exact hg

/-- C40, from the sample array (four slots, 1 and 3 allocated) to an array of five slots
of which 0, 1 and 4 are allocated. -/
theorem copyTo_contract_witness :
    sampleLazyArray.Valid ∧ sampleTargetLazyArray.Valid ∧
    LazyArray.copyTo (sampleLazyArray, sampleTargetLazyArray) =
      .ok () (sampleLazyArray,
        { m_size := 4, m_array := [none, some 10, none, some 30, some 5] }) ∧
    ((sampleTargetLazyArray.size < sampleLazyArray.size →
      LazyArray.copyTo (sampleLazyArray, sampleTargetLazyArray) =
        .thrown .runtime_error (sampleLazyArray, sampleTargetLazyArray)) ∧
    (¬ (sampleTargetLazyArray.size < sampleLazyArray.size) →
      ∃ other1, LazyArray.copyTo (sampleLazyArray, sampleTargetLazyArray) =
          .ok () (sampleLazyArray, other1) ∧
        other1.size = sampleLazyArray.size ∧
        (∀ i : Nat, (i : Int) < sampleLazyArray.size →
          other1.m_array[i]? = sampleLazyArray.m_array[i]? ∧
          other1.allocated i = sampleLazyArray.allocated i) ∧
        (∀ i : Nat, sampleLazyArray.size ≤ (i : Int) →
          other1.m_array[i]? = sampleTargetLazyArray.m_array[i]?))) :=
  ⟨⟨by decide, by decide⟩, ⟨by decide, by decide⟩, rfl,
    copyTo_contract sampleLazyArray sampleTargetLazyArray ⟨by decide, by decide⟩
      ⟨by decide, by decide⟩⟩

end RLVM
